import Mathlib

/-!
# TCP-GameServer: a shallow embedding of `GameServer.cpp`

The definitions below follow `src/GameServer.h` and `src/GameServer.cpp`.

Conventions of the embedding
* a `uint8_t` is a `Byte` (`Fin 256`); storing an integer into a byte cell truncates it;
* a `uint32_t` / `int32_t` bit pattern is a `Nat` taken modulo `2 ^ 32`; the signed counters
  (`numAlivePlayers`, `numActiveSockets`, `score`) are `Int`s wrapped into the `int32_t` range;
* a `float` coordinate is stored as its raw 32-bit pattern (the code moves it with `memcpy`);
  the float arithmetic of `getDistance` is not interpreted: the outcome of the comparison
  `getDistance(a, b) <= EXPLOSION_RADIUS` is a parameter `blast` of the coordinates;
* the host byte order is a parameter (`ByteOrder`), because `htonl` / `ntohl` depend on it;
* results of system calls (`accept`, `recv`, `send`) are arguments of the functions;
* a heap array obtained with `new T[n]` is the log of the writes made to it.
-/

namespace TCPGameServer

/-! ## Constants of `GameServer.h` -/

def VERSION_NUM : Nat := 1

def PLAYER_MOVE : Nat := 1
def PLAYER_SELF_ANNIHILATE : Nat := 2
def PLAYER_SPAWN : Nat := 3
def PLAYER_JOIN_RESPONSE : Nat := 4
def SERVER_MAP_UPDATE : Nat := 5
def PLAYER_SPAWN_WITH_ID : Nat := 6
def ANNIHILATION_RESULTS : Nat := 7

def BUFFER_SIZE : Nat := 1024
def PLAYER_LIMIT : Nat := 20

/-! ## Machine integers and bytes -/

/-- A `uint8_t`. -/
abbrev Byte := Fin 256

/-- Storing an integer value into a `uint8_t` cell keeps its low eight bits. -/
def toByte (v : Nat) : Byte := Fin.ofNat v

/-- The value of an `int32_t` after an arithmetic result `v` is stored into it
(two's complement wrap-around). -/
def wrapInt32 (v : Int) : Int := (v + 2147483648) % 4294967296 - 2147483648

/-- The `uint32_t` with the bit pattern of the `int` value `v`. -/
def toUInt32 (v : Int) : Nat := (v % 4294967296).toNat

/-- Macro `GET_BYTE_3(x)`: `((x & 0xFF000000) >> 24)`. -/
def GET_BYTE_3 (x : Nat) : Nat := (x &&& 0xFF000000) >>> 24

/-- Macro `GET_BYTE_2(x)`: `((x & 0x00FF0000) >> 16)`. -/
def GET_BYTE_2 (x : Nat) : Nat := (x &&& 0x00FF0000) >>> 16

/-- Macro `GET_BYTE_1(x)`: `((x & 0x0000FF00) >> 8)`. -/
def GET_BYTE_1 (x : Nat) : Nat := (x &&& 0x0000FF00) >>> 8

/-- Macro `GET_BYTE_0(x)`: `(x & 0x000000FF)`. -/
def GET_BYTE_0 (x : Nat) : Nat := x &&& 0x000000FF

/-- Byte order of the machine the server runs on. -/
inductive ByteOrder where
  | littleEndian
  | bigEndian
deriving DecidableEq

/-- Reversal of the four bytes of a 32-bit pattern (what `htonl` and `ntohl` do on a
little-endian host). -/
def bswap32 (x : Nat) : Nat :=
  ((x &&& 0xFF000000) >>> 24) ||| ((x &&& 0x00FF0000) >>> 8) |||
    ((x &&& 0x0000FF00) <<< 8) ||| ((x &&& 0x000000FF) <<< 24)

/-- Reversal of the two bytes of a 16-bit pattern (`htons` on a little-endian host). -/
def bswap16 (x : Nat) : Nat := ((x &&& 0xFF00) >>> 8) ||| ((x &&& 0x00FF) <<< 8)

/-- The libc function `htonl` on a 32-bit pattern: the identity on a big-endian host, the byte
reversal on a little-endian host. -/
def htonl (host : ByteOrder) (x : Nat) : Nat :=
  match host with
  | .bigEndian => x % 4294967296
  | .littleEndian => bswap32 (x % 4294967296)

/-- The libc function `ntohl`: the same permutation of bytes as `htonl`. -/
def ntohl (host : ByteOrder) (x : Nat) : Nat :=
  match host with
  | .bigEndian => x % 4294967296
  | .littleEndian => bswap32 (x % 4294967296)

/-- The libc function `htons` on a 16-bit pattern. -/
def htons (host : ByteOrder) (x : Nat) : Nat :=
  match host with
  | .bigEndian => x % 65536
  | .littleEndian => bswap16 (x % 65536)

/-- The assembly `v |= b0 << 24; v |= b1 << 16; v |= b2 << 8; v |= b3` of a `uint32_t` that
starts at zero, as written in `processPlayerMessage`. -/
def assemble32 (b0 b1 b2 b3 : Byte) : Nat :=
  ((((0 ||| (b0.val <<< 24)) ||| (b1.val <<< 16)) ||| (b2.val <<< 8)) ||| b3.val) % 4294967296

/-! ## Heap arrays -/

/-- An array obtained with `new T[size]`. Its cells start uninitialised; `writes` lists the
assignments `a[i] = v` made so far, the latest first, whether or not `i` is inside the array. -/
structure HeapArray (α : Type) where
  size : Int
  writes : List (Nat × α)
deriving DecidableEq

/-- The expression `new T[size]`. -/
def HeapArray.alloc {α : Type} (size : Int) : HeapArray α := { size := size, writes := [] }

/-- The assignment `a[i] = v`. -/
def HeapArray.write {α : Type} (a : HeapArray α) (i : Nat) (v : α) : HeapArray α :=
  { a with writes := (i, v) :: a.writes }

/-- The content of cell `i`: the value of the latest write to it, `none` when the cell was never
written (it is then uninitialised). -/
def HeapArray.read {α : Type} (a : HeapArray α) (i : Nat) : Option α :=
  (a.writes.find? (fun w => w.1 == i)).map (fun w => w.2)

/-- The cells `0 .. n-1` of the array, in order. -/
def HeapArray.cells {α : Type} (a : HeapArray α) (n : Nat) : List (Option α) :=
  (List.range n).map a.read

/-! ## The player table -/

/-- The struct `Player` of `GameServer.h`. Coordinates are raw `float` bit patterns. The socket
address fields (`info`, `addr`, `addrlen`) are only handed to `accept` and are left out. -/
structure Player where
  sockfd : Int
  recvBuffer : List Byte
  sendBuffer : List Byte
  x : Nat
  y : Nat
  z : Nat
  isAlive : Bool
  score : Int
deriving DecidableEq

/-- A player slot whose memory is all zero bytes. -/
def Player.zero : Player :=
  { sockfd := 0, recvBuffer := List.replicate BUFFER_SIZE 0,
    sendBuffer := List.replicate BUFFER_SIZE 0, x := 0, y := 0, z := 0,
    isAlive := false, score := 0 }

instance : Inhabited Player := ⟨Player.zero⟩

/-- The members of class `GameServer` that the game logic reads and writes. The listening host
(`server`), `timeout` and the `fd_set`s belong to the socket layer and are left out. -/
structure GameServer where
  players : List Player
  numActiveSockets : Int
  numAlivePlayers : Int
  maxfd : Int
deriving DecidableEq

/-- The expression `players[i]` read as a value. The table is a list of `PLAYER_LIMIT` slots; an
index outside the list reads as `Player.zero` (the functions below meet this only where the
source itself indexes past the array). -/
def getP (ps : List Player) (i : Nat) : Player := ps.getD i Player.zero

/-- An assignment to fields of `players[i]`: the slot is replaced by `f` of its value. -/
def modP (ps : List Player) (i : Nat) (f : Player → Player) : List Player :=
  ps.set i (f (getP ps i))

/-- Constructor `GameServer::GameServer` after `createTCPServer` succeeded. `mem` is what the
memory of the `players` array holds when the constructor starts (the object is not zeroed) and
`serverfd` is the listening socket. The loop body is `players[0].sockfd = 0` as in the source. -/
def GameServer.init (mem : List Player) (serverfd : Int) : GameServer :=
  { players := (List.range PLAYER_LIMIT).foldl
      (fun ps _ => modP ps 0 (fun p => { p with sockfd := 0 })) mem,
    numActiveSockets := 0,
    numAlivePlayers := 0,
    maxfd := serverfd }

/-! ## Explosion propagation -/

/-- The three coordinates of a player, as raw `float` bit patterns. -/
structure Coords where
  x : Nat
  y : Nat
  z : Nat
deriving DecidableEq

/-- The coordinates stored in a player slot. -/
def Player.coords (p : Player) : Coords := { x := p.x, y := p.y, z := p.z }

/-- The outcome of the float comparison `getDistance(id1, id2) <= EXPLOSION_RADIUS` as a function
of the coordinates of the two players. `getDistance` reads nothing but `x`, `y` and `z`. -/
abbrev BlastTest := Coords → Coords → Bool

/-- The test `getDistance(playerID1, playerID2) <= EXPLOSION_RADIUS` on the player table. -/
def withinRadius (blast : BlastTest) (ps : List Player) (playerID1 playerID2 : Nat) : Bool :=
  blast (getP ps playerID1).coords (getP ps playerID2).coords

/-- What a call of `simRecursiveExplosion` leaves behind: the returned `numKills`, the server
state and the `killedPlayers` array. -/
abbrev ExplosionResult := Nat × GameServer × HeapArray Nat

/-- The loop `for (int i = 0; i < PLAYER_LIMIT; i++)` of `simRecursiveExplosion`, run over the
indices `is` still to visit, with the local `numKills`. `recur` stands for the recursive call
`simRecursiveExplosion(i, killedPlayers, numKills + 1)`; it yields `none` when the recursion
budget is exhausted. -/
def explosionLoop (blast : BlastTest)
    (recur : Nat → HeapArray Nat → Nat → GameServer → Option ExplosionResult)
    (playerID : Nat) :
    List Nat → Nat → GameServer → HeapArray Nat → Option ExplosionResult
  | [], numKills, s, killedPlayers => some (numKills, s, killedPlayers)
  | i :: rest, numKills, s, killedPlayers =>
    if i ≠ playerID ∧ (getP s.players i).sockfd ≠ 0 ∧ (getP s.players i).isAlive = true
        ∧ withinRadius blast s.players playerID i = true then
      -- killedPlayers[numKills] = i; players[i].isAlive = false; numKills++; numAlivePlayers--;
      let killedPlayers1 := killedPlayers.write numKills i
      let s1 : GameServer :=
        { s with
          players := modP s.players i (fun p => { p with isAlive := false })
          numAlivePlayers := wrapInt32 (s.numAlivePlayers - 1) }
      let numKills1 := numKills + 1
      -- numKills += simRecursiveExplosion(i, killedPlayers, numKills + 1);
      match recur i killedPlayers1 (numKills1 + 1) s1 with
      | none => none
      | some (k, s2, killedPlayers2) =>
        explosionLoop blast recur playerID rest (numKills1 + k) s2 killedPlayers2
    else
      explosionLoop blast recur playerID rest numKills s killedPlayers

/-- The method `GameServer::simRecursiveExplosion(playerID, killedPlayers, index)`. The
parameter `index` is received and, as in the source, never used: every call starts its own
`numKills` at zero and writes `killedPlayers[numKills]`. `fuel` bounds the depth of the
recursion; the result is `none` only when the budget is exhausted. -/
def simRecursiveExplosion (blast : BlastTest) :
    Nat → Nat → HeapArray Nat → Nat → GameServer → Option ExplosionResult
  | 0, _, _, _, _ => none
  | fuel + 1, playerID, killedPlayers, _index, s =>
    explosionLoop blast (simRecursiveExplosion blast fuel) playerID
      (List.range PLAYER_LIMIT) 0 s killedPlayers

/-- The links of a chain reaction from player `a` through the players of `chain`, tested on the
table `ps`: each next player is a slot of the table, connected (`sockfd != 0`), alive in `ps`,
and within the explosion radius of the player before it. -/
def blastChain (blast : BlastTest) (ps : List Player) : Nat → List Nat → Bool
  | _, [] => true
  | a, b :: rest =>
    decide (b < PLAYER_LIMIT) && decide ((getP ps b).sockfd ≠ 0) && (getP ps b).isAlive
      && withinRadius blast ps a b && blastChain blast ps b rest

/-- The players whose `isAlive` flag is `true` in `ps` and `false` in `qs`. -/
def eliminated (ps qs : List Player) : List Nat :=
  (List.range PLAYER_LIMIT).filter
    (fun i => (getP ps i).isAlive && !(getP qs i).isAlive)

/-- Decodes a finite `float` bit pattern into the integer `v * 2 ^ 149`, where `v` is the number
the pattern denotes; `none` for infinities and NaNs. -/
def floatScaled (bits : Nat) : Option Int :=
  let sign : Int := if bits / 2147483648 % 2 = 1 then -1 else 1
  let e := bits / 8388608 % 256
  let m := bits % 8388608
  if e = 255 then none
  else if e = 0 then some (sign * m)
  else some (sign * ((8388608 + m) * 2 ^ (e - 1)))

/-- One instance of `BlastTest`: the comparison `getDistance(a, b) <= 0.25` evaluated in exact
arithmetic on the numbers the bit patterns denote (the C++ code rounds every intermediate
result to `float`). In units of `2 ^ -149` the radius `0.25` is `2 ^ 147`. -/
def exactBlast : BlastTest := fun a b =>
  match floatScaled a.x, floatScaled a.y, floatScaled a.z,
        floatScaled b.x, floatScaled b.y, floatScaled b.z with
  | some ax, some ay, some az, some bx, some b_y, some bz =>
    decide ((ax - bx) * (ax - bx) + (ay - b_y) * (ay - b_y) + (az - bz) * (az - bz)
      ≤ 2 ^ 147 * 2 ^ 147)
  | _, _, _, _, _, _ => false

/-! ## Join response and accepting players -/

/-- The byte `buf[i]` of a staging buffer. -/
def byteAt (buf : List Byte) (i : Nat) : Byte := buf.getD i 0

/-- The ten assignments `sendBuffer[0] = ...` up to `sendBuffer[9] = ...` of `sendJoinResponse`. -/
def loadJoinResponse (host : ByteOrder) (playerID : Nat) (sendBuffer : List Byte) : List Byte :=
  let convertedID := htonl host playerID
  let numBytes := 10
  let convertedBytes := htonl host numBytes
  (((((((((sendBuffer.set 0 (toByte (GET_BYTE_3 convertedBytes))).set 1
    (toByte (GET_BYTE_2 convertedBytes))).set 2
    (toByte (GET_BYTE_1 convertedBytes))).set 3
    (toByte (GET_BYTE_0 convertedBytes))).set 4
    (toByte VERSION_NUM)).set 5
    (toByte PLAYER_JOIN_RESPONSE)).set 6
    (toByte (GET_BYTE_3 convertedID))).set 7
    (toByte (GET_BYTE_2 convertedID))).set 8
    (toByte (GET_BYTE_1 convertedID))).set 9
    (toByte (GET_BYTE_0 convertedID))

/-- The method `GameServer::sendJoinResponse(playerID)`; `bytes` is the value returned by `send`,
which is handed the first `numBytes = 10` bytes of the send buffer. -/
def sendJoinResponse (host : ByteOrder) (playerID : Nat) (bytes : Int) (s : GameServer) :
    Int × GameServer :=
  let s1 : GameServer :=
    { s with
      players := modP s.players playerID
        (fun p => { p with sendBuffer := loadJoinResponse host playerID p.sendBuffer }) }
  if bytes = -1 then (-1, s1)
  else if bytes < 10 then (-1, s1)
  else (0, s1)

/-- The value of `i` after the scanning loop of `acceptNewPlayer`: the first index below
`PLAYER_LIMIT` whose `sockfd` is zero, or `PLAYER_LIMIT` when the loop runs to its end. -/
def firstEmptySlot (ps : List Player) : Nat :=
  ((List.range PLAYER_LIMIT).find? (fun i => decide ((getP ps i).sockfd = 0))).getD PLAYER_LIMIT

/-- The method `GameServer::acceptNewPlayer()`. `fd` is the value returned by `accept`. When the
scan finds no empty slot the test `players[i].sockfd != 0` reads one slot past the table; `past`
is the `int` found there. The result is `none` when the code goes on to write that slot, which
lies outside the table. -/
def acceptNewPlayer (past : Int) (fd : Int) (s : GameServer) : Option (Int × GameServer) :=
  let i := firstEmptySlot s.players
  let found : Int := if i < PLAYER_LIMIT then (getP s.players i).sockfd else past
  if found ≠ 0 then some (-2, s)
  else if fd = -1 then some (-1, s)
  else if i < PLAYER_LIMIT then
    some ((i : Int),
      { s with
        players := modP s.players i
          (fun p => { p with sockfd := fd, score := 0, isAlive := false })
        maxfd := if fd > s.maxfd then fd else s.maxfd })
  else none

/-- The loop `while (id == -1 && count > 0) { id = acceptNewPlayer(); count--; }` of `run`;
`fds k` is the value returned by the `k`-th call of `accept`. -/
def acceptRetry (past : Int) (fds : Nat → Int) :
    Nat → Nat → Int → GameServer → Option (Int × GameServer)
  | 0, _, id, s => some (id, s)
  | count + 1, k, id, s =>
    if id = -1 then
      match acceptNewPlayer past (fds k) s with
      | none => none
      | some (id1, s1) => acceptRetry past fds count (k + 1) id1 s1
    else some (id, s)

/-- The loop `while (res == -1 && count > 0) { res = sendJoinResponse(id); count--; }` of `run`;
`sent k` is the value returned by the `k`-th call of `send`. -/
def joinRetry (host : ByteOrder) (id : Nat) (sent : Nat → Int) :
    Nat → Nat → Int → GameServer → Int × GameServer
  | 0, _, res, s => (res, s)
  | count + 1, k, res, s =>
    if res = -1 then
      let r := sendJoinResponse host id (sent k) s
      joinRetry host id sent count (k + 1) r.1 r.2
    else (res, s)

/-- The branch `if (FD_ISSET(server->sockfd, &readSet))` of `run`: accept a player (with up to
three retries), and when an id was obtained increment both counters and send the join response
(with up to three retries). -/
def runAccept (host : ByteOrder) (past : Int) (fds : Nat → Int) (sent : Nat → Int)
    (s : GameServer) : Option GameServer :=
  match acceptNewPlayer past (fds 0) s with
  | none => none
  | some (id0, s0) =>
    match acceptRetry past fds 3 1 id0 s0 with
    | none => none
    | some (id, s1) =>
      if id ≥ 0 then
        let s2 : GameServer :=
          { s1 with
            numAlivePlayers := wrapInt32 (s1.numAlivePlayers + 1)
            numActiveSockets := wrapInt32 (s1.numActiveSockets + 1) }
        let r := sendJoinResponse host id.toNat (sent 0) s2
        some (joinRetry host id.toNat sent 3 1 r.1 r.2).2
      else some s1

/-! ## Processing a player message -/

/-- What `recv` returned: `-1`, or the number of bytes it stored at the start of the receive
buffer together with those bytes (no bytes at all when it returned `0`). -/
inductive RecvResult where
  | error
  | received (bytes : List Byte)
deriving DecidableEq

/-- The receive buffer after `recv` stored `data` at its start; the cells beyond keep what
earlier reads left there. -/
def recvInto (data : List Byte) (recvBuffer : List Byte) : List Byte :=
  data ++ recvBuffer.drop data.length

/-- The length field as `processPlayerMessage` decodes it: `rawBytes` assembled from bytes 0 to 3,
then `numBytes = ntohl(rawBytes)`. -/
def decodeNumBytes (host : ByteOrder) (buf : List Byte) : Nat :=
  ntohl host (assemble32 (byteAt buf 0) (byteAt buf 1) (byteAt buf 2) (byteAt buf 3))

/-- A coordinate as `processPlayerMessage` decodes it from the four bytes at `off`:
`temp` assembled from the bytes, then `ntohl(temp)`, then `memcpy` into the `float`. -/
def decodeCoord (host : ByteOrder) (buf : List Byte) (off : Nat) : Nat :=
  ntohl host (assemble32 (byteAt buf off) (byteAt buf (off + 1)) (byteAt buf (off + 2))
    (byteAt buf (off + 3)))

/-- A call of one of the broadcast methods made by `processPlayerMessage`, with its arguments.
The broadcast methods read the server state and write none of it. -/
inductive BroadcastCall where
  | selfDestruct (playerID : Nat) (numKills : Nat) (killedPlayers : HeapArray Nat)
  | newSpawn (playerID : Nat)
deriving DecidableEq

/-- The method `GameServer::processPlayerMessage(playerID)`: the returned code, the state it
leaves and the broadcasts it makes. The result is `none` only if the recursion budget given
to `simRecursiveExplosion` is exhausted. -/
def processPlayerMessage (host : ByteOrder) (blast : BlastTest) (playerID : Nat)
    (r : RecvResult) (s : GameServer) : Option (Int × GameServer × List BroadcastCall) :=
  match r with
  | .error => some (-1, s, [])
  | .received data =>
    let buf := recvInto data (getP s.players playerID).recvBuffer
    let s0 : GameServer :=
      { s with players := modP s.players playerID (fun p => { p with recvBuffer := buf }) }
    if data.length = 0 then some (0, s0, [])
    else
      let numBytes := decodeNumBytes host buf
      if data.length < numBytes then some (-1, s0, [])
      else if (byteAt buf 4).val ≠ VERSION_NUM then some (-1, s0, [])
      else if (byteAt buf 5).val = PLAYER_MOVE then
        if numBytes ≠ 18 then some (-1, s0, [])
        else
          some (0,
            { s0 with
              players := modP s0.players playerID (fun p =>
                { p with x := decodeCoord host buf 6, y := decodeCoord host buf 10,
                         z := decodeCoord host buf 14 }) },
            [])
      else if (byteAt buf 5).val = PLAYER_SELF_ANNIHILATE then
        if numBytes ≠ 6 then some (-1, s0, [])
        else
          let s1 : GameServer :=
            { s0 with
              players := modP s0.players playerID (fun p => { p with isAlive := false })
              numAlivePlayers := wrapInt32 (s0.numAlivePlayers - 1) }
          match simRecursiveExplosion blast (PLAYER_LIMIT + 1) playerID
              (HeapArray.alloc ((PLAYER_LIMIT : Int) - 1)) 0 s1 with
          | none => none
          | some (numKills, s2, killedPlayers) =>
            some (0,
              { s2 with
                players := modP s2.players playerID (fun p =>
                  { p with score := wrapInt32 (p.score + numKills) }) },
              [BroadcastCall.selfDestruct playerID numKills killedPlayers])
      else if (byteAt buf 5).val = PLAYER_SPAWN then
        if numBytes ≠ 18 then some (-1, s0, [])
        else
          some (0,
            { s0 with
              players := modP s0.players playerID (fun p =>
                { p with x := decodeCoord host buf 6, y := decodeCoord host buf 10,
                         z := decodeCoord host buf 14, isAlive := true }) },
            [BroadcastCall.newSpawn playerID])
      else some (-1, s0, [])

/-! ## Broadcast messages -/

/-- Consecutive assignments `message[index] = v0; message[index + 1] = v1; ...`. -/
def writeBytes (message : HeapArray Byte) : Nat → List Nat → HeapArray Byte
  | _, [] => message
  | index, v :: vs => writeBytes (message.write index (toByte v)) (index + 1) vs

/-- The length field of a built message read back the way `processPlayerMessage` reads it:
bytes 0 to 3 assembled, then `ntohl`. `none` if one of the four cells was never written. -/
def decodedLength (host : ByteOrder) (message : HeapArray Byte) : Option Nat :=
  match message.read 0, message.read 1, message.read 2, message.read 3 with
  | some b0, some b1, some b2, some b3 => some (ntohl host (assemble32 b0 b1 b2 b3))
  | _, _, _, _ => none

/-- The four bytes `GET_BYTE_3(v), GET_BYTE_2(v), GET_BYTE_1(v), GET_BYTE_0(v)`. -/
def fourBytes (v : Nat) : List Nat := [GET_BYTE_3 v, GET_BYTE_2 v, GET_BYTE_1 v, GET_BYTE_0 v]

/-- The message that `broadcastNewSpawn(playerID)` builds (`messageSize = 22`) and hands to
`send` for every other connected player. -/
def newSpawnMessage (host : ByteOrder) (playerID : Nat) (s : GameServer) : HeapArray Byte :=
  let messageSize : Int := 22
  let binaryX := (getP s.players playerID).x
  let binaryY := (getP s.players playerID).y
  let binaryZ := (getP s.players playerID).z
  let message : HeapArray Byte := HeapArray.alloc messageSize
  let convertedBytes := htonl host (toUInt32 messageSize)
  let convertedID := htonl host playerID
  let convertedX := htonl host binaryX
  let convertedY := htonl host binaryY
  let convertedZ := htonl host binaryZ
  writeBytes message 0
    (fourBytes convertedBytes ++ [VERSION_NUM, PLAYER_SPAWN_WITH_ID] ++ fourBytes convertedID
      ++ fourBytes convertedX ++ fourBytes convertedY ++ fourBytes convertedZ)

/-- The loop of `broadcastSelfDestruct` that loads the ids of the killed players, over the
indices `is` still to visit. The array `killedPlayers` comes from `new int32_t[...]` without
initialisation: a cell that no assignment reached is read all the same, and `stale i` is the
value found in cell `i` then. -/
def selfDestructLoop (host : ByteOrder) (killedPlayers : HeapArray Nat) (stale : Nat → Nat) :
    List Nat → Nat → HeapArray Byte → HeapArray Byte
  | [], _, message => message
  | i :: rest, index, message =>
    let id := (killedPlayers.read i).getD (stale i)
    selfDestructLoop host killedPlayers stale rest (index + 4)
      (writeBytes message index (fourBytes (htonl host id)))

/-- The message that `broadcastSelfDestruct(playerID, numKills, killedPlayers)` builds
(`messageSize = 12 + numKills * 4`); `stale` gives the content of the cells of `killedPlayers`
that were never written. `none` when `new` is given a negative size. -/
def selfDestructMessage (host : ByteOrder) (playerID : Nat) (numKills : Nat)
    (killedPlayers : HeapArray Nat) (stale : Nat → Nat) : Option (HeapArray Byte) :=
  let messageSize : Int := wrapInt32 (12 + (numKills : Int) * 4)
  if messageSize < 0 then none
  else
    let message : HeapArray Byte := HeapArray.alloc messageSize
    let convertedBytes := htonl host (toUInt32 messageSize)
    let convertedID := htonl host playerID
    let convertedNumKills := htons host (toUInt32 numKills)
    let header := writeBytes message 0
      (fourBytes convertedBytes ++ [VERSION_NUM, ANNIHILATION_RESULTS] ++ fourBytes convertedID
        ++ [GET_BYTE_1 convertedNumKills, GET_BYTE_0 convertedNumKills])
    some (selfDestructLoop host killedPlayers stale (List.range numKills) 12 header)

/-- The loop of `broadcastMapUpdate` that loads one 16-byte record per connected alive player,
over the indices `is` still to visit; it returns the final `index` and the message. -/
def mapUpdateLoop (host : ByteOrder) (ps : List Player) :
    List Nat → Nat → HeapArray Byte → Nat × HeapArray Byte
  | [], index, message => (index, message)
  | i :: rest, index, message =>
    if (getP ps i).sockfd ≠ 0 ∧ (getP ps i).isAlive = true then
      mapUpdateLoop host ps rest (index + 16)
        (writeBytes message index
          (fourBytes (htonl host i) ++ fourBytes (htonl host (getP ps i).x)
            ++ fourBytes (htonl host (getP ps i).y) ++ fourBytes (htonl host (getP ps i).z)))
    else mapUpdateLoop host ps rest index message

/-- The message that `broadcastMapUpdate()` builds (`messageSize = 8 + 16 * numAlivePlayers`),
with the value of `index` after the record loop. `none` when `new` is given a negative size. -/
def mapUpdateMessage (host : ByteOrder) (s : GameServer) : Option (Nat × HeapArray Byte) :=
  let messageSize : Int := wrapInt32 (8 + 16 * s.numAlivePlayers)
  if messageSize < 0 then none
  else
    let message : HeapArray Byte := HeapArray.alloc messageSize
    let convertedBytes := htonl host (toUInt32 messageSize)
    let convertedNumPlayers := htons host (toUInt32 s.numAlivePlayers)
    let header := writeBytes message 0
      (fourBytes convertedBytes ++ [VERSION_NUM, SERVER_MAP_UPDATE,
        GET_BYTE_1 convertedNumPlayers, GET_BYTE_0 convertedNumPlayers])
    some (mapUpdateLoop host s.players (List.range PLAYER_LIMIT) 8 header)

/-! ## Server states that `run` can reach -/

/-- The number of connected sessions (`sockfd != 0`) whose `isAlive` flag is `true`. -/
def aliveCount (ps : List Player) : Nat :=
  ((List.range PLAYER_LIMIT).filter
    (fun i => decide ((getP ps i).sockfd ≠ 0) && (getP ps i).isAlive)).length

/-- The server states reached from the constructed server by the accept branch of `run` and by
`processPlayerMessage` on a connected slot. -/
inductive Reachable (host : ByteOrder) (blast : BlastTest) : GameServer → Prop where
  | init (mem : List Player) (serverfd : Int) (hmem : mem.length = PLAYER_LIMIT) :
      Reachable host blast (GameServer.init mem serverfd)
  | accept (s s1 : GameServer) (past : Int) (fds sent : Nat → Int)
      (hs : Reachable host blast s) (hstep : runAccept host past fds sent s = some s1) :
      Reachable host blast s1
  | message (s s1 : GameServer) (playerID : Nat) (r : RecvResult) (code : Int)
      (calls : List BroadcastCall) (hs : Reachable host blast s)
      (hid : playerID < PLAYER_LIMIT) (hconn : (getP s.players playerID).sockfd ≠ 0)
      (hstep : processPlayerMessage host blast playerID r s = some (code, s1, calls)) :
      Reachable host blast s1

/-! ## Specification vocabulary for the explosion -/

/-- The number of slots whose `isAlive` flag is `true`, connected or not. -/
def liveFlags (ps : List Player) : Nat :=
  ((List.range PLAYER_LIMIT).filter (fun i => (getP ps i).isAlive)).length

/-- What one call of `simRecursiveExplosion(playerID, ...)` (or a part of its loop that went
through the indices `visited` starting with `numKills0` local kills) establishes between the
state `s` before and the state `s1` after, `k` being the number of kills it added. -/
structure ExplosionPost (blast : BlastTest) (playerID : Nat) (visited : List Nat)
    (numKills0 : Nat) (s s1 : GameServer) (k : Nat) (killed killed1 : HeapArray Nat) : Prop where
  len : s1.players.length = s.players.length
  same : ∀ j, { getP s1.players j with isAlive := false }
      = { getP s.players j with isAlive := false }
  mono : ∀ j, (getP s1.players j).isAlive = true → (getP s.players j).isAlive = true
  sockets : s1.numActiveSockets = s.numActiveSockets
  maxfd : s1.maxfd = s.maxfd
  counter : wrapInt32 s.numAlivePlayers = s.numAlivePlayers →
      s1.numAlivePlayers = wrapInt32 (s.numAlivePlayers - k)
  flags : liveFlags s1.players + k = liveFlags s.players
  sound : ∀ j, (getP s.players j).isAlive = true → (getP s1.players j).isAlive = false →
      ∃ mid, blastChain blast s.players playerID (mid ++ [j]) = true
  direct : ∀ v ∈ visited, v ≠ playerID → (getP s.players v).sockfd ≠ 0 →
      withinRadius blast s.players playerID v = true → (getP s1.players v).isAlive = false
  closed : ∀ u v, (getP s.players u).isAlive = true → (getP s1.players u).isAlive = false →
      v < PLAYER_LIMIT → v ≠ u → (getP s.players v).sockfd ≠ 0 →
      withinRadius blast s.players u v = true → (getP s1.players v).isAlive = false
  size : killed1.size = killed.size
  writes : ∃ new, killed1.writes = new ++ killed.writes ∧ ∀ w ∈ new, w.1 < numKills0 + k


/-- A connected player at the point `(x, 0, 0)`, `x` given as a `float` bit pattern. -/
def playerAt (sockfd : Int) (x : Nat) (isAlive : Bool) : Player :=
  { Player.zero with sockfd := sockfd, x := x, isAlive := isAlive }

/-- Three connected players A = (0, 0, 0), B = (0.2, 0, 0), C = (0.4, 0, 0) in slots 0, 1, 2 and
seventeen empty slots; `0x3E4CCCCD` and `0x3ECCCCCD` are the `float`s `0.2f` and `0.4f`.
A has detonated: the Self-Annihilate handler has marked it not-alive and decremented the
counter. -/
def chainServer : GameServer :=
  { players := [playerAt 4 0 false, playerAt 5 0x3E4CCCCD true, playerAt 6 0x3ECCCCCD true]
      ++ List.replicate 17 Player.zero,
    numActiveSockets := 3,
    numAlivePlayers := 2,
    maxfd := 6 }

/-! ## Concrete servers -/

/-- Memory of the player array in which every byte is zero. -/
def zeroMemory : List Player := List.replicate PLAYER_LIMIT Player.zero

/-- The server constructed on zeroed memory, listening on descriptor 3. -/
def freshServer : GameServer := GameServer.init zeroMemory 3

/-- The server on a little-endian host after it accepted one client on descriptor 4 and `send`
took the whole join response. -/
def oneJoined : Option GameServer :=
  runAccept ByteOrder.littleEndian 0 (fun _ => 4) (fun _ => 10) freshServer

/-- The server of `oneJoined` after it accepted a second client on descriptor 5. -/
def twoJoined : Option GameServer :=
  oneJoined.bind (runAccept ByteOrder.littleEndian 0 (fun _ => 5) (fun _ => 10))

/-- The 18-byte Player-Move frame `00 00 00 12, 01, 01` followed by the big-endian patterns of
the floats 0.2, 0.4 and 1.0. -/
def moveFrame : List Byte :=
  [0x00, 0x00, 0x00, 0x12, 0x01, 0x01, 0x3E, 0x4C, 0xCC, 0xCD, 0x3E, 0xCC, 0xCC, 0xCD,
   0x3F, 0x80, 0x00, 0x00]


/-- The fixed frame length of a client message kind: 18 for Move, 6 for Self-Annihilate, 18 for
Spawn; `none` for a kind the server does not recognise. -/
def fixedLength (kind : Nat) : Option Nat :=
  if kind = PLAYER_MOVE then some 18
  else if kind = PLAYER_SELF_ANNIHILATE then some 6
  else if kind = PLAYER_SPAWN then some 18
  else none

/-- The rejection rule of the specification for a read of `n` bytes that left `buf` in the
receive buffer: the decoded length field exceeds `n`, or the version byte is not 1, or the kind
byte is not recognised, or the decoded length differs from the fixed length of the kind. -/
def frameRejected (host : ByteOrder) (n : Nat) (buf : List Byte) : Prop :=
  n < decodeNumBytes host buf ∨ (byteAt buf 4).val ≠ VERSION_NUM ∨
    fixedLength (byteAt buf 5).val = none ∨
    ∃ len, fixedLength (byteAt buf 5).val = some len ∧ decodeNumBytes host buf ≠ len

/-- A Player-Spawn frame as a little-endian host accepts it: length field `12 00 00 00`,
version 1, kind 3, then the patterns `7F C0 00 01` (a NaN), `00 00 00 01` (a denormal) and
`3E 4C CC CD`. -/
def spawnFrame : List Byte :=
  [0x12, 0x00, 0x00, 0x00, 0x01, 0x03, 0x7F, 0xC0, 0x00, 0x01, 0x00, 0x00, 0x00, 0x01,
   0x3E, 0x4C, 0xCC, 0xCD]

/-- A `killedPlayers` array whose cells 0 and 1 hold the ids 1 and 2. -/
def twoKilled : HeapArray Nat :=
  ((HeapArray.alloc ((PLAYER_LIMIT : Int) - 1)).write 0 1).write 1 2

/-! ## Sending a broadcast -/

/-- The loop `while (bytes != messageSize && count > 0) { bytes = send(...); count--; }` that
every broadcast method runs for a target. `results k` is the value returned by the `k`-th call
of `send` to this target within the broadcast (counted from 0), `calls` the number of calls
made so far. It returns the final `bytes` and the number of calls of `send`. -/
def sendRetry (messageSize : Int) (results : Nat → Int) : Nat → Int → Nat → Int × Nat
  | 0, bytes, calls => (bytes, calls)
  | count + 1, bytes, calls =>
    if bytes ≠ messageSize then
      sendRetry messageSize results count (results calls) (calls + 1)
    else (bytes, calls)

/-- What the broadcast methods do for one target: `bytes = -1`; one `send` if the socket is in
`writeSet` (`writable`); then the retry loop with `count = 3`. It returns the final `bytes` and
the number of calls of `send` made for this target. -/
def sendToTarget (messageSize : Int) (writable : Bool) (results : Nat → Int) : Int × Nat :=
  let first : Int × Nat := if writable then (results 0, 1) else (-1, 0)
  sendRetry messageSize results 3 first.1 first.2

/-- The loop `for (int i = 0; i < PLAYER_LIMIT; i++)` that sends the built message, written
three times in the source (in `broadcastSelfDestruct`, `broadcastNewSpawn` and
`broadcastMapUpdate`) with the same body; `target i` is the test that selects slot `i`,
`writable i` is `FD_ISSET(players[i].sockfd, &writeSet)` and `results i k` the value of the
`k`-th `send` to slot `i`. It returns `numSent` and the slots on which `send` was called, one
entry per call, in order. -/
def sendLoop (messageSize : Int) (writable : Nat → Bool) (results : Nat → Nat → Int)
    (target : Nat → Bool) : List Nat → Nat → List Nat → Nat × List Nat
  | [], numSent, sends => (numSent, sends)
  | i :: rest, numSent, sends =>
    if target i = true then
      let r := sendToTarget messageSize (writable i) (results i)
      sendLoop messageSize writable results target rest
        (if r.1 = messageSize then numSent + 1 else numSent) (sends ++ List.replicate r.2 i)
    else sendLoop messageSize writable results target rest numSent sends

/-- The sends of `broadcastNewSpawn(playerID)`: the message of 22 bytes goes to every slot with
`players[i].sockfd != 0 && i != playerID`. It returns `numSent` and the slots of the calls of
`send`. -/
def broadcastNewSpawn (writable : Nat → Bool) (results : Nat → Nat → Int) (playerID : Nat)
    (s : GameServer) : Nat × List Nat :=
  sendLoop 22 writable results
    (fun i => decide ((getP s.players i).sockfd ≠ 0) && decide (i ≠ playerID))
    (List.range PLAYER_LIMIT) 0 []

/-- The sends of `broadcastSelfDestruct(playerID, numKills, killedPlayers)`: the message of
`12 + numKills * 4` bytes goes to every slot with `players[i].sockfd != 0`. `none` when `new`
is given a negative size. -/
def broadcastSelfDestruct (writable : Nat → Bool) (results : Nat → Nat → Int) (numKills : Nat)
    (s : GameServer) : Option (Nat × List Nat) :=
  let messageSize : Int := wrapInt32 (12 + (numKills : Int) * 4)
  if messageSize < 0 then none
  else
    some (sendLoop messageSize writable results
      (fun i => decide ((getP s.players i).sockfd ≠ 0)) (List.range PLAYER_LIMIT) 0 [])

/-- The sends of `broadcastMapUpdate()`: the message of `8 + 16 * numAlivePlayers` bytes goes to
every slot with `players[i].sockfd` non-zero. `none` when `new` is given a negative size. -/
def broadcastMapUpdate (writable : Nat → Bool) (results : Nat → Nat → Int) (s : GameServer) :
    Option (Nat × List Nat) :=
  let messageSize : Int := wrapInt32 (8 + 16 * s.numAlivePlayers)
  if messageSize < 0 then none
  else
    some (sendLoop messageSize writable results
      (fun i => decide ((getP s.players i).sockfd ≠ 0)) (List.range PLAYER_LIMIT) 0 [])

/-! ## More concrete servers and frames -/

/-- A table whose twenty slots are all occupied, by the descriptors 4 to 23. -/
def fullServer : GameServer :=
  { players := (List.range PLAYER_LIMIT).map (fun i => playerAt (4 + (i : Int)) 0 false),
    numActiveSockets := 20,
    numAlivePlayers := 20,
    maxfd := 23 }

/-- A table with slots 0 and 2 occupied (descriptors 4 and 6) and every other slot empty. -/
def gapServer : GameServer :=
  { players := [playerAt 4 0 false, Player.zero, playerAt 6 0 false]
      ++ List.replicate 17 Player.zero,
    numActiveSockets := 2,
    numAlivePlayers := 2,
    maxfd := 6 }

/-- Memory of the player array that is zero except for the `sockfd` field of slot 1, which
holds 7. -/
def staleMemory : List Player := modP zeroMemory 1 (fun p => { p with sockfd := 7 })

/-- A Player-Spawn frame at the origin, as a little-endian host accepts it. -/
def spawnOrigin : List Byte :=
  [0x12, 0x00, 0x00, 0x00, 0x01, 0x03, 0, 0, 0, 0, 0, 0, 0, 0, 0, 0, 0, 0]

/-- A Player-Self-Annihilate frame, as a little-endian host accepts it. -/
def annihilateFrame : List Byte := [0x06, 0x00, 0x00, 0x00, 0x01, 0x02]

/-- One `processPlayerMessage` of the `run` loop on a little-endian host: slot `playerID` is
occupied and `recv` delivers `data`; the state that is left. -/
def afterMessage (playerID : Nat) (data : List Byte) (s : GameServer) : Option GameServer :=
  if (getP s.players playerID).sockfd ≠ 0 ∧ playerID < PLAYER_LIMIT then
    (processPlayerMessage ByteOrder.littleEndian exactBlast playerID
      (RecvResult.received data) s).map (fun r => r.2.1)
  else none

/-- The server of `twoJoined` after player 0 spawned, detonated and spawned again, and player 1
spawned. -/
def respawned : Option GameServer :=
  (((twoJoined.bind (afterMessage 0 spawnOrigin)).bind (afterMessage 0 annihilateFrame)).bind
    (afterMessage 0 spawnOrigin)).bind (afterMessage 1 spawnOrigin)

/-- The server state right after `recv` stored `data` in `players[playerID].recvBuffer`. -/
def storeReceived (playerID : Nat) (data : List Byte) (s : GameServer) : GameServer :=
  { s with
    players := modP s.players playerID
      (fun p => { p with recvBuffer := recvInto data (getP s.players playerID).recvBuffer }) }

/-! ## Reading a map update back -/

/-- A 32-bit field of a built message read back the way `processPlayerMessage` reads one: the
four cells at `off` assembled most significant first, then `ntohl`. `none` if one of the cells
was never written. -/
def decodedWord (host : ByteOrder) (message : HeapArray Byte) (off : Nat) : Option Nat :=
  match message.read off, message.read (off + 1), message.read (off + 2),
        message.read (off + 3) with
  | some b0, some b1, some b2, some b3 => some (ntohl host (assemble32 b0 b1 b2 b3))
  | _, _, _, _ => none

/-- The record `{ID, x, y, z}` read back from the sixteen cells at `off`. -/
def decodedRecord (host : ByteOrder) (message : HeapArray Byte) (off : Nat) :
    Option (Nat × Nat × Nat × Nat) :=
  match decodedWord host message off, decodedWord host message (off + 4),
        decodedWord host message (off + 8), decodedWord host message (off + 12) with
  | some id, some x, some y, some z => some (id, x, y, z)
  | _, _, _, _ => none

/-- The `n` consecutive records read back from the cells starting at `off`. -/
def decodedRecords (host : ByteOrder) (message : HeapArray Byte) :
    Nat → Nat → List (Option (Nat × Nat × Nat × Nat))
  | _, 0 => []
  | off, n + 1 => decodedRecord host message off :: decodedRecords host message (off + 16) n

/-- The connected sessions (`sockfd != 0`) whose `isAlive` flag is `true`, in ascending order of
slot index. -/
def aliveSessions (ps : List Player) : List Nat :=
  (List.range PLAYER_LIMIT).filter
    (fun i => decide ((getP ps i).sockfd ≠ 0) && (getP ps i).isAlive)

/-- The record that the map update carries for session `i`: its slot index and the bit patterns
of its coordinates. -/
def sessionRecord (ps : List Player) (i : Nat) : Nat × Nat × Nat × Nat :=
  (i, (getP ps i).x, (getP ps i).y, (getP ps i).z)

/-- The occupied slots (`sockfd != 0`) other than `playerID`, in ascending order of index. -/
def otherOccupied (ps : List Player) (playerID : Nat) : List Nat :=
  (List.range PLAYER_LIMIT).filter
    (fun i => decide ((getP ps i).sockfd ≠ 0) && decide (i ≠ playerID))

/-- A table in which slot 0 is the only occupied slot (descriptor 4). -/
def soloServer : GameServer :=
  { players := playerAt 4 0 false :: List.replicate 19 Player.zero,
    numActiveSockets := 1,
    numAlivePlayers := 1,
    maxfd := 4 }

/-! ## Runs of the server -/

/-- The runs of `run` in which no Spawn of session `i` is accepted:
`RunWithoutSpawn host blast i s t` holds when `t` is reached from `s` by accept branches and by
calls of `processPlayerMessage`, none of which is a call for slot `i` whose read holds a valid
Player-Spawn frame. -/
inductive RunWithoutSpawn (host : ByteOrder) (blast : BlastTest) (i : Nat) :
    GameServer → GameServer → Prop where
  | refl (s : GameServer) : RunWithoutSpawn host blast i s s
  | accept (s t t1 : GameServer) (past : Int) (fds sent : Nat → Int)
      (hrun : RunWithoutSpawn host blast i s t)
      (hstep : runAccept host past fds sent t = some t1) : RunWithoutSpawn host blast i s t1
  | message (s t t1 : GameServer) (p : Nat) (r : RecvResult) (code : Int)
      (calls : List BroadcastCall) (hrun : RunWithoutSpawn host blast i s t)
      (hstep : processPlayerMessage host blast p r t = some (code, t1, calls))
      (hquiet : ∀ data, p = i → r = RecvResult.received data →
        frameRejected host data.length (recvInto data (getP t.players p).recvBuffer) ∨
          (byteAt (recvInto data (getP t.players p).recvBuffer) 5).val ≠ PLAYER_SPAWN) :
      RunWithoutSpawn host blast i s t1

/-! ## States up to the contents of the receive buffers -/

/-- A player slot without the contents of its receive buffer. -/
def Player.forgetReceived (p : Player) : Player := { p with recvBuffer := [] }

/-- The server state without the contents of the receive buffers. -/
def forgetReceived (s : GameServer) : GameServer :=
  { s with players := s.players.map Player.forgetReceived }

/-- Two server states that differ at most in the contents of receive buffers: same descriptors,
send buffers, positions, aliveness flags and scores in every slot, and same counters. -/
def SameGame (s t : GameServer) : Prop := forgetReceived s = forgetReceived t

instance (s t : GameServer) : Decidable (SameGame s t) :=
  inferInstanceAs (Decidable (forgetReceived s = forgetReceived t))

/-- The server `chainServer` with other bytes left in the receive buffer of player 1 by earlier
reads. -/
def chainServerStale : GameServer :=
  { chainServer with
    players := modP chainServer.players 1
      (fun q => { q with recvBuffer := List.replicate BUFFER_SIZE 255 }) }

/-- A read of eight bytes: a Self-Annihilate frame of a little-endian host followed by the
first two bytes of a next frame. -/
def annihilateThenMore : List Byte := [0x06, 0x00, 0x00, 0x00, 0x01, 0x02, 0x12, 0x00]

/-- A read of eight bytes: the same Self-Annihilate frame followed by two other bytes. -/
def annihilateThenOther : List Byte := [0x06, 0x00, 0x00, 0x00, 0x01, 0x02, 0x06, 0xFF]

/-! # Theorems -/

set_option maxRecDepth 100000

/-! ## The player table -/

theorem getP_modP (ps : List Player) (i j : Nat) (f : Player → Player) :
    getP (modP ps i f) j = if i = j ∧ i < ps.length then f (getP ps j) else getP ps j := by
  unfold modP getP
  simp only [List.getD_eq_getElem?_getD, List.getElem?_set]
  by_cases hij : i = j
  · subst hij
    by_cases hlt : i < ps.length
    · simp [hlt]
    · simp [hlt, List.getElem?_eq_none (not_lt.mp hlt)]
  · simp [hij]

theorem length_modP (ps : List Player) (i : Nat) (f : Player → Player) :
    (modP ps i f).length = ps.length := by
  simp [modP]

theorem lt_length_of_isAlive (ps : List Player) (i : Nat) (h : (getP ps i).isAlive = true) :
    i < ps.length := by
  by_contra hlt
  have : getP ps i = Player.zero := by
    unfold getP
    simp [List.getD_eq_getElem?_getD, List.getElem?_eq_none (not_lt.mp hlt)]
  rw [this] at h
  simp [Player.zero] at h

/-- Fields other than `isAlive` agree when two slots agree up to `isAlive`. -/
theorem sockfd_eq_of_same {p q : Player}
    (h : ({ p with isAlive := false } : Player) = { q with isAlive := false }) :
    p.sockfd = q.sockfd := by
  have := congrArg Player.sockfd h
  simpa using this

theorem coords_eq_of_same {p q : Player}
    (h : ({ p with isAlive := false } : Player) = { q with isAlive := false }) :
    p.coords = q.coords := by
  have := congrArg Player.coords h
  simpa [Player.coords] using this

theorem eq_of_same_of_isAlive {p q : Player}
    (h : ({ p with isAlive := false } : Player) = { q with isAlive := false })
    (ha : p.isAlive = q.isAlive) : p = q := by
  cases p; cases q
  simp only [Player.mk.injEq] at h ⊢
  simp only at ha
  tauto

theorem countP_flip {α : Type} [DecidableEq α] (P Q : α → Bool) (i : α) :
    ∀ l : List α, l.Nodup → i ∈ l → P i = true → Q i = false →
      (∀ j ∈ l, j ≠ i → Q j = P j) → (l.filter Q).length + 1 = (l.filter P).length := by
  intro l
  induction l with
  | nil => intro _ hi; simp at hi
  | cons a t ih =>
    intro hnd hi hP hQ hrest
    rw [List.nodup_cons] at hnd
    by_cases hai : a = i
    · subst hai
      have htail : t.filter Q = t.filter P := by
        apply List.filter_congr
        intro j hj
        apply hrest j (List.mem_cons_of_mem _ hj)
        intro hja; subst hja; exact hnd.1 hj
      simp [List.filter_cons, hP, hQ, htail]
    · have hit : i ∈ t := by
        rcases List.mem_cons.mp hi with h | h
        · exact absurd h.symm hai
        · exact h
      have ih1 := ih hnd.2 hit hP hQ (fun j hj hne => hrest j (List.mem_cons_of_mem _ hj) hne)
      have hQa : Q a = P a := hrest a (List.mem_cons_self _ _) hai
      by_cases hPa : P a = true
      · simp [List.filter_cons, hPa, hQa]; omega
      · simp [List.filter_cons, hPa, hQa]; omega

theorem liveFlags_kill (ps : List Player) (i : Nat) (hi : i < PLAYER_LIMIT)
    (ha : (getP ps i).isAlive = true) :
    liveFlags (modP ps i (fun p => { p with isAlive := false })) + 1 = liveFlags ps := by
  unfold liveFlags
  apply countP_flip _ _ i _ (List.nodup_range _) (List.mem_range.mpr hi) ha
  · rw [getP_modP]; simp [lt_length_of_isAlive ps i ha]
  · intro j _ hne
    rw [getP_modP]
    simp [Ne.symm hne]

theorem withinRadius_congr (blast : BlastTest) (ps qs : List Player)
    (h : ∀ j, ({ getP qs j with isAlive := false } : Player) = { getP ps j with isAlive := false })
    (a b : Nat) : withinRadius blast qs a b = withinRadius blast ps a b := by
  unfold withinRadius
  rw [coords_eq_of_same (h a), coords_eq_of_same (h b)]

theorem blastChain_transfer (blast : BlastTest) (ps qs : List Player)
    (h : ∀ j, ({ getP qs j with isAlive := false } : Player) = { getP ps j with isAlive := false })
    (hm : ∀ j, (getP qs j).isAlive = true → (getP ps j).isAlive = true) :
    ∀ (l : List Nat) (a : Nat), blastChain blast qs a l = true → blastChain blast ps a l = true := by
  intro l
  induction l with
  | nil => intro a _; rfl
  | cons b rest ih =>
    intro a hc
    simp only [blastChain, Bool.and_eq_true, decide_eq_true_eq] at hc ⊢
    obtain ⟨⟨⟨⟨h1, h2⟩, h3⟩, h4⟩, h5⟩ := hc
    refine ⟨⟨⟨⟨h1, ?_⟩, hm b h3⟩, ?_⟩, ih b h5⟩
    · rw [← sockfd_eq_of_same (h b)]; exact h2
    · rw [← withinRadius_congr blast ps qs h]; exact h4

theorem ExplosionPost.refl (blast : BlastTest) (playerID numKills0 : Nat) (s : GameServer)
    (killed : HeapArray Nat) : ExplosionPost blast playerID [] numKills0 s s 0 killed killed where
  len := rfl
  same := fun _ => rfl
  mono := fun _ h => h
  sockets := rfl
  maxfd := rfl
  counter := fun h => by simpa using h.symm
  flags := rfl
  sound := fun j h1 h2 => by rw [h1] at h2; cases h2
  direct := fun v hv => by cases hv
  closed := fun u v h1 h2 => by rw [h1] at h2; cases h2
  size := rfl
  writes := ⟨[], rfl, fun w hw => by cases hw⟩

theorem explosionLoop_post (blast : BlastTest) (fuel : Nat)
    (recur : Nat → HeapArray Nat → Nat → GameServer → Option ExplosionResult)
    (hrec : ∀ (i : Nat) (killed : HeapArray Nat) (idx : Nat) (t : GameServer),
      liveFlags t.players < fuel →
      ∃ k t1 killed1, recur i killed idx t = some (k, t1, killed1) ∧
        ExplosionPost blast i (List.range PLAYER_LIMIT) 0 t t1 k killed killed1)
    (playerID : Nat) :
    ∀ (is : List Nat) (numKills : Nat) (s : GameServer) (killed : HeapArray Nat),
      (∀ i ∈ is, i < PLAYER_LIMIT) → liveFlags s.players ≤ fuel →
      ∃ k s1 killed1,
        explosionLoop blast recur playerID is numKills s killed = some (numKills + k, s1, killed1) ∧
        ExplosionPost blast playerID is numKills s s1 k killed killed1 := by
  intro is
  induction is with
  | nil =>
    intro numKills s killed _ _
    exact ⟨0, s, killed, rfl, ExplosionPost.refl blast playerID numKills s killed⟩
  | cons i rest ih =>
    intro numKills s killed hmem hfuel
    have hrest : ∀ j ∈ rest, j < PLAYER_LIMIT := fun j hj => hmem j (List.mem_cons_of_mem _ hj)
    have hi : i < PLAYER_LIMIT := hmem i (List.mem_cons_self _ _)
    by_cases hc : i ≠ playerID ∧ (getP s.players i).sockfd ≠ 0 ∧ (getP s.players i).isAlive = true
        ∧ withinRadius blast s.players playerID i = true
    · -- player `i` is eliminated and explodes in turn
      obtain ⟨hne, hconn, halive, hnear⟩ := hc
      have hilen : i < s.players.length := lt_length_of_isAlive _ _ halive
      have hkill := liveFlags_kill s.players i hi halive
      obtain ⟨k1, s2, killed2, hcall, p1⟩ := hrec i (killed.write numKills i) (numKills + 1 + 1)
        { s with
          players := modP s.players i (fun p => { p with isAlive := false })
          numAlivePlayers := wrapInt32 (s.numAlivePlayers - 1) }
        (by simp only; omega)
      obtain ⟨k2, s3, killed3, hloop, p2⟩ := ih (numKills + 1 + k1) s2 killed2 hrest
        (by have := p1.flags; simp only at this; omega)
      refine ⟨1 + k1 + k2, s3, killed3, ?_, ?_⟩
      · rw [explosionLoop, if_pos ⟨hne, hconn, halive, hnear⟩]
        simp only [hcall, hloop]
        congr 2; omega
      · -- facts about the table right after `players[i].isAlive = false`
        have hget : ∀ j, getP (modP s.players i (fun p => { p with isAlive := false })) j
            = if i = j then { getP s.players j with isAlive := false } else getP s.players j := by
          intro j; rw [getP_modP]; simp [hilen]
        have same1 : ∀ j, ({ getP (modP s.players i (fun p => { p with isAlive := false })) j
            with isAlive := false } : Player) = { getP s.players j with isAlive := false } := by
          intro j; rw [hget]; split <;> rfl
        have mono1 : ∀ j, (getP (modP s.players i (fun p => { p with isAlive := false })) j).isAlive
            = true → (getP s.players j).isAlive = true := by
          intro j; rw [hget]; split
          · intro h; cases h
          · exact id
        have alive1 : ∀ j, j ≠ i → (getP (modP s.players i
            (fun p => { p with isAlive := false })) j).isAlive = (getP s.players j).isAlive := by
          intro j hj; rw [hget, if_neg (Ne.symm hj)]
        have dead1 : (getP (modP s.players i (fun p => { p with isAlive := false })) i).isAlive
            = false := by
          rw [hget, if_pos rfl]
        have same2 : ∀ j, ({ getP s2.players j with isAlive := false } : Player)
            = { getP s.players j with isAlive := false } :=
          fun j => (p1.same j).trans (same1 j)
        have mono2 : ∀ j, (getP s2.players j).isAlive = true → (getP s.players j).isAlive = true :=
          fun j h => mono1 j (p1.mono j h)
        have dead_of_dead2 : ∀ j, (getP s2.players j).isAlive = false →
            (getP s3.players j).isAlive = false := by
          intro j h
          by_contra h3
          have := p2.mono j (by simpa using h3)
          rw [h] at this; cases this
        have dead_of_dead1 : ∀ j, (getP (modP s.players i
            (fun p => { p with isAlive := false })) j).isAlive = false →
            (getP s2.players j).isAlive = false := by
          intro j h
          by_contra h3
          have := p1.mono j (by simpa using h3)
          simp only at this
          rw [h] at this; cases this
        constructor
        · have l1 := p1.len
          simp only [length_modP] at l1
          exact p2.len.trans l1
        · exact fun j => (p2.same j).trans (same2 j)
        · exact fun j h => mono2 j (p2.mono j h)
        · exact p2.sockets.trans p1.sockets
        · exact p2.maxfd.trans p1.maxfd
        · intro _
          have c1 := p1.counter (by simp only; unfold wrapInt32; omega)
          have c2 := p2.counter (by rw [c1]; unfold wrapInt32; omega)
          rw [c2, c1]
          simp only
          push_cast
          unfold wrapInt32; omega
        · have f1 := p1.flags
          have f2 := p2.flags
          simp only at f1
          omega
        · -- every eliminated player is at the end of a chain from `playerID`
          intro j hj hj3
          by_cases hji : j = i
          · subst hji
            refine ⟨[], ?_⟩
            simp [blastChain, hi, hconn, halive, hnear]
          · by_cases hj2 : (getP s2.players j).isAlive = true
            · obtain ⟨mid, hmid⟩ := p2.sound j hj2 hj3
              exact ⟨mid, blastChain_transfer blast _ _ same2 mono2 _ _ hmid⟩
            · have hj1 : (getP (modP s.players i
                  (fun p => { p with isAlive := false })) j).isAlive = true := by
                rw [alive1 j hji]; exact hj
              obtain ⟨mid, hmid⟩ := p1.sound j hj1 (by simpa using hj2)
              refine ⟨i :: mid, ?_⟩
              have := blastChain_transfer blast _ _ same1 mono1 _ _ hmid
              simp [blastChain, hi, hconn, halive, hnear, this]
        · -- every visited player in range of `playerID` is dead
          intro v hv hvp hvc hvn
          rcases List.mem_cons.mp hv with hvi | hvr
          · subst hvi
            exact dead_of_dead2 _ (dead_of_dead1 _ dead1)
          · apply p2.direct v hvr hvp
            · rw [sockfd_eq_of_same (same2 v)]; exact hvc
            · rw [withinRadius_congr blast _ _ same2]; exact hvn
        · -- every player in range of an eliminated player is dead
          intro u v hu hu3 hv hvu hvc hvn
          by_cases hu2 : (getP s2.players u).isAlive = true
          · apply p2.closed u v hu2 hu3 hv hvu
            · rw [sockfd_eq_of_same (same2 v)]; exact hvc
            · rw [withinRadius_congr blast _ _ same2]; exact hvn
          · apply dead_of_dead2
            have hvc1 : (getP (modP s.players i
                (fun p => { p with isAlive := false })) v).sockfd ≠ 0 := by
              rw [sockfd_eq_of_same (same1 v)]; exact hvc
            by_cases hui : u = i
            · subst hui
              apply p1.direct v (List.mem_range.mpr hv) hvu hvc1
              simp only
              rw [withinRadius_congr blast _ _ same1]; exact hvn
            · apply p1.closed u v _ (by simpa using hu2) hv hvu hvc1
              · simp only
                rw [withinRadius_congr blast _ _ same1]; exact hvn
              · simp only
                rw [alive1 u hui]; exact hu
        · exact p2.size.trans p1.size
        · obtain ⟨new1, hw1, hb1⟩ := p1.writes
          obtain ⟨new2, hw2, hb2⟩ := p2.writes
          refine ⟨new2 ++ new1 ++ [(numKills, i)], ?_, ?_⟩
          · rw [hw2, hw1]; simp [HeapArray.write]
          · intro w hw
            simp only [List.mem_append, List.mem_singleton] at hw
            rcases hw with (h | h) | h
            · have := hb2 w h; omega
            · have := hb1 w h; omega
            · subst h; simp only; omega
    · -- player `i` is skipped
      obtain ⟨k, s1, killed1, hloop, p⟩ := ih numKills s killed hrest hfuel
      refine ⟨k, s1, killed1, ?_, ?_⟩
      · rw [explosionLoop, if_neg hc]; exact hloop
      · refine { p with direct := ?_ }
        intro v hv hvp hvc hvn
        rcases List.mem_cons.mp hv with hvi | hvr
        · subst hvi
          by_contra h3
          have ha : (getP s.players v).isAlive = true := p.mono v (by simpa using h3)
          exact hc ⟨hvp, hvc, ha, hvn⟩
        · exact p.direct v hvr hvp hvc hvn

theorem liveFlags_le (ps : List Player) : liveFlags ps ≤ PLAYER_LIMIT := by
  unfold liveFlags
  calc ((List.range PLAYER_LIMIT).filter (fun i => (getP ps i).isAlive)).length
      ≤ (List.range PLAYER_LIMIT).length := List.length_filter_le _ _
    _ = PLAYER_LIMIT := List.length_range _

theorem simRecursiveExplosion_post (blast : BlastTest) :
    ∀ (fuel playerID : Nat) (killed : HeapArray Nat) (idx : Nat) (s : GameServer),
      liveFlags s.players < fuel →
      ∃ k s1 killed1, simRecursiveExplosion blast fuel playerID killed idx s = some (k, s1, killed1)
        ∧ ExplosionPost blast playerID (List.range PLAYER_LIMIT) 0 s s1 k killed killed1 := by
  intro fuel
  induction fuel with
  | zero => intro _ _ _ s h; exact absurd h (Nat.not_lt_zero _)
  | succ fuel ih =>
    intro playerID killed idx s h
    obtain ⟨k, s1, killed1, hrun, hpost⟩ :=
      explosionLoop_post blast fuel (simRecursiveExplosion blast fuel)
        (fun i kd ix t ht => ih i kd ix t ht) playerID (List.range PLAYER_LIMIT) 0 s killed
        (fun i hi => List.mem_range.mp hi) (Nat.lt_succ_iff.mp h)
    refine ⟨k, s1, killed1, ?_, hpost⟩
    rw [simRecursiveExplosion, hrun, Nat.zero_add]

theorem filter_split_length {α : Type} (P Q : α → Bool) (hQP : ∀ x, Q x = true → P x = true) :
    ∀ l : List α,
      (l.filter (fun x => P x && !Q x)).length + (l.filter Q).length = (l.filter P).length := by
  intro l
  induction l with
  | nil => rfl
  | cons a t ih =>
    by_cases hQ : Q a = true
    · have hP := hQP a hQ
      simp [List.filter_cons, hQ, hP]; omega
    · by_cases hP : P a = true
      · simp [List.filter_cons, hQ, hP]; omega
      · simp [List.filter_cons, hQ, hP]; omega

theorem eliminated_length (ps qs : List Player)
    (hm : ∀ j, (getP qs j).isAlive = true → (getP ps j).isAlive = true) :
    (eliminated ps qs).length + liveFlags qs = liveFlags ps := by
  unfold eliminated liveFlags
  exact filter_split_length (fun i => (getP ps i).isAlive) (fun i => (getP qs i).isAlive) hm _

theorem mem_eliminated (ps qs : List Player) (j : Nat) :
    j ∈ eliminated ps qs ↔
      j < PLAYER_LIMIT ∧ (getP ps j).isAlive = true ∧ (getP qs j).isAlive = false := by
  unfold eliminated
  simp [List.mem_filter]

theorem eliminated_nodup (ps qs : List Player) : (eliminated ps qs).Nodup := by
  unfold eliminated
  exact (List.nodup_range _).filter _

theorem chain_members_eliminated (blast : BlastTest) (d k : Nat) (s s1 : GameServer)
    (killed killed1 : HeapArray Nat)
    (post : ExplosionPost blast d (List.range PLAYER_LIMIT) 0 s s1 k killed killed1)
    (hdead : (getP s.players d).isAlive = false) :
    ∀ (l : List Nat) (a : Nat),
      (a = d ∨ ((getP s.players a).isAlive = true ∧ (getP s1.players a).isAlive = false)) →
      blastChain blast s.players a l = true →
      ∀ x ∈ l, (getP s.players x).isAlive = true ∧ (getP s1.players x).isAlive = false := by
  intro l
  induction l with
  | nil => intro a _ _ x hx; cases hx
  | cons b rest ih =>
    intro a ha hc x hx
    simp only [blastChain, Bool.and_eq_true, decide_eq_true_eq] at hc
    obtain ⟨⟨⟨⟨hb, hconn⟩, halive⟩, hnear⟩, hrest⟩ := hc
    have hb1 : (getP s1.players b).isAlive = false := by
      by_cases hba : b = a
      · subst hba
        rcases ha with h | h
        · subst h; rw [hdead] at halive; cases halive
        · exact h.2
      · rcases ha with h | h
        · subst h
          exact post.direct b (List.mem_range.mpr hb) hba hconn hnear
        · exact post.closed a b h.1 h.2 hb hba hconn hnear
    rcases List.mem_cons.mp hx with h | h
    · subst h; exact ⟨halive, hb1⟩
    · exact ih b (Or.inr ⟨halive, hb1⟩) hrest x h

/-- C2: when the detonator `d` is marked not-alive, `simRecursiveExplosion(d, ...)` returns, and
the players it turns from alive to not-alive are exactly the players `q` at the end of a chain
`d, mid.., q` in which every next player is a connected slot of the table, alive before the
call, and within the explosion radius of the player before it; every other slot is left as it
was. -/
theorem simRecursiveExplosion_eliminates_chain_closure (blast : BlastTest) (fuel : Nat)
    (hfuel : PLAYER_LIMIT < fuel) (d : Nat) (killedPlayers : HeapArray Nat) (index : Nat)
    (s : GameServer) (hdead : (getP s.players d).isAlive = false) :
    ∃ k s1 killed1,
      simRecursiveExplosion blast fuel d killedPlayers index s = some (k, s1, killed1) ∧
      (∀ q, ((getP s.players q).isAlive = true ∧ (getP s1.players q).isAlive = false) ↔
        ∃ mid, blastChain blast s.players d (mid ++ [q]) = true) ∧
      (∀ q, (¬ ∃ mid, blastChain blast s.players d (mid ++ [q]) = true) →
        getP s1.players q = getP s.players q) := by
  obtain ⟨k, s1, killed1, hrun, post⟩ := simRecursiveExplosion_post blast fuel d killedPlayers
    index s (lt_of_le_of_lt (liveFlags_le _) hfuel)
  have hiff : ∀ q, ((getP s.players q).isAlive = true ∧ (getP s1.players q).isAlive = false) ↔
      ∃ mid, blastChain blast s.players d (mid ++ [q]) = true := by
    intro q
    constructor
    · rintro ⟨h1, h2⟩
      exact post.sound q h1 h2
    · rintro ⟨mid, hmid⟩
      exact chain_members_eliminated blast d k s s1 killedPlayers killed1 post hdead
        (mid ++ [q]) d (Or.inl rfl) hmid q (by simp)
  refine ⟨k, s1, killed1, hrun, hiff, ?_⟩
  intro q hq
  apply eq_of_same_of_isAlive (post.same q)
  rw [← hiff q] at hq
  cases h1 : (getP s1.players q).isAlive with
  | true => exact (post.mono q h1).symm
  | false =>
    cases h : (getP s.players q).isAlive with
    | true => exact absurd ⟨h, h1⟩ hq
    | false => rfl

/-- C2 at A = (0,0,0), B = (0.2,0,0), C = (0.4,0,0): detonating A eliminates B (chain A, B) and
C (chain A, B, C), and leaves the empty slot 3 as it was. -/
theorem simRecursiveExplosion_eliminates_chain_closure_witness :
    (getP chainServer.players 0).isAlive = false ∧
    ∃ k s1 killed1,
      simRecursiveExplosion exactBlast (PLAYER_LIMIT + 1) 0
        (HeapArray.alloc ((PLAYER_LIMIT : Int) - 1)) 0 chainServer = some (k, s1, killed1) ∧
      (getP s1.players 1).isAlive = false ∧ (getP s1.players 2).isAlive = false ∧
      getP s1.players 3 = getP chainServer.players 3 := by
  refine ⟨by decide, ?_⟩
  obtain ⟨k, s1, killed1, hrun, hiff, hkeep⟩ :=
    simRecursiveExplosion_eliminates_chain_closure exactBlast (PLAYER_LIMIT + 1)
      (Nat.lt_succ_self _) 0 (HeapArray.alloc ((PLAYER_LIMIT : Int) - 1)) 0 chainServer
      (by decide)
  refine ⟨k, s1, killed1, hrun, ?_, ?_, ?_⟩
  · exact ((hiff 1).mpr ⟨[], by decide⟩).2
  · exact ((hiff 2).mpr ⟨[1], by decide⟩).2
  · apply hkeep
    rw [← hiff 3]
    rintro ⟨h, _⟩
    exact absurd h (by decide)

/-- C3: on a table of `PLAYER_LIMIT` slots, `simRecursiveExplosion` returns the number of
distinct players it turned from alive to not-alive (`eliminated` lists each of them once), and
`numAlivePlayers` has gone down by exactly that number (the counter is an `int32_t`; it is
assumed to be at least `PLAYER_LIMIT` above the least `int32_t`, so that no decrement wraps). -/
theorem simRecursiveExplosion_counts_each_kill_once (blast : BlastTest) (fuel : Nat)
    (hfuel : PLAYER_LIMIT < fuel) (playerID : Nat) (killedPlayers : HeapArray Nat) (index : Nat)
    (s : GameServer) (hlen : s.players.length = PLAYER_LIMIT)
    (hlo : -2147483648 + (PLAYER_LIMIT : Int) ≤ s.numAlivePlayers)
    (hhi : s.numAlivePlayers < 2147483648) :
    ∃ k s1 killed1,
      simRecursiveExplosion blast fuel playerID killedPlayers index s = some (k, s1, killed1) ∧
      (eliminated s.players s1.players).Nodup ∧
      (∀ j, j ∈ eliminated s.players s1.players ↔
        ((getP s.players j).isAlive = true ∧ (getP s1.players j).isAlive = false)) ∧
      k = (eliminated s.players s1.players).length ∧
      s1.numAlivePlayers = s.numAlivePlayers - (eliminated s.players s1.players).length := by
  obtain ⟨k, s1, killed1, hrun, post⟩ := simRecursiveExplosion_post blast fuel playerID
    killedPlayers index s (lt_of_le_of_lt (liveFlags_le _) hfuel)
  have hcount := eliminated_length s.players s1.players post.mono
  have hflags := post.flags
  have hk : k = (eliminated s.players s1.players).length := by omega
  have hk20 : k ≤ PLAYER_LIMIT := by
    have := liveFlags_le s.players
    omega
  refine ⟨k, s1, killed1, hrun, eliminated_nodup _ _, ?_, hk, ?_⟩
  · intro j
    rw [mem_eliminated]
    constructor
    · exact fun h => h.2
    · intro h
      exact ⟨hlen ▸ lt_length_of_isAlive _ _ h.1, h⟩
  · rw [← hk, post.counter (by unfold wrapInt32; omega)]
    unfold wrapInt32
    simp only [PLAYER_LIMIT] at hlo hk20
    omega

/-- C3 at the table A, B, C of `chainServer`. -/
theorem simRecursiveExplosion_counts_each_kill_once_witness :
    chainServer.players.length = PLAYER_LIMIT ∧
    -2147483648 + (PLAYER_LIMIT : Int) ≤ chainServer.numAlivePlayers ∧
    chainServer.numAlivePlayers < 2147483648 ∧
    ∃ k s1 killed1,
      simRecursiveExplosion exactBlast (PLAYER_LIMIT + 1) 0
        (HeapArray.alloc ((PLAYER_LIMIT : Int) - 1)) 0 chainServer = some (k, s1, killed1) ∧
      k = (eliminated chainServer.players s1.players).length ∧
      s1.numAlivePlayers
        = chainServer.numAlivePlayers - (eliminated chainServer.players s1.players).length := by
  refine ⟨by decide, by decide, by decide, ?_⟩
  obtain ⟨k, s1, killed1, hrun, _, _, hk, hnum⟩ :=
    simRecursiveExplosion_counts_each_kill_once exactBlast (PLAYER_LIMIT + 1)
      (Nat.lt_succ_self _) 0 (HeapArray.alloc ((PLAYER_LIMIT : Int) - 1)) 0 chainServer
      (by decide) (by decide) (by decide)
  exact ⟨k, s1, killed1, hrun, hk, hnum⟩

/-- C1 (the code departs from the claim): on the table A, B, C of `chainServer` the call
`simRecursiveExplosion(0, killedPlayers, 0)` returns 2 and eliminates players 1 and 2, but
`killedPlayers[0]` holds 2 and `killedPlayers[1]` was never written: the nested call for player 1
wrote its kill at its own local index 0, over the entry of player 1. -/
theorem simRecursiveExplosion_nested_call_overwrites_kill_list :
    (simRecursiveExplosion exactBlast (PLAYER_LIMIT + 1) 0
        (HeapArray.alloc ((PLAYER_LIMIT : Int) - 1)) 0 chainServer).map
      (fun r => (r.1, eliminated chainServer.players r.2.1.players, r.2.2.cells 2, r.2.2.writes))
      = some (2, [1, 2], [some 2, none], [(0, 2), (0, 1)]) := by
  decide

/-! ## The alive counter, the map update and the byte order: where the code departs -/

/-- C4 (the code departs from the claim): one successful accept on the freshly constructed
server gives a reachable state with `numAlivePlayers = 1` in which no connected slot has
`isAlive` set: `run` increments the counter when a player joins, `acceptNewPlayer` marks the
player not alive, and the Spawn handler sets `isAlive` without touching the counter. -/
theorem accept_counts_unspawned_player_as_alive :
    ∃ s, Reachable ByteOrder.littleEndian exactBlast s ∧ oneJoined = some s ∧
      s.numAlivePlayers = 1 ∧ aliveCount s.players = 0 := by
  cases h : oneJoined with
  | none => exact absurd h (by decide)
  | some s =>
    have hv : oneJoined.map (fun t => (t.numAlivePlayers, aliveCount t.players)) = some (1, 0) := by
      decide
    rw [h] at hv
    simp only [Option.map_some', Option.some.injEq, Prod.mk.injEq] at hv
    refine ⟨s, ?_, rfl, hv.1, hv.2⟩
    exact Reachable.accept freshServer s 0 (fun _ => 4) (fun _ => 10)
      (Reachable.init zeroMemory 3 (by decide)) h

/-- C5 (the code departs from the claim): in the state of `oneJoined` no session is alive, so the
claim asks for a message of 8 bytes with count 0; `broadcastMapUpdate` builds a message of
`8 + 16 * numAlivePlayers = 24` bytes whose count field holds 1 and writes no record into it
(`index` is still 8 after the loop, cells 8 to 23 were never written). -/
theorem mapUpdate_sized_by_counter_not_by_alive_players :
    oneJoined.map (fun s => aliveCount s.players) = some 0 ∧
    (oneJoined.bind (mapUpdateMessage ByteOrder.littleEndian)).map
      (fun r => (r.1, r.2.size, r.2.cells 10))
      = some (8, 24, [some 24, some 0, some 0, some 0, some 1, some 5, some 1, some 0,
          none, none]) := by
  decide

/-- C6 (the code departs from the claim): on a little-endian host `sendJoinResponse(1)`, as run
by the accept branch for the second client, leaves `0A 00 00 00, 01, 04, 01 00 00 00` in the
send buffer: length and id are in little-endian order, because the bytes are extracted from the
value that `htonl` has already reversed. -/
theorem sendJoinResponse_little_endian_host :
    twoJoined.map (fun s => ((getP s.players 1).sockfd, (getP s.players 1).sendBuffer.take 10))
      = some (5, [0x0A, 0x00, 0x00, 0x00, 0x01, 0x04, 0x01, 0x00, 0x00, 0x00]) := by
  decide

/-- C7 (the code departs from the claim): on a little-endian host the frame
`00 00 00 12, 01, 01, ...` is decoded to the length `0x12000000`, which exceeds the 18 bytes
received: `processPlayerMessage` returns -1 and the position of the player stays (0, 0, 0). -/
theorem processPlayerMessage_rejects_big_endian_move_on_little_endian_host :
    decodeNumBytes ByteOrder.littleEndian moveFrame = 0x12000000 ∧
    (oneJoined.bind (processPlayerMessage ByteOrder.littleEndian exactBlast 0
        (RecvResult.received moveFrame))).map
      (fun r => (r.1, (getP r.2.1.players 0).x, (getP r.2.1.players 0).y,
        (getP r.2.1.players 0).z, r.2.2))
      = some (-1, 0, 0, 0, []) := by
  decide

/-! ## Bytes, byte order and heap arrays -/

theorem and_shifted_mask (x k : Nat) : x &&& (255 <<< k) = (x / 2 ^ k % 256) * 2 ^ k := by
  have h255 : (255 : Nat) = 2 ^ 8 - 1 := by decide
  have h256 : (256 : Nat) = 2 ^ 8 := by decide
  rw [h256, ← Nat.shiftRight_eq_div_pow, ← Nat.shiftLeft_eq, h255]
  apply Nat.eq_of_testBit_eq
  intro j
  simp only [Nat.testBit_and, Nat.testBit_shiftLeft, Nat.testBit_two_pow_sub_one,
    Nat.testBit_mod_two_pow, Nat.testBit_shiftRight]
  by_cases hj : k ≤ j
  · have : k + (j - k) = j := by omega
    simp [hj, this, Bool.and_comm]
  · simp [hj]

theorem GET_BYTE_3_eq (x : Nat) : GET_BYTE_3 x = x / 16777216 % 256 := by
  unfold GET_BYTE_3
  have h : (0xFF000000 : Nat) = 255 <<< 24 := by decide
  rw [h, and_shifted_mask, Nat.shiftRight_eq_div_pow]
  norm_num

theorem GET_BYTE_2_eq (x : Nat) : GET_BYTE_2 x = x / 65536 % 256 := by
  unfold GET_BYTE_2
  have h : (0x00FF0000 : Nat) = 255 <<< 16 := by decide
  rw [h, and_shifted_mask, Nat.shiftRight_eq_div_pow]
  norm_num

theorem GET_BYTE_1_eq (x : Nat) : GET_BYTE_1 x = x / 256 % 256 := by
  unfold GET_BYTE_1
  have h : (0x0000FF00 : Nat) = 255 <<< 8 := by decide
  rw [h, and_shifted_mask, Nat.shiftRight_eq_div_pow]
  norm_num

theorem GET_BYTE_0_eq (x : Nat) : GET_BYTE_0 x = x % 256 := by
  unfold GET_BYTE_0
  have h : (0x000000FF : Nat) = 2 ^ 8 - 1 := by decide
  rw [h, Nat.and_pow_two_sub_one_eq_mod]

theorem or_eq_add (k c b : Nat) (hb : b < 2 ^ k) : (c * 2 ^ k) ||| b = c * 2 ^ k + b := by
  rw [Nat.mul_comm]
  exact (Nat.mul_add_lt_is_or hb c).symm

theorem assemble32_eq (b0 b1 b2 b3 : Byte) :
    assemble32 b0 b1 b2 b3 = b0.val * 16777216 + b1.val * 65536 + b2.val * 256 + b3.val := by
  unfold assemble32
  have h0 := b0.isLt
  have h1 := b1.isLt
  have h2 := b2.isLt
  have h3 := b3.isLt
  simp only [Nat.zero_or, Nat.shiftLeft_eq]
  have e1 : b0.val * 2 ^ 24 ||| b1.val * 2 ^ 16 = b0.val * 2 ^ 24 + b1.val * 2 ^ 16 := by
    have := or_eq_add 24 b0.val (b1.val * 2 ^ 16) (by omega)
    exact this
  rw [e1]
  have e2 : (b0.val * 2 ^ 24 + b1.val * 2 ^ 16) ||| b2.val * 2 ^ 8
      = b0.val * 2 ^ 24 + b1.val * 2 ^ 16 + b2.val * 2 ^ 8 := by
    have := or_eq_add 16 (b0.val * 2 ^ 8 + b1.val) (b2.val * 2 ^ 8) (by omega)
    have e : (b0.val * 2 ^ 8 + b1.val) * 2 ^ 16 = b0.val * 2 ^ 24 + b1.val * 2 ^ 16 := by ring
    rw [e] at this
    exact this
  rw [e2]
  have e3 : (b0.val * 2 ^ 24 + b1.val * 2 ^ 16 + b2.val * 2 ^ 8) ||| b3.val
      = b0.val * 2 ^ 24 + b1.val * 2 ^ 16 + b2.val * 2 ^ 8 + b3.val := by
    have := or_eq_add 8 (b0.val * 2 ^ 16 + b1.val * 2 ^ 8 + b2.val) b3.val (by omega)
    have e : (b0.val * 2 ^ 16 + b1.val * 2 ^ 8 + b2.val) * 2 ^ 8
        = b0.val * 2 ^ 24 + b1.val * 2 ^ 16 + b2.val * 2 ^ 8 := by ring
    rw [e] at this
    exact this
  rw [e3]
  omega

theorem mask3 (x : Nat) : x &&& 4278190080 = x / 16777216 % 256 * 16777216 := by
  simpa using and_shifted_mask x 24

theorem mask2 (x : Nat) : x &&& 16711680 = x / 65536 % 256 * 65536 := by
  simpa using and_shifted_mask x 16

theorem mask1 (x : Nat) : x &&& 65280 = x / 256 % 256 * 256 := by
  simpa using and_shifted_mask x 8

theorem mask0 (x : Nat) : x &&& 255 = x % 256 := by
  simpa using and_shifted_mask x 0

theorem bswap32_eq (x : Nat) (hx : x < 4294967296) :
    bswap32 x = x % 256 * 16777216 + x / 256 % 256 * 65536 + x / 65536 % 256 * 256
      + x / 16777216 := by
  unfold bswap32
  simp only [Nat.shiftRight_eq_div_pow, Nat.shiftLeft_eq]
  norm_num only
  rw [mask3, mask2, mask1, mask0]
  have a3 : x / 16777216 % 256 * 16777216 / 16777216 = x / 16777216 := by omega
  have a2 : x / 65536 % 256 * 65536 / 256 = x / 65536 % 256 * 256 := by omega
  rw [a3, a2]
  have e1 : x / 65536 % 256 * 256 ||| x / 16777216 = x / 65536 % 256 * 256 + x / 16777216 := by
    have := or_eq_add 8 (x / 65536 % 256) (x / 16777216) (by omega)
    simpa using this
  have e2 : x / 256 % 256 * 256 * 256 ||| (x / 65536 % 256 * 256 + x / 16777216)
      = x / 256 % 256 * 65536 + (x / 65536 % 256 * 256 + x / 16777216) := by
    have := or_eq_add 16 (x / 256 % 256) (x / 65536 % 256 * 256 + x / 16777216) (by omega)
    have e : x / 256 % 256 * 256 * 256 = x / 256 % 256 * 2 ^ 16 := by omega
    rw [e]
    simpa using this
  have e3 : x % 256 * 16777216 ||| (x / 256 % 256 * 65536 + (x / 65536 % 256 * 256 + x / 16777216))
      = x % 256 * 16777216 + (x / 256 % 256 * 65536 + (x / 65536 % 256 * 256 + x / 16777216)) := by
    have := or_eq_add 24 (x % 256)
      (x / 256 % 256 * 65536 + (x / 65536 % 256 * 256 + x / 16777216)) (by omega)
    simpa using this
  rw [Nat.or_comm (x / 16777216), e1, Nat.or_comm _ (x / 256 % 256 * 256 * 256), e2,
    Nat.or_comm _ (x % 256 * 16777216), e3]
  omega

theorem bswap32_lt (x : Nat) (hx : x < 4294967296) : bswap32 x < 4294967296 := by
  rw [bswap32_eq x hx]; omega

theorem bswap32_bswap32 (x : Nat) (hx : x < 4294967296) : bswap32 (bswap32 x) = x := by
  rw [bswap32_eq _ (bswap32_lt x hx), bswap32_eq x hx]
  have hdec : x = x % 256 + 256 * (x / 256 % 256) + 65536 * (x / 65536 % 256)
      + 16777216 * (x / 16777216) := by omega
  have ha : x % 256 < 256 := by omega
  have hb : x / 256 % 256 < 256 := by omega
  have hc : x / 65536 % 256 < 256 := by omega
  have hd : x / 16777216 < 256 := by omega
  generalize x % 256 = a at hdec ha ⊢
  generalize x / 256 % 256 = b at hdec hb ⊢
  generalize x / 65536 % 256 = c at hdec hc ⊢
  generalize x / 16777216 = d at hdec hd ⊢
  have e0 : (a * 16777216 + b * 65536 + c * 256 + d) % 256 = d := by omega
  have e1 : (a * 16777216 + b * 65536 + c * 256 + d) / 256 % 256 = c := by
    have : (a * 16777216 + b * 65536 + c * 256 + d) / 256 = a * 65536 + b * 256 + c := by omega
    rw [this]; omega
  have e2 : (a * 16777216 + b * 65536 + c * 256 + d) / 65536 % 256 = b := by
    have : (a * 16777216 + b * 65536 + c * 256 + d) / 65536 = a * 256 + b := by omega
    rw [this]; omega
  have e3 : (a * 16777216 + b * 65536 + c * 256 + d) / 16777216 = a := by omega
  rw [e0, e1, e2, e3]
  omega

theorem ntohl_htonl (host : ByteOrder) (x : Nat) : ntohl host (htonl host x) = x % 4294967296 := by
  have hx : x % 4294967296 < 4294967296 := Nat.mod_lt _ (by decide)
  cases host with
  | bigEndian => simp [ntohl, htonl]
  | littleEndian =>
    simp only [ntohl, htonl]
    rw [Nat.mod_eq_of_lt (bswap32_lt _ hx), bswap32_bswap32 _ hx]

theorem htonl_ntohl (host : ByteOrder) (x : Nat) : htonl host (ntohl host x) = x % 4294967296 :=
  ntohl_htonl host x

theorem htonl_lt (host : ByteOrder) (x : Nat) : htonl host x < 4294967296 := by
  have hx : x % 4294967296 < 4294967296 := Nat.mod_lt _ (by decide)
  cases host with
  | bigEndian => exact hx
  | littleEndian => exact bswap32_lt _ hx

theorem assemble32_lt (b0 b1 b2 b3 : Byte) : assemble32 b0 b1 b2 b3 < 4294967296 := by
  rw [assemble32_eq]
  have h0 := b0.isLt
  have h1 := b1.isLt
  have h2 := b2.isLt
  have h3 := b3.isLt
  omega

/-- Extracting the four bytes of a 32-bit pattern and assembling them again gives it back. -/
theorem assemble32_fourBytes (v : Nat) (hv : v < 4294967296) :
    assemble32 (toByte (GET_BYTE_3 v)) (toByte (GET_BYTE_2 v)) (toByte (GET_BYTE_1 v))
      (toByte (GET_BYTE_0 v)) = v := by
  rw [assemble32_eq]
  simp only [toByte, Fin.ofNat, Fin.val_mk, GET_BYTE_3_eq, GET_BYTE_2_eq, GET_BYTE_1_eq,
    GET_BYTE_0_eq]
  omega

/-- Assembling four bytes and extracting the bytes of the result gives them back. -/
theorem fourBytes_assemble32 (b0 b1 b2 b3 : Byte) :
    (fourBytes (assemble32 b0 b1 b2 b3)).map toByte = [b0, b1, b2, b3] := by
  have h0 := b0.isLt
  have h1 := b1.isLt
  have h2 := b2.isLt
  have h3 := b3.isLt
  simp only [fourBytes, List.map_cons, List.map_nil, GET_BYTE_3_eq, GET_BYTE_2_eq,
    GET_BYTE_1_eq, GET_BYTE_0_eq, assemble32_eq]
  have e3 : (b0.val * 16777216 + b1.val * 65536 + b2.val * 256 + b3.val) / 16777216 % 256
      = b0.val := by omega
  have e2 : (b0.val * 16777216 + b1.val * 65536 + b2.val * 256 + b3.val) / 65536 % 256
      = b1.val := by omega
  have e1 : (b0.val * 16777216 + b1.val * 65536 + b2.val * 256 + b3.val) / 256 % 256
      = b2.val := by omega
  have e0 : (b0.val * 16777216 + b1.val * 65536 + b2.val * 256 + b3.val) % 256
      = b3.val := by omega
  rw [e3, e2, e1, e0]
  simp [toByte, Fin.ofNat, Fin.ext_iff, Nat.mod_eq_of_lt, h0, h1, h2, h3]

theorem read_write {α : Type} (a : HeapArray α) (i j : Nat) (v : α) :
    (a.write i v).read j = if i = j then some v else a.read j := by
  unfold HeapArray.read HeapArray.write
  by_cases h : i = j
  · simp [h, List.find?_cons]
  · simp [h, List.find?_cons]

theorem size_write {α : Type} (a : HeapArray α) (i : Nat) (v : α) :
    (a.write i v).size = a.size := rfl

theorem size_writeBytes (vs : List Nat) :
    ∀ (a : HeapArray Byte) (index : Nat), (writeBytes a index vs).size = a.size := by
  induction vs with
  | nil => intro a index; rfl
  | cons v vs ih => intro a index; rw [writeBytes, ih, size_write]

theorem read_writeBytes_lt (vs : List Nat) :
    ∀ (a : HeapArray Byte) (index j : Nat), j < index →
      (writeBytes a index vs).read j = a.read j := by
  induction vs with
  | nil => intro a index j _; rfl
  | cons v vs ih =>
    intro a index j hj
    rw [writeBytes, ih _ _ _ (Nat.lt_succ_of_lt hj), read_write, if_neg (by omega)]

theorem read_writeBytes_head (v : Nat) (vs : List Nat) (a : HeapArray Byte) (index : Nat) :
    (writeBytes a index (v :: vs)).read index = some (toByte v) := by
  rw [writeBytes, read_writeBytes_lt _ _ _ _ (Nat.lt_succ_self _), read_write, if_pos rfl]

/-- The length field written by the header assignments reads back as the value encoded. -/
theorem decodedLength_header (host : ByteOrder) (a : HeapArray Byte) (n : Nat)
    (hn : n < 4294967296) (rest : List Nat) :
    decodedLength host (writeBytes a 0 (fourBytes (htonl host n) ++ rest)) = some n := by
  have r0 : (writeBytes a 0 (fourBytes (htonl host n) ++ rest)).read 0
      = some (toByte (GET_BYTE_3 (htonl host n))) := by
    simp only [fourBytes, List.cons_append, List.nil_append]
    rw [read_writeBytes_head]
  have r1 : (writeBytes a 0 (fourBytes (htonl host n) ++ rest)).read 1
      = some (toByte (GET_BYTE_2 (htonl host n))) := by
    simp only [fourBytes, List.cons_append, List.nil_append]
    rw [writeBytes, read_writeBytes_head]
  have r2 : (writeBytes a 0 (fourBytes (htonl host n) ++ rest)).read 2
      = some (toByte (GET_BYTE_1 (htonl host n))) := by
    simp only [fourBytes, List.cons_append, List.nil_append]
    rw [writeBytes, writeBytes, read_writeBytes_head]
  have r3 : (writeBytes a 0 (fourBytes (htonl host n) ++ rest)).read 3
      = some (toByte (GET_BYTE_0 (htonl host n))) := by
    simp only [fourBytes, List.cons_append, List.nil_append]
    rw [writeBytes, writeBytes, writeBytes, read_writeBytes_head]
  unfold decodedLength
  rw [r0, r1, r2, r3]
  simp only
  rw [assemble32_fourBytes _ (htonl_lt host n), ntohl_htonl, Nat.mod_eq_of_lt hn]

theorem selfDestructLoop_spec (host : ByteOrder) (killed : HeapArray Nat) (stale : Nat → Nat) :
    ∀ (is : List Nat) (index : Nat) (message : HeapArray Byte),
      (selfDestructLoop host killed stale is index message).size = message.size ∧
        ∀ j, j < index →
          (selfDestructLoop host killed stale is index message).read j = message.read j := by
  intro is
  induction is with
  | nil => intro index message; exact ⟨rfl, fun _ _ => rfl⟩
  | cons i rest ih =>
    intro index message
    rw [selfDestructLoop]
    obtain ⟨h1, h2⟩ := ih (index + 4) (writeBytes message index
      (fourBytes (htonl host ((killed.read i).getD (stale i)))))
    refine ⟨by rw [h1, size_writeBytes], ?_⟩
    intro j hj
    rw [h2 j (by omega), read_writeBytes_lt _ _ _ _ hj]

theorem mapUpdateLoop_spec (host : ByteOrder) (ps : List Player) :
    ∀ (is : List Nat) (index : Nat) (message : HeapArray Byte),
      (mapUpdateLoop host ps is index message).2.size = message.size ∧
        ∀ j, j < index → (mapUpdateLoop host ps is index message).2.read j = message.read j := by
  intro is
  induction is with
  | nil => intro index message; exact ⟨rfl, fun _ _ => rfl⟩
  | cons i rest ih =>
    intro index message
    rw [mapUpdateLoop]
    split
    · obtain ⟨h1, h2⟩ := ih (index + 16) (writeBytes message index
        (fourBytes (htonl host i) ++ fourBytes (htonl host (getP ps i).x)
          ++ fourBytes (htonl host (getP ps i).y) ++ fourBytes (htonl host (getP ps i).z)))
      refine ⟨by rw [h1, size_writeBytes], ?_⟩
      intro j hj
      rw [h2 j (by omega), read_writeBytes_lt _ _ _ _ hj]
    · exact ih index message

theorem decodedLength_congr (host : ByteOrder) (m a : HeapArray Byte)
    (h : ∀ j, j < 4 → m.read j = a.read j) : decodedLength host m = decodedLength host a := by
  unfold decodedLength
  rw [h 0 (by decide), h 1 (by decide), h 2 (by decide), h 3 (by decide)]

/-! ## Staging buffers and length decoding -/

theorem byteAt_set (l : List Byte) (i j : Nat) (v : Byte) :
    byteAt (l.set i v) j = if i = j ∧ i < l.length then v else byteAt l j := by
  unfold byteAt
  simp only [List.getD_eq_getElem?_getD, List.getElem?_set]
  by_cases hij : i = j
  · subst hij
    by_cases hlt : i < l.length
    · simp [hlt]
    · simp [hlt, List.getElem?_eq_none (not_lt.mp hlt)]
  · simp [hij]

theorem decodeNumBytes_loadJoinResponse (host : ByteOrder) (playerID : Nat)
    (sendBuffer : List Byte) (hlen : 10 ≤ sendBuffer.length) :
    decodeNumBytes host (loadJoinResponse host playerID sendBuffer) = 10 := by
  have h0 : 0 < sendBuffer.length := by omega
  have h1 : 1 < sendBuffer.length := by omega
  have h2 : 2 < sendBuffer.length := by omega
  have h3 : 3 < sendBuffer.length := by omega
  have b0 : byteAt (loadJoinResponse host playerID sendBuffer) 0
      = toByte (GET_BYTE_3 (htonl host 10)) := by
    simp [loadJoinResponse, byteAt_set, h0]
  have b1 : byteAt (loadJoinResponse host playerID sendBuffer) 1
      = toByte (GET_BYTE_2 (htonl host 10)) := by
    simp [loadJoinResponse, byteAt_set, h1]
  have b2 : byteAt (loadJoinResponse host playerID sendBuffer) 2
      = toByte (GET_BYTE_1 (htonl host 10)) := by
    simp [loadJoinResponse, byteAt_set, h2]
  have b3 : byteAt (loadJoinResponse host playerID sendBuffer) 3
      = toByte (GET_BYTE_0 (htonl host 10)) := by
    simp [loadJoinResponse, byteAt_set, h3]
  unfold decodeNumBytes
  rw [b0, b1, b2, b3, assemble32_fourBytes _ (htonl_lt host 10), ntohl_htonl]

theorem toUInt32_natCast (n : Nat) (hn : n < 4294967296) : toUInt32 (n : Int) = n := by
  unfold toUInt32
  omega

/-! ## Spawn coordinates through decode and encode -/

theorem read_writeBytes (vs : List Nat) :
    ∀ (a : HeapArray Byte) (index j : Nat), index ≤ j → j < index + vs.length →
      (writeBytes a index vs).read j = (vs[j - index]?).map toByte := by
  induction vs with
  | nil => intro a index j h1 h2; simp at h2; omega
  | cons v vs ih =>
    intro a index j h1 h2
    by_cases hj : j = index
    · subst hj
      rw [read_writeBytes_head]
      simp
    · rw [writeBytes, ih _ _ _ (by omega) (by simp at h2; omega)]
      have : j - index = (j - (index + 1)) + 1 := by omega
      rw [this, List.getElem?_cons_succ]

theorem byteAt_recvInto (data old : List Byte) (j : Nat) (hj : j < data.length) :
    byteAt (recvInto data old) j = byteAt data j := by
  unfold byteAt recvInto
  simp [List.getD_eq_getElem?_getD, List.getElem?_append_left hj]

theorem getElem?_eq_byteAt (data : List Byte) (j : Nat) (hj : j < data.length) :
    data[j]? = some (byteAt data j) := by
  unfold byteAt
  simp [List.getD_eq_getElem?_getD, List.getElem?_eq_getElem hj]

theorem toByte_fourBytes_assemble32 (b0 b1 b2 b3 : Byte) :
    toByte (GET_BYTE_3 (assemble32 b0 b1 b2 b3)) = b0 ∧
    toByte (GET_BYTE_2 (assemble32 b0 b1 b2 b3)) = b1 ∧
    toByte (GET_BYTE_1 (assemble32 b0 b1 b2 b3)) = b2 ∧
    toByte (GET_BYTE_0 (assemble32 b0 b1 b2 b3)) = b3 := by
  have := fourBytes_assemble32 b0 b1 b2 b3
  simpa [fourBytes] using this

theorem htonl_decodeCoord (host : ByteOrder) (buf : List Byte) (off : Nat) :
    htonl host (decodeCoord host buf off)
      = assemble32 (byteAt buf off) (byteAt buf (off + 1)) (byteAt buf (off + 2))
          (byteAt buf (off + 3)) := by
  unfold decodeCoord
  rw [htonl_ntohl, Nat.mod_eq_of_lt (assemble32_lt _ _ _ _)]

/-- The shape of an accepted Player-Spawn frame and of the state it leaves. -/
theorem processPlayerMessage_spawn_accepted (host : ByteOrder) (blast : BlastTest) (p : Nat)
    (data : List Byte) (s s1 : GameServer) (calls : List BroadcastCall)
    (hn : 0 < data.length)
    (hkind : (byteAt (recvInto data (getP s.players p).recvBuffer) 5).val = PLAYER_SPAWN)
    (hacc : processPlayerMessage host blast p (RecvResult.received data) s
      = some (0, s1, calls)) :
    decodeNumBytes host (recvInto data (getP s.players p).recvBuffer) = 18 ∧
    18 ≤ data.length ∧ calls = [BroadcastCall.newSpawn p] ∧
    s1.players = modP (modP s.players p
        (fun q => { q with recvBuffer := recvInto data (getP s.players p).recvBuffer })) p
      (fun q => { q with
        x := decodeCoord host (recvInto data (getP s.players p).recvBuffer) 6,
        y := decodeCoord host (recvInto data (getP s.players p).recvBuffer) 10,
        z := decodeCoord host (recvInto data (getP s.players p).recvBuffer) 14,
        isAlive := true }) := by
  have hn0 : data.length ≠ 0 := by omega
  have hm : ¬ (byteAt (recvInto data (getP s.players p).recvBuffer) 5).val = PLAYER_MOVE := by
    rw [hkind]; decide
  have ha : ¬ (byteAt (recvInto data (getP s.players p).recvBuffer) 5).val
      = PLAYER_SELF_ANNIHILATE := by
    rw [hkind]; decide
  unfold processPlayerMessage at hacc
  simp only [hn0, if_false] at hacc
  by_cases h1 : data.length < decodeNumBytes host (recvInto data (getP s.players p).recvBuffer)
  · rw [if_pos h1] at hacc
    simp at hacc
  rw [if_neg h1] at hacc
  by_cases h2 : (byteAt (recvInto data (getP s.players p).recvBuffer) 4).val ≠ VERSION_NUM
  · rw [if_pos h2] at hacc
    simp at hacc
  rw [if_neg h2, if_neg hm, if_neg ha, if_pos hkind] at hacc
  by_cases hl : decodeNumBytes host (recvInto data (getP s.players p).recvBuffer) ≠ 18
  · rw [if_pos hl] at hacc
    simp at hacc
  rw [if_neg hl] at hacc
  have hl18 : decodeNumBytes host (recvInto data (getP s.players p).recvBuffer) = 18 :=
    not_not.mp hl
  simp only [Option.some.injEq, Prod.mk.injEq, true_and] at hacc
  obtain ⟨hs1, hcalls⟩ := hacc
  refine ⟨hl18, by omega, hcalls.symm, ?_⟩
  rw [← hs1]

/-- C9: when `processPlayerMessage` returns 0 for a received frame whose kind byte is
`PLAYER_SPAWN`, sent by the occupant `p` of a slot of the table, it calls `broadcastNewSpawn(p)`,
the frame has at least 18 bytes, and cells 10 to 21 of the message that `broadcastNewSpawn(p)`
builds hold bytes 6 to 17 of the frame, whatever the bit patterns and on either host byte
order. -/
theorem spawn_coordinates_pass_through (host : ByteOrder) (blast : BlastTest) (p : Nat)
    (data : List Byte) (s s1 : GameServer) (calls : List BroadcastCall)
    (hp : p < s.players.length) (hkind : (byteAt data 5).val = PLAYER_SPAWN)
    (hacc : processPlayerMessage host blast p (RecvResult.received data) s
      = some (0, s1, calls)) :
    calls = [BroadcastCall.newSpawn p] ∧ 18 ≤ data.length ∧
    ∀ i, i < 12 → (newSpawnMessage host p s1).read (10 + i) = data[6 + i]? := by
  have h5 : 5 < data.length := by
    by_contra h
    have : byteAt data 5 = 0 := by
      unfold byteAt
      simp [List.getD_eq_getElem?_getD, List.getElem?_eq_none (not_lt.mp h)]
    rw [this] at hkind
    revert hkind; decide
  have hkind1 : (byteAt (recvInto data (getP s.players p).recvBuffer) 5).val = PLAYER_SPAWN := by
    rw [byteAt_recvInto _ _ _ h5]; exact hkind
  obtain ⟨_, h18, hcalls, hs1⟩ :=
    processPlayerMessage_spawn_accepted host blast p data s s1 calls (by omega) hkind1 hacc
  refine ⟨hcalls, h18, ?_⟩
  have hget : getP s1.players p = { getP (modP s.players p
        (fun q => { q with recvBuffer := recvInto data (getP s.players p).recvBuffer })) p with
        x := decodeCoord host (recvInto data (getP s.players p).recvBuffer) 6,
        y := decodeCoord host (recvInto data (getP s.players p).recvBuffer) 10,
        z := decodeCoord host (recvInto data (getP s.players p).recvBuffer) 14,
        isAlive := true } := by
    rw [hs1, getP_modP, if_pos ⟨rfl, by rw [length_modP]; exact hp⟩]
  intro i hi
  unfold newSpawnMessage
  simp only [hget]
  rw [read_writeBytes _ _ _ _ (by omega) (by simp [fourBytes]; omega)]
  simp only [htonl_decodeCoord, fourBytes, List.cons_append, List.nil_append, Nat.sub_zero]
  have e6 := toByte_fourBytes_assemble32
    (byteAt (recvInto data (getP s.players p).recvBuffer) 6)
    (byteAt (recvInto data (getP s.players p).recvBuffer) (6 + 1))
    (byteAt (recvInto data (getP s.players p).recvBuffer) (6 + 2))
    (byteAt (recvInto data (getP s.players p).recvBuffer) (6 + 3))
  have e10 := toByte_fourBytes_assemble32
    (byteAt (recvInto data (getP s.players p).recvBuffer) 10)
    (byteAt (recvInto data (getP s.players p).recvBuffer) (10 + 1))
    (byteAt (recvInto data (getP s.players p).recvBuffer) (10 + 2))
    (byteAt (recvInto data (getP s.players p).recvBuffer) (10 + 3))
  have e14 := toByte_fourBytes_assemble32
    (byteAt (recvInto data (getP s.players p).recvBuffer) 14)
    (byteAt (recvInto data (getP s.players p).recvBuffer) (14 + 1))
    (byteAt (recvInto data (getP s.players p).recvBuffer) (14 + 2))
    (byteAt (recvInto data (getP s.players p).recvBuffer) (14 + 3))
  have hb : ∀ j, j < 18 → data[j]?
      = some (byteAt (recvInto data (getP s.players p).recvBuffer) j) := by
    intro j hj
    rw [byteAt_recvInto _ _ _ (by omega), getElem?_eq_byteAt _ _ (by omega)]
  generalize recvInto data (getP s.players p).recvBuffer = buf at e6 e10 e14 hb ⊢
  clear hacc hs1 hget hkind1
  simp only [Nat.reduceAdd] at e6 e10 e14
  interval_cases i <;>
    simp only [Nat.reduceAdd, Nat.add_zero, List.getElem?_cons_succ, List.getElem?_cons_zero,
      Option.map_some', hb _ (by decide : (6 : Nat) < 18), hb _ (by decide : (7 : Nat) < 18),
      hb _ (by decide : (8 : Nat) < 18), hb _ (by decide : (9 : Nat) < 18),
      hb _ (by decide : (10 : Nat) < 18), hb _ (by decide : (11 : Nat) < 18),
      hb _ (by decide : (12 : Nat) < 18), hb _ (by decide : (13 : Nat) < 18),
      hb _ (by decide : (14 : Nat) < 18), hb _ (by decide : (15 : Nat) < 18),
      hb _ (by decide : (16 : Nat) < 18), hb _ (by decide : (17 : Nat) < 18),
      e6.1, e6.2.1, e6.2.2.1, e6.2.2.2, e10.1, e10.2.1, e10.2.2.1, e10.2.2.2,
      e14.1, e14.2.1, e14.2.2.1, e14.2.2.2]

/-- C9 on a little-endian host, for a frame whose coordinates are a NaN, a denormal and 0.2. -/
theorem spawn_coordinates_pass_through_witness :
    1 < chainServer.players.length ∧ (byteAt spawnFrame 5).val = PLAYER_SPAWN ∧
    ∃ s1 calls,
      processPlayerMessage ByteOrder.littleEndian exactBlast 1 (RecvResult.received spawnFrame)
        chainServer = some (0, s1, calls) ∧
      calls = [BroadcastCall.newSpawn 1] ∧
      ∀ i, i < 12 →
        (newSpawnMessage ByteOrder.littleEndian 1 s1).read (10 + i) = spawnFrame[6 + i]? := by
  have hrun : ∃ s1 calls,
      processPlayerMessage ByteOrder.littleEndian exactBlast 1 (RecvResult.received spawnFrame)
        chainServer = some (0, s1, calls) := by
    cases h : processPlayerMessage ByteOrder.littleEndian exactBlast 1
        (RecvResult.received spawnFrame) chainServer with
    | none => exact absurd h (by decide)
    | some r =>
      obtain ⟨code, s1, calls⟩ := r
      have hc : (processPlayerMessage ByteOrder.littleEndian exactBlast 1
          (RecvResult.received spawnFrame) chainServer).map (fun r => r.1) = some 0 := by
        decide
      rw [h] at hc
      simp only [Option.map_some', Option.some.injEq] at hc
      subst hc
      exact ⟨s1, calls, rfl⟩
  obtain ⟨s1, calls, h⟩ := hrun
  have hthm := spawn_coordinates_pass_through ByteOrder.littleEndian exactBlast 1 spawnFrame
    chainServer s1 calls (by decide) (by decide) h
  exact ⟨by decide, by decide, s1, calls, h, hthm.1, hthm.2.2⟩

/-! ## The return code of `processPlayerMessage` -/

/-- C10: for every receive of `n > 0` bytes `processPlayerMessage` returns; it returns -1 when
the frame is rejected by the rule of the specification (decoded length field above `n`, version
byte not 1, kind byte not 1, 2 or 3, or decoded length different from the fixed length of the
kind) and 0 in every other case. Length, version and kind are read from the receive buffer as
the read left it. -/
theorem processPlayerMessage_return_code (host : ByteOrder) (blast : BlastTest) (playerID : Nat)
    (data : List Byte) (s : GameServer) (hn : 0 < data.length) :
    ∃ code s1 calls,
      processPlayerMessage host blast playerID (RecvResult.received data) s
        = some (code, s1, calls) ∧
      (frameRejected host data.length (recvInto data (getP s.players playerID).recvBuffer) →
        code = -1) ∧
      (¬ frameRejected host data.length (recvInto data (getP s.players playerID).recvBuffer) →
        code = 0) := by
  have hn0 : data.length ≠ 0 := by omega
  unfold processPlayerMessage frameRejected fixedLength
  simp only [hn0, if_false]
  generalize recvInto data (getP s.players playerID).recvBuffer = buf
  by_cases h1 : data.length < decodeNumBytes host buf
  · rw [if_pos h1]
    exact ⟨_, _, _, rfl, fun _ => rfl, fun h => absurd (Or.inl h1) h⟩
  rw [if_neg h1]
  by_cases h2 : (byteAt buf 4).val ≠ VERSION_NUM
  · rw [if_pos h2]
    exact ⟨_, _, _, rfl, fun _ => rfl, fun h => absurd (Or.inr (Or.inl h2)) h⟩
  rw [if_neg h2]
  by_cases hm : (byteAt buf 5).val = PLAYER_MOVE
  · rw [if_pos hm]
    by_cases hl : decodeNumBytes host buf ≠ 18
    · rw [if_pos hl]
      refine ⟨_, _, _, rfl, fun _ => rfl, fun h => absurd ?_ h⟩
      exact Or.inr (Or.inr (Or.inr ⟨18, by rw [if_pos hm], hl⟩))
    · rw [if_neg hl]
      refine ⟨_, _, _, rfl, fun h => absurd h ?_, fun _ => rfl⟩
      simp [h1, h2, hm, hl]
  rw [if_neg hm]
  by_cases ha : (byteAt buf 5).val = PLAYER_SELF_ANNIHILATE
  · rw [if_pos ha]
    by_cases hl : decodeNumBytes host buf ≠ 6
    · rw [if_pos hl]
      refine ⟨_, _, _, rfl, fun _ => rfl, fun h => absurd ?_ h⟩
      exact Or.inr (Or.inr (Or.inr ⟨6, by rw [if_neg hm, if_pos ha], hl⟩))
    · rw [if_neg hl]
      obtain ⟨k, s2, killed2, hrun, _⟩ := simRecursiveExplosion_post blast (PLAYER_LIMIT + 1)
        playerID (HeapArray.alloc ((PLAYER_LIMIT : Int) - 1)) 0
        { players := modP (modP s.players playerID (fun p => { p with recvBuffer := buf }))
            playerID (fun p => { p with isAlive := false })
          numActiveSockets := s.numActiveSockets
          numAlivePlayers := wrapInt32 (s.numAlivePlayers - 1)
          maxfd := s.maxfd }
        (Nat.lt_succ_of_le (liveFlags_le _))
      simp only [hrun]
      refine ⟨_, _, _, rfl, fun h => absurd h ?_, fun _ => rfl⟩
      have hne : PLAYER_SELF_ANNIHILATE ≠ PLAYER_MOVE := by decide
      simp [h1, h2, ha, hl, hne]
  rw [if_neg ha]
  by_cases hs : (byteAt buf 5).val = PLAYER_SPAWN
  · rw [if_pos hs]
    by_cases hl : decodeNumBytes host buf ≠ 18
    · rw [if_pos hl]
      refine ⟨_, _, _, rfl, fun _ => rfl, fun h => absurd ?_ h⟩
      exact Or.inr (Or.inr (Or.inr ⟨18, by rw [if_neg hm, if_neg ha, if_pos hs], hl⟩))
    · rw [if_neg hl]
      refine ⟨_, _, _, rfl, fun h => absurd h ?_, fun _ => rfl⟩
      have hne1 : PLAYER_SPAWN ≠ PLAYER_MOVE := by decide
      have hne2 : PLAYER_SPAWN ≠ PLAYER_SELF_ANNIHILATE := by decide
      simp [h1, h2, hs, hl, hne1, hne2]
  · rw [if_neg hs]
    refine ⟨_, _, _, rfl, fun _ => rfl, fun h => absurd ?_ h⟩
    exact Or.inr (Or.inr (Or.inl (by rw [if_neg hm, if_neg ha, if_neg hs])))

/-- C10 for the 18-byte Move frame `00 00 00 12, 01, 01, ...` received from player 1 of
`chainServer`: a little-endian host decodes a length above 18 and returns -1, a big-endian host
returns 0. -/
theorem processPlayerMessage_return_code_witness :
    0 < moveFrame.length ∧
    (∃ s1 calls, processPlayerMessage ByteOrder.littleEndian exactBlast 1
      (RecvResult.received moveFrame) chainServer = some (-1, s1, calls)) ∧
    (∃ s1 calls, processPlayerMessage ByteOrder.bigEndian exactBlast 1
      (RecvResult.received moveFrame) chainServer = some (0, s1, calls)) := by
  refine ⟨by decide, ?_, ?_⟩
  · obtain ⟨code, s1, calls, hrun, hrej, _⟩ := processPlayerMessage_return_code
      ByteOrder.littleEndian exactBlast 1 moveFrame chainServer (by decide)
    have hcode : code = -1 := hrej (Or.inl (by decide))
    subst hcode
    exact ⟨s1, calls, hrun⟩
  · obtain ⟨code, s1, calls, hrun, _, hacc⟩ := processPlayerMessage_return_code
      ByteOrder.bigEndian exactBlast 1 moveFrame chainServer (by decide)
    have hcode : code = 0 := by
      apply hacc
      rintro (h | h | h | ⟨len, h1, h2⟩)
      · revert h; decide
      · revert h; decide
      · revert h; decide
      · have h18 : len = 18 := by
          have : fixedLength (byteAt (recvInto moveFrame
              (getP chainServer.players 1).recvBuffer) 5).val = some 18 := by decide
          rw [this] at h1
          exact (Option.some.inj h1).symm
        subst h18
        revert h2; decide
    subst hcode
    exact ⟨s1, calls, hrun⟩

/-! ## Reachable states with more alive players than the counter says -/

theorem reachable_bind_runAccept (o : Option GameServer) (past : Int) (fds sent : Nat → Int)
    (h : ∀ s, o = some s → Reachable ByteOrder.littleEndian exactBlast s) :
    ∀ s1, o.bind (runAccept ByteOrder.littleEndian past fds sent) = some s1 →
      Reachable ByteOrder.littleEndian exactBlast s1 := by
  intro s1 h1
  cases o with
  | none => simp at h1
  | some s =>
    simp only [Option.some_bind] at h1
    exact Reachable.accept s s1 past fds sent (h s rfl) h1

theorem reachable_bind_afterMessage (o : Option GameServer) (playerID : Nat) (data : List Byte)
    (h : ∀ s, o = some s → Reachable ByteOrder.littleEndian exactBlast s) :
    ∀ s1, o.bind (afterMessage playerID data) = some s1 →
      Reachable ByteOrder.littleEndian exactBlast s1 := by
  intro s1 h1
  cases o with
  | none => simp at h1
  | some s =>
    simp only [Option.some_bind, afterMessage] at h1
    split at h1
    · rename_i hc
      cases hr : processPlayerMessage ByteOrder.littleEndian exactBlast playerID
          (RecvResult.received data) s with
      | none => rw [hr] at h1; simp at h1
      | some r =>
        rw [hr] at h1
        simp only [Option.map_some', Option.some.injEq] at h1
        obtain ⟨code, s2, calls⟩ := r
        simp only at h1
        subst h1
        exact Reachable.message s s2 playerID (RecvResult.received data) code calls (h s rfl)
          hc.2 hc.1 hr
    · simp at h1

theorem reachable_oneJoined :
    ∀ s, oneJoined = some s → Reachable ByteOrder.littleEndian exactBlast s := by
  intro s h
  exact Reachable.accept freshServer s 0 (fun _ => 4) (fun _ => 10)
    (Reachable.init zeroMemory 3 (by decide)) h

theorem reachable_twoJoined :
    ∀ s, twoJoined = some s → Reachable ByteOrder.littleEndian exactBlast s :=
  reachable_bind_runAccept oneJoined 0 (fun _ => 5) (fun _ => 10) reachable_oneJoined

/-- C18 (the code departs from the claim): after two accepts, player 0 spawning, detonating and
spawning again, and player 1 spawning, the reachable state has `numAlivePlayers = 1` and two
connected alive players. `broadcastMapUpdate` allocates `8 + 16 * 1 = 24` bytes and writes two
records: the second one goes to the indices 24 to 39, past the end of the buffer (`index` is 40
after the loop). -/
theorem mapUpdate_writes_past_its_buffer :
    ∃ s, respawned = some s ∧ Reachable ByteOrder.littleEndian exactBlast s ∧
      s.numAlivePlayers = 1 ∧ aliveCount s.players = 2 ∧
      (mapUpdateMessage ByteOrder.littleEndian s).map
        (fun r => (r.1, r.2.size,
          (r.2.writes.filter (fun w => decide (r.2.size ≤ (w.1 : Int)))).map (fun w => w.1)))
        = some (40, 24, [39, 38, 37, 36, 35, 34, 33, 32, 31, 30, 29, 28, 27, 26, 25, 24]) := by
  cases h : respawned with
  | none => exact absurd h (by decide)
  | some s =>
    have hv : respawned.map (fun t => (t.numAlivePlayers, aliveCount t.players,
        (mapUpdateMessage ByteOrder.littleEndian t).map
          (fun r => (r.1, r.2.size,
            (r.2.writes.filter (fun w => decide (r.2.size ≤ (w.1 : Int)))).map (fun w => w.1)))))
        = some (1, 2, some (40, 24,
            [39, 38, 37, 36, 35, 34, 33, 32, 31, 30, 29, 28, 27, 26, 25, 24])) := by
      decide
    rw [h] at hv
    simp only [Option.map_some', Option.some.injEq, Prod.mk.injEq] at hv
    refine ⟨s, rfl, ?_, hv.1, hv.2.1, hv.2.2⟩
    have h1 := reachable_bind_afterMessage _ 0 spawnOrigin reachable_twoJoined
    have h2 := reachable_bind_afterMessage _ 0 annihilateFrame h1
    have h3 := reachable_bind_afterMessage _ 0 spawnOrigin h2
    exact reachable_bind_afterMessage _ 1 spawnOrigin h3 s h

/-- C14 (the code departs from the claim): with all twenty slots occupied the scan of
`acceptNewPlayer` ends with `i = PLAYER_LIMIT` and the test `players[i].sockfd != 0` reads the
`int` past the table. When that `int` is 0 the code calls `accept`: it returns -1 if `accept`
fails and writes `players[20]` if `accept` succeeds (no result in the model); it returns -2 only
when the `int` past the table is not 0. -/
theorem acceptNewPlayer_full_table_reads_past_the_table :
    firstEmptySlot fullServer.players = PLAYER_LIMIT ∧
    (acceptNewPlayer 0 (-1) fullServer).map (fun r => r.1) = some (-1) ∧
    acceptNewPlayer 0 30 fullServer = none ∧
    (acceptNewPlayer 1 30 fullServer).map (fun r => r.1) = some (-2) := by
  decide

/-- C17 (the code departs from the claim): the constructor loop assigns `players[0].sockfd`
twenty times; on memory whose slot 1 holds the descriptor 7, slot 1 still holds 7 after the
constructor. -/
theorem constructor_clears_only_slot_zero :
    staleMemory.length = PLAYER_LIMIT ∧
    (getP staleMemory 1).sockfd = 7 ∧
    (getP (GameServer.init staleMemory 3).players 0).sockfd = 0 ∧
    (getP (GameServer.init staleMemory 3).players 1).sockfd = 7 := by
  decide

/-- C12 fails on the code: player 1 of `chainServer` holds descriptor 5; after a read of zero
bytes `processPlayerMessage` has returned 0 and the slot still holds descriptor 5. -/
theorem zero_byte_read_keeps_the_slot_occupied :
    (getP chainServer.players 1).sockfd = 5 ∧
    (processPlayerMessage ByteOrder.littleEndian exactBlast 1 (RecvResult.received [])
        chainServer).map (fun r => (r.1, (getP r.2.1.players 1).sockfd, r.2.2))
      = some (0, 5, []) := by
  decide

/-- C16 fails on the code: when the socket of player 0 is writable and every `send` fails,
`broadcastNewSpawn(1)` calls `send` four times on player 0. -/
theorem broadcast_calls_send_four_times :
    (broadcastNewSpawn (fun _ => true) (fun _ _ => -1) 1 chainServer).2.count 0 = 4 := by
  decide

/-! ## Rejected messages and zero-byte reads -/

/-- A call that returns -1 has made no broadcast and has at most stored the received bytes. -/
theorem processPlayerMessage_error_state (host : ByteOrder) (blast : BlastTest) (playerID : Nat)
    (r : RecvResult) (s s1 : GameServer) (calls : List BroadcastCall)
    (h : processPlayerMessage host blast playerID r s = some (-1, s1, calls)) :
    calls = [] ∧ ∃ buf, s1 = { s with
      players := modP s.players playerID (fun p => { p with recvBuffer := buf }) } ∨
      s1 = s := by
  cases r with
  | error =>
    simp only [processPlayerMessage, Option.some.injEq, Prod.mk.injEq, true_and] at h
    exact ⟨h.2.symm, [], Or.inr h.1.symm⟩
  | received data =>
    unfold processPlayerMessage at h
    simp only at h
    split at h
    · simp at h
    split at h
    · simp only [Option.some.injEq, Prod.mk.injEq, true_and] at h
      exact ⟨h.2.symm, _, Or.inl h.1.symm⟩
    split at h
    · simp only [Option.some.injEq, Prod.mk.injEq, true_and] at h
      exact ⟨h.2.symm, _, Or.inl h.1.symm⟩
    split at h
    · split at h
      · simp only [Option.some.injEq, Prod.mk.injEq, true_and] at h
        exact ⟨h.2.symm, _, Or.inl h.1.symm⟩
      · simp at h
    split at h
    · split at h
      · simp only [Option.some.injEq, Prod.mk.injEq, true_and] at h
        exact ⟨h.2.symm, _, Or.inl h.1.symm⟩
      · split at h
        · simp at h
        · simp at h
    split at h
    · split at h
      · simp only [Option.some.injEq, Prod.mk.injEq, true_and] at h
        exact ⟨h.2.symm, _, Or.inl h.1.symm⟩
      · simp at h
    · simp only [Option.some.injEq, Prod.mk.injEq, true_and] at h
      exact ⟨h.2.symm, _, Or.inl h.1.symm⟩

/-- C11: whenever `processPlayerMessage` returns -1, it has made no broadcast, the counters are
unchanged, and position, aliveness, score and socket handle of every slot are unchanged. -/
theorem processPlayerMessage_error_changes_no_session (host : ByteOrder) (blast : BlastTest)
    (playerID : Nat) (r : RecvResult) (s s1 : GameServer) (calls : List BroadcastCall)
    (h : processPlayerMessage host blast playerID r s = some (-1, s1, calls)) :
    calls = [] ∧ s1.numAlivePlayers = s.numAlivePlayers ∧
    s1.numActiveSockets = s.numActiveSockets ∧
    ∀ j, (getP s1.players j).x = (getP s.players j).x ∧
      (getP s1.players j).y = (getP s.players j).y ∧
      (getP s1.players j).z = (getP s.players j).z ∧
      (getP s1.players j).isAlive = (getP s.players j).isAlive ∧
      (getP s1.players j).score = (getP s.players j).score ∧
      (getP s1.players j).sockfd = (getP s.players j).sockfd := by
  obtain ⟨hcalls, buf, hs | hs⟩ := processPlayerMessage_error_state host blast playerID r s s1
    calls h
  · subst hs
    refine ⟨hcalls, rfl, rfl, ?_⟩
    intro j
    simp only [getP_modP]
    split <;> simp
  · subst hs
    exact ⟨hcalls, rfl, rfl, fun j => ⟨rfl, rfl, rfl, rfl, rfl, rfl⟩⟩

/-- C11 for the Move frame that a little-endian host rejects, received from player 1 of
`chainServer`. -/
theorem processPlayerMessage_error_changes_no_session_witness :
    ∃ s1 calls,
      processPlayerMessage ByteOrder.littleEndian exactBlast 1 (RecvResult.received moveFrame)
        chainServer = some (-1, s1, calls) ∧
      calls = [] ∧ s1.numAlivePlayers = chainServer.numAlivePlayers ∧
      (getP s1.players 1).isAlive = (getP chainServer.players 1).isAlive := by
  have hrun : ∃ s1 calls,
      processPlayerMessage ByteOrder.littleEndian exactBlast 1 (RecvResult.received moveFrame)
        chainServer = some (-1, s1, calls) := by
    cases h : processPlayerMessage ByteOrder.littleEndian exactBlast 1
        (RecvResult.received moveFrame) chainServer with
    | none => exact absurd h (by decide)
    | some r =>
      obtain ⟨code, s1, calls⟩ := r
      have hc : (processPlayerMessage ByteOrder.littleEndian exactBlast 1
          (RecvResult.received moveFrame) chainServer).map (fun r => r.1) = some (-1) := by
        decide
      rw [h] at hc
      simp only [Option.map_some', Option.some.injEq] at hc
      subst hc
      exact ⟨s1, calls, rfl⟩
  obtain ⟨s1, calls, h⟩ := hrun
  have hthm := processPlayerMessage_error_changes_no_session ByteOrder.littleEndian exactBlast 1
    (RecvResult.received moveFrame) chainServer s1 calls h
  exact ⟨s1, calls, h, hthm.1, hthm.2.1, (hthm.2.2.2 1).2.2.2.1⟩

/-- C12 as amended: when the read returns zero bytes, `processPlayerMessage` returns 0, makes no
broadcast and leaves the counters and every slot as they were; in particular the socket handle
of the session keeps its value and the slot stays occupied. -/
theorem zero_byte_read_leaves_every_slot (host : ByteOrder) (blast : BlastTest)
    (playerID : Nat) (s : GameServer) :
    ∃ s1, processPlayerMessage host blast playerID (RecvResult.received []) s = some (0, s1, []) ∧
      s1.numAlivePlayers = s.numAlivePlayers ∧ s1.numActiveSockets = s.numActiveSockets ∧
      ∀ j, getP s1.players j = getP s.players j := by
  refine ⟨{ s with
      players := modP s.players playerID
        (fun p => { p with recvBuffer := recvInto [] (getP s.players playerID).recvBuffer }) },
    ?_, rfl, rfl, ?_⟩
  · simp [processPlayerMessage]
  · intro j
    rw [getP_modP]
    split
    · rename_i h
      rw [h.1]
      simp [recvInto]
    · rfl

/-! ## Slot allocation -/

theorem find?_range'_spec (p : Nat → Bool) :
    ∀ (len start : Nat),
      (∃ i, (List.range' start len).find? p = some i ∧ start ≤ i ∧ i < start + len ∧
        p i = true ∧ ∀ j, start ≤ j → j < i → p j = false) ∨
      ((List.range' start len).find? p = none ∧
        ∀ j, start ≤ j → j < start + len → p j = false) := by
  intro len
  induction len with
  | zero =>
    intro start
    right
    exact ⟨rfl, fun j h1 h2 => by omega⟩
  | succ n ih =>
    intro start
    rw [List.range'_succ, List.find?_cons]
    cases hp : p start with
    | true =>
      left
      exact ⟨start, rfl, le_refl _, by omega, hp, fun j h1 h2 => by omega⟩
    | false =>
      rcases ih (start + 1) with ⟨i, h1, h2, h3, h4, h5⟩ | ⟨h1, h2⟩
      · left
        refine ⟨i, h1, by omega, by omega, h4, ?_⟩
        intro j hj1 hj2
        by_cases hjs : j = start
        · subst hjs; exact hp
        · exact h5 j (by omega) hj2
      · right
        refine ⟨h1, ?_⟩
        intro j hj1 hj2
        by_cases hjs : j = start
        · subst hjs; exact hp
        · exact h2 j (by omega) (by omega)

/-- The scan of `acceptNewPlayer` stops at the lowest empty slot, or runs to `PLAYER_LIMIT`. -/
theorem firstEmptySlot_spec (ps : List Player) :
    (firstEmptySlot ps < PLAYER_LIMIT ∧ (getP ps (firstEmptySlot ps)).sockfd = 0 ∧
      ∀ j, j < firstEmptySlot ps → (getP ps j).sockfd ≠ 0) ∨
    (firstEmptySlot ps = PLAYER_LIMIT ∧ ∀ j, j < PLAYER_LIMIT → (getP ps j).sockfd ≠ 0) := by
  unfold firstEmptySlot
  rw [List.range_eq_range']
  rcases find?_range'_spec (fun i => decide ((getP ps i).sockfd = 0)) PLAYER_LIMIT 0 with
    ⟨i, h1, _, h3, h4, h5⟩ | ⟨h1, h2⟩
  · left
    rw [h1]
    simp only [Option.getD_some]
    refine ⟨by omega, by simpa using h4, ?_⟩
    intro j hj
    have := h5 j (Nat.zero_le _) hj
    simpa using this
  · right
    rw [h1]
    refine ⟨rfl, ?_⟩
    intro j hj
    have := h2 j (Nat.zero_le _) (by omega)
    simpa using this

/-- C13: on a table of `PLAYER_LIMIT` slots with at least one empty slot, when `accept` succeeds
(`fd` is not -1), `acceptNewPlayer` returns the lowest index `i` whose `sockfd` was 0 and stores
the descriptor in slot `i` (with `isAlive` false and score 0); the other slots and the counters
are unchanged. -/
theorem acceptNewPlayer_takes_lowest_empty_slot (past fd : Int) (s : GameServer)
    (hlen : s.players.length = PLAYER_LIMIT)
    (hempty : ∃ e, e < PLAYER_LIMIT ∧ (getP s.players e).sockfd = 0) (hfd : fd ≠ -1) :
    ∃ (i : Nat) (s1 : GameServer), acceptNewPlayer past fd s = some ((i : Int), s1) ∧
      i < PLAYER_LIMIT ∧
      (getP s.players i).sockfd = 0 ∧ (∀ j, j < i → (getP s.players j).sockfd ≠ 0) ∧
      (getP s1.players i).sockfd = fd ∧ (getP s1.players i).isAlive = false ∧
      (getP s1.players i).score = 0 ∧ (∀ j, j ≠ i → getP s1.players j = getP s.players j) ∧
      s1.numAlivePlayers = s.numAlivePlayers ∧ s1.numActiveSockets = s.numActiveSockets := by
  rcases firstEmptySlot_spec s.players with ⟨h1, h2, h3⟩ | ⟨_, h2⟩
  · refine ⟨firstEmptySlot s.players,
      { s with
        players := modP s.players (firstEmptySlot s.players)
          (fun p => { p with sockfd := fd, score := 0, isAlive := false })
        maxfd := if fd > s.maxfd then fd else s.maxfd },
      ?_, h1, h2, h3, ?_, ?_, ?_, ?_, rfl, rfl⟩
    · unfold acceptNewPlayer
      simp only [h1, if_true, h2, ne_eq, not_true_eq_false, if_false, hfd]
    · simp [getP_modP, hlen, h1]
    · simp [getP_modP, hlen, h1]
    · simp [getP_modP, hlen, h1]
    · intro j hj
      simp [getP_modP, Ne.symm hj]
  · obtain ⟨e, he1, he2⟩ := hempty
    exact absurd he2 (h2 e he1)

/-- C13 with slots 0 and 2 occupied and slot 1 empty: the new player gets id 1. -/
theorem acceptNewPlayer_takes_lowest_empty_slot_witness :
    gapServer.players.length = PLAYER_LIMIT ∧
    (getP gapServer.players 0).sockfd ≠ 0 ∧ (getP gapServer.players 1).sockfd = 0 ∧
    (getP gapServer.players 2).sockfd ≠ 0 ∧
    ∃ s1, acceptNewPlayer 0 7 gapServer = some (1, s1) ∧ (getP s1.players 1).sockfd = 7 := by
  refine ⟨by decide, by decide, by decide, by decide, ?_⟩
  obtain ⟨i, s1, hrun, hi, h0, hlow, hfd, _⟩ :=
    acceptNewPlayer_takes_lowest_empty_slot 0 7 gapServer (by decide)
      ⟨1, by decide, by decide⟩ (by decide)
  have hi1 : i = 1 := by
    have h1 : ¬ 1 < i := fun h => hlow 1 h (by decide)
    have h2 : i ≠ 0 := by
      intro h; subst h; revert h0; decide
    omega
  subst hi1
  exact ⟨s1, hrun, hfd⟩

/-! ## Bounds and termination of the explosion -/

theorem liveFlags_lt_of_dead (ps : List Player) (d : Nat) (hd : d < PLAYER_LIMIT)
    (hdead : (getP ps d).isAlive = false) : liveFlags ps + 1 ≤ PLAYER_LIMIT := by
  have h := countP_flip (fun j => (getP ps j).isAlive || decide (j = d))
    (fun j => (getP ps j).isAlive) d (List.range PLAYER_LIMIT) (List.nodup_range _)
    (List.mem_range.mpr hd) (by simp) hdead (by intro j _ hj; simp [hj])
  unfold liveFlags
  rw [h]
  calc ((List.range PLAYER_LIMIT).filter
        (fun j => (getP ps j).isAlive || decide (j = d))).length
      ≤ (List.range PLAYER_LIMIT).length := List.length_filter_le _ _
    _ = PLAYER_LIMIT := List.length_range _

/-- C19: when the detonator `d` is a slot of the table and is marked not-alive,
`simRecursiveExplosion(d, killedPlayers, ...)` returns at most `PLAYER_LIMIT - 1 = 19`, and every
index at which it writes `killedPlayers` is below 19. -/
theorem simRecursiveExplosion_kill_list_within_bounds (blast : BlastTest) (fuel : Nat)
    (hfuel : PLAYER_LIMIT < fuel) (d : Nat) (hd : d < PLAYER_LIMIT)
    (killedPlayers : HeapArray Nat) (index : Nat) (s : GameServer)
    (hdead : (getP s.players d).isAlive = false) :
    ∃ k s1 killed1,
      simRecursiveExplosion blast fuel d killedPlayers index s = some (k, s1, killed1) ∧
      k ≤ PLAYER_LIMIT - 1 ∧
      ∃ new, killed1.writes = new ++ killedPlayers.writes ∧
        ∀ w ∈ new, w.1 < PLAYER_LIMIT - 1 := by
  obtain ⟨k, s1, killed1, hrun, post⟩ := simRecursiveExplosion_post blast fuel d killedPlayers
    index s (lt_of_le_of_lt (liveFlags_le _) hfuel)
  have hflags := post.flags
  have hlt := liveFlags_lt_of_dead s.players d hd hdead
  have hk : k ≤ PLAYER_LIMIT - 1 := by omega
  obtain ⟨new, hnew, hidx⟩ := post.writes
  refine ⟨k, s1, killed1, hrun, hk, new, hnew, ?_⟩
  intro w hw
  have := hidx w hw
  omega

theorem explosionLoop_mono (blast : BlastTest)
    (recur recur1 : Nat → HeapArray Nat → Nat → GameServer → Option ExplosionResult)
    (hmono : ∀ i killed idx t r, recur i killed idx t = some r → recur1 i killed idx t = some r)
    (playerID : Nat) :
    ∀ (is : List Nat) (numKills : Nat) (s : GameServer) (killed : HeapArray Nat)
      (r : ExplosionResult),
      explosionLoop blast recur playerID is numKills s killed = some r →
      explosionLoop blast recur1 playerID is numKills s killed = some r := by
  intro is
  induction is with
  | nil => intro numKills s killed r h; exact h
  | cons i rest ih =>
    intro numKills s killed r h
    rw [explosionLoop] at h ⊢
    split
    · rename_i hc
      rw [if_pos hc] at h
      simp only at h ⊢
      split at h
      · cases h
      · rename_i k s2 killed2 hcall
        rw [hmono _ _ _ _ _ hcall]
        exact ih _ _ _ _ h
    · rename_i hc
      rw [if_neg hc] at h
      exact ih _ _ _ _ h

theorem simRecursiveExplosion_fuel_succ (blast : BlastTest) :
    ∀ (fuel playerID : Nat) (killed : HeapArray Nat) (idx : Nat) (s : GameServer)
      (r : ExplosionResult),
      simRecursiveExplosion blast fuel playerID killed idx s = some r →
      simRecursiveExplosion blast (fuel + 1) playerID killed idx s = some r := by
  intro fuel
  induction fuel with
  | zero => intro _ _ _ _ _ h; simp [simRecursiveExplosion] at h
  | succ n ih =>
    intro playerID killed idx s r h
    rw [simRecursiveExplosion] at h ⊢
    exact explosionLoop_mono blast _ _ (fun i kd ix t r1 h1 => ih i kd ix t r1 h1) playerID
      _ _ _ _ r h

theorem simRecursiveExplosion_fuel_le (blast : BlastTest) (fuel fuel1 : Nat)
    (hle : fuel ≤ fuel1) (playerID : Nat) (killed : HeapArray Nat) (idx : Nat) (s : GameServer)
    (r : ExplosionResult) (h : simRecursiveExplosion blast fuel playerID killed idx s = some r) :
    simRecursiveExplosion blast fuel1 playerID killed idx s = some r := by
  induction hle with
  | refl => exact h
  | step _ ih => exact simRecursiveExplosion_fuel_succ blast _ _ _ _ _ _ ih

/-- C19 at the table A, B, C of `chainServer`. -/
theorem simRecursiveExplosion_kill_list_within_bounds_witness :
    PLAYER_LIMIT < PLAYER_LIMIT + 1 ∧ 0 < PLAYER_LIMIT ∧
    (getP chainServer.players 0).isAlive = false ∧
    ∃ k s1 killed1,
      simRecursiveExplosion exactBlast (PLAYER_LIMIT + 1) 0
        (HeapArray.alloc ((PLAYER_LIMIT : Int) - 1)) 0 chainServer = some (k, s1, killed1) ∧
      k ≤ PLAYER_LIMIT - 1 := by
  refine ⟨by decide, by decide, by decide, ?_⟩
  obtain ⟨k, s1, killed1, hrun, hk, _⟩ :=
    simRecursiveExplosion_kill_list_within_bounds exactBlast (PLAYER_LIMIT + 1) (by decide) 0
      (by decide) (HeapArray.alloc ((PLAYER_LIMIT : Int) - 1)) 0 chainServer (by decide)
  exact ⟨k, s1, killed1, hrun, hk⟩

theorem aliveCount_kill (ps : List Player) (i : Nat) (hi : i < PLAYER_LIMIT)
    (hc : (getP ps i).sockfd ≠ 0) (ha : (getP ps i).isAlive = true) :
    aliveCount (modP ps i (fun p => { p with isAlive := false })) + 1 = aliveCount ps := by
  unfold aliveCount
  apply countP_flip _ _ i _ (List.nodup_range _) (List.mem_range.mpr hi)
  · simp [hc, ha]
  · rw [getP_modP]; simp [lt_length_of_isAlive ps i ha]
  · intro j _ hne
    rw [getP_modP]
    simp [Ne.symm hne]

theorem aliveCount_le (ps : List Player) : aliveCount ps ≤ PLAYER_LIMIT := by
  unfold aliveCount
  calc ((List.range PLAYER_LIMIT).filter
        (fun i => decide ((getP ps i).sockfd ≠ 0) && (getP ps i).isAlive)).length
      ≤ (List.range PLAYER_LIMIT).length := List.length_filter_le _ _
    _ = PLAYER_LIMIT := List.length_range _

theorem aliveCount_le_of_post (blast : BlastTest) (p : Nat) (visited : List Nat) (n k : Nat)
    (s s1 : GameServer) (killed killed1 : HeapArray Nat)
    (post : ExplosionPost blast p visited n s s1 k killed killed1) :
    aliveCount s1.players ≤ aliveCount s.players := by
  have h := filter_split_length
    (fun i => decide ((getP s.players i).sockfd ≠ 0) && (getP s.players i).isAlive)
    (fun i => decide ((getP s1.players i).sockfd ≠ 0) && (getP s1.players i).isAlive)
    (by
      intro j hj
      simp only [Bool.and_eq_true, decide_eq_true_eq] at hj ⊢
      exact ⟨by rw [← sockfd_eq_of_same (post.same j)]; exact hj.1, post.mono j hj.2⟩)
    (List.range PLAYER_LIMIT)
  unfold aliveCount
  omega

theorem explosionLoop_returns (blast : BlastTest) (fuel : Nat)
    (hrec : ∀ (i : Nat) (killed : HeapArray Nat) (idx : Nat) (t : GameServer),
      aliveCount t.players < fuel →
      ∃ r, simRecursiveExplosion blast fuel i killed idx t = some r)
    (playerID : Nat) :
    ∀ (is : List Nat) (numKills : Nat) (s : GameServer) (killed : HeapArray Nat),
      (∀ i ∈ is, i < PLAYER_LIMIT) → aliveCount s.players ≤ fuel →
      ∃ r, explosionLoop blast (simRecursiveExplosion blast fuel) playerID is numKills s killed
        = some r := by
  intro is
  induction is with
  | nil => intro numKills s killed _ _; exact ⟨_, rfl⟩
  | cons i rest ih =>
    intro numKills s killed hmem hfuel
    have hrest : ∀ j ∈ rest, j < PLAYER_LIMIT := fun j hj => hmem j (List.mem_cons_of_mem _ hj)
    have hi : i < PLAYER_LIMIT := hmem i (List.mem_cons_self _ _)
    rw [explosionLoop]
    split
    · rename_i hc
      obtain ⟨_, hconn, halive, _⟩ := hc
      have hkill := aliveCount_kill s.players i hi hconn halive
      obtain ⟨r1, hcall⟩ := hrec i (killed.write numKills i) (numKills + 1 + 1)
        { s with
          players := modP s.players i (fun p => { p with isAlive := false })
          numAlivePlayers := wrapInt32 (s.numAlivePlayers - 1) }
        (by simp only; omega)
      obtain ⟨k1, s2, killed2⟩ := r1
      -- the same call with a budget above `PLAYER_LIMIT` has the same result and its
      -- postcondition
      have hbig := simRecursiveExplosion_fuel_le blast fuel (fuel + (PLAYER_LIMIT + 1))
        (Nat.le_add_right _ _) _ _ _ _ _ hcall
      obtain ⟨k, t, kd, hrun, post⟩ := simRecursiveExplosion_post blast
        (fuel + (PLAYER_LIMIT + 1)) i (killed.write numKills i) (numKills + 1 + 1)
        { s with
          players := modP s.players i (fun p => { p with isAlive := false })
          numAlivePlayers := wrapInt32 (s.numAlivePlayers - 1) }
        (by have := liveFlags_le (modP s.players i (fun p => { p with isAlive := false }))
            simp only; omega)
      rw [hbig] at hrun
      simp only [Option.some.injEq, Prod.mk.injEq] at hrun
      obtain ⟨hk, ht, hkd⟩ := hrun
      subst hk ht hkd
      have hle := aliveCount_le_of_post blast _ _ _ _ _ _ _ _ post
      simp only at hle
      simp only [hcall]
      exact ih _ s2 killed2 hrest (by omega)
    · exact ih _ s killed hrest hfuel

theorem simRecursiveExplosion_returns (blast : BlastTest) :
    ∀ (fuel playerID : Nat) (killed : HeapArray Nat) (idx : Nat) (s : GameServer),
      aliveCount s.players < fuel →
      ∃ r, simRecursiveExplosion blast fuel playerID killed idx s = some r := by
  intro fuel
  induction fuel with
  | zero => intro _ _ _ s h; exact absurd h (Nat.not_lt_zero _)
  | succ fuel ih =>
    intro playerID killed idx s h
    rw [simRecursiveExplosion]
    exact explosionLoop_returns blast fuel ih playerID (List.range PLAYER_LIMIT) 0 s killed
      (fun i hi => List.mem_range.mp hi) (Nat.lt_succ_iff.mp h)

/-- C20: `simRecursiveExplosion` terminates on every player table. The number of connected
alive players is at most `PLAYER_LIMIT`; a recursion budget above that number always yields a
result, the same for every such budget (so the nesting of recursive calls never exceeds the
number of connected alive players); and marking a connected alive player not-alive, which
precedes every recursive call, lowers that number by exactly one. -/
theorem simRecursiveExplosion_terminates (blast : BlastTest) (playerID : Nat)
    (killedPlayers : HeapArray Nat) (index : Nat) (s : GameServer) :
    aliveCount s.players ≤ PLAYER_LIMIT ∧
    (∃ r, ∀ fuel, aliveCount s.players < fuel →
      simRecursiveExplosion blast fuel playerID killedPlayers index s = some r) ∧
    (∀ i, i < PLAYER_LIMIT → (getP s.players i).sockfd ≠ 0 → (getP s.players i).isAlive = true →
      aliveCount (modP s.players i (fun p => { p with isAlive := false })) + 1
        = aliveCount s.players) := by
  refine ⟨aliveCount_le _, ?_, fun i hi hc ha => aliveCount_kill s.players i hi hc ha⟩
  obtain ⟨r, hr⟩ := simRecursiveExplosion_returns blast (aliveCount s.players + 1) playerID
    killedPlayers index s (Nat.lt_succ_self _)
  exact ⟨r, fun fuel hfuel =>
    simRecursiveExplosion_fuel_le blast _ fuel hfuel _ _ _ _ _ hr⟩

/-- C20 at the table A, B, C of `chainServer`, which has two connected alive players: a budget
of 3 is enough. -/
theorem simRecursiveExplosion_terminates_witness :
    aliveCount chainServer.players < 3 ∧
    ∃ r, simRecursiveExplosion exactBlast 3 0 (HeapArray.alloc ((PLAYER_LIMIT : Int) - 1)) 0
      chainServer = some r := by
  obtain ⟨r, hr⟩ := (simRecursiveExplosion_terminates exactBlast 0
    (HeapArray.alloc ((PLAYER_LIMIT : Int) - 1)) 0 chainServer).2.1
  exact ⟨by decide, r, hr 3 (by decide)⟩

/-! ## Scores -/

/-- The four outcomes of `processPlayerMessage` on a read of at least one byte. -/
theorem processPlayerMessage_shape (host : ByteOrder) (blast : BlastTest) (p : Nat)
    (data : List Byte) (s : GameServer) (hn : 0 < data.length) :
    (frameRejected host data.length (recvInto data (getP s.players p).recvBuffer) ∧
      processPlayerMessage host blast p (RecvResult.received data) s
        = some (-1, storeReceived p data s, [])) ∨
    (¬ frameRejected host data.length (recvInto data (getP s.players p).recvBuffer) ∧
      (byteAt (recvInto data (getP s.players p).recvBuffer) 5).val = PLAYER_MOVE ∧
      processPlayerMessage host blast p (RecvResult.received data) s
        = some (0,
            { storeReceived p data s with
              players := modP (storeReceived p data s).players p (fun q =>
                { q with
                  x := decodeCoord host (recvInto data (getP s.players p).recvBuffer) 6,
                  y := decodeCoord host (recvInto data (getP s.players p).recvBuffer) 10,
                  z := decodeCoord host (recvInto data (getP s.players p).recvBuffer) 14 }) },
            [])) ∨
    (¬ frameRejected host data.length (recvInto data (getP s.players p).recvBuffer) ∧
      (byteAt (recvInto data (getP s.players p).recvBuffer) 5).val = PLAYER_SPAWN ∧
      processPlayerMessage host blast p (RecvResult.received data) s
        = some (0,
            { storeReceived p data s with
              players := modP (storeReceived p data s).players p (fun q =>
                { q with
                  x := decodeCoord host (recvInto data (getP s.players p).recvBuffer) 6,
                  y := decodeCoord host (recvInto data (getP s.players p).recvBuffer) 10,
                  z := decodeCoord host (recvInto data (getP s.players p).recvBuffer) 14,
                  isAlive := true }) },
            [BroadcastCall.newSpawn p])) ∨
    (¬ frameRejected host data.length (recvInto data (getP s.players p).recvBuffer) ∧
      (byteAt (recvInto data (getP s.players p).recvBuffer) 5).val = PLAYER_SELF_ANNIHILATE ∧
      ∃ k s2 killed,
        ExplosionPost blast p (List.range PLAYER_LIMIT) 0
          { storeReceived p data s with
            players := modP (storeReceived p data s).players p
              (fun q => { q with isAlive := false })
            numAlivePlayers := wrapInt32 ((storeReceived p data s).numAlivePlayers - 1) }
          s2 k (HeapArray.alloc ((PLAYER_LIMIT : Int) - 1)) killed ∧
        processPlayerMessage host blast p (RecvResult.received data) s
          = some (0,
              { s2 with
                players := modP s2.players p (fun q =>
                  { q with score := wrapInt32 (q.score + k) }) },
              [BroadcastCall.selfDestruct p k killed])) := by
  have hn0 : data.length ≠ 0 := by omega
  unfold processPlayerMessage storeReceived
  simp only [hn0, if_false]
  generalize recvInto data (getP s.players p).recvBuffer = buf
  have hne1 : PLAYER_SELF_ANNIHILATE ≠ PLAYER_MOVE := by decide
  have hne2 : PLAYER_SPAWN ≠ PLAYER_MOVE := by decide
  have hne3 : PLAYER_SPAWN ≠ PLAYER_SELF_ANNIHILATE := by decide
  by_cases h1 : data.length < decodeNumBytes host buf
  · rw [if_pos h1]
    exact Or.inl ⟨Or.inl h1, rfl⟩
  rw [if_neg h1]
  by_cases h2 : (byteAt buf 4).val ≠ VERSION_NUM
  · rw [if_pos h2]
    exact Or.inl ⟨Or.inr (Or.inl h2), rfl⟩
  rw [if_neg h2]
  by_cases hm : (byteAt buf 5).val = PLAYER_MOVE
  · rw [if_pos hm]
    by_cases hl : decodeNumBytes host buf ≠ 18
    · rw [if_pos hl]
      exact Or.inl ⟨Or.inr (Or.inr (Or.inr ⟨18, by simp [fixedLength, hm], hl⟩)), rfl⟩
    · rw [if_neg hl]
      refine Or.inr (Or.inl ⟨?_, hm, rfl⟩)
      simp [frameRejected, fixedLength, h1, h2, hm, hl]
  rw [if_neg hm]
  by_cases ha : (byteAt buf 5).val = PLAYER_SELF_ANNIHILATE
  · rw [if_pos ha]
    by_cases hl : decodeNumBytes host buf ≠ 6
    · rw [if_pos hl]
      exact Or.inl ⟨Or.inr (Or.inr (Or.inr ⟨6, by simp [fixedLength, ha, hne1], hl⟩)), rfl⟩
    · rw [if_neg hl]
      obtain ⟨k, s2, killed2, hrun, post⟩ := simRecursiveExplosion_post blast (PLAYER_LIMIT + 1)
        p (HeapArray.alloc ((PLAYER_LIMIT : Int) - 1)) 0
        { players := modP (modP s.players p (fun q => { q with recvBuffer := buf }))
            p (fun q => { q with isAlive := false })
          numActiveSockets := s.numActiveSockets
          numAlivePlayers := wrapInt32 (s.numAlivePlayers - 1)
          maxfd := s.maxfd }
        (Nat.lt_succ_of_le (liveFlags_le _))
      simp only [hrun]
      refine Or.inr (Or.inr (Or.inr ⟨?_, ha, k, s2, killed2, post, rfl⟩))
      simp [frameRejected, fixedLength, h1, h2, ha, hl, hne1]
  rw [if_neg ha]
  by_cases hs : (byteAt buf 5).val = PLAYER_SPAWN
  · rw [if_pos hs]
    by_cases hl : decodeNumBytes host buf ≠ 18
    · rw [if_pos hl]
      exact Or.inl ⟨Or.inr (Or.inr (Or.inr
        ⟨18, by simp [fixedLength, hs, hne2, hne3], hl⟩)), rfl⟩
    · rw [if_neg hl]
      refine Or.inr (Or.inr (Or.inl ⟨?_, hs, rfl⟩))
      simp [frameRejected, fixedLength, h1, h2, hs, hl, hne2, hne3]
  · rw [if_neg hs]
    exact Or.inl ⟨Or.inr (Or.inr (Or.inl (by simp [fixedLength, hm, ha, hs]))), rfl⟩

theorem score_modP (ps : List Player) (i j : Nat) (f : Player → Player)
    (hf : ∀ q, (f q).score = q.score) : (getP (modP ps i f) j).score = (getP ps j).score := by
  rw [getP_modP]
  split
  · exact hf _
  · rfl

theorem isAlive_modP (ps : List Player) (i j : Nat) (f : Player → Player)
    (hf : ∀ q, (f q).isAlive = q.isAlive) :
    (getP (modP ps i f) j).isAlive = (getP ps j).isAlive := by
  rw [getP_modP]
  split
  · exact hf _
  · rfl

/-- C15: processing a read of at least one byte from session `d` leaves the score of every
other session unchanged; for a valid Self-Annihilate frame the score of `d` grows by exactly
the number of players other than `d` that went from alive to not-alive; for a Move or Spawn
frame the score of `d` is unchanged; in every case the score of `d` does not decrease. The
score is an `int32_t`, assumed at least `PLAYER_LIMIT` below its largest value. -/
theorem processPlayerMessage_score (host : ByteOrder) (blast : BlastTest) (d : Nat)
    (data : List Byte) (s : GameServer) (hd : d < s.players.length) (hn : 0 < data.length)
    (hlo : -2147483648 ≤ (getP s.players d).score)
    (hhi : (getP s.players d).score + (PLAYER_LIMIT : Int) < 2147483648) :
    ∃ code s1 calls,
      processPlayerMessage host blast d (RecvResult.received data) s = some (code, s1, calls) ∧
      (∀ j, j ≠ d → (getP s1.players j).score = (getP s.players j).score) ∧
      (¬ frameRejected host data.length (recvInto data (getP s.players d).recvBuffer) →
        (byteAt (recvInto data (getP s.players d).recvBuffer) 5).val = PLAYER_SELF_ANNIHILATE →
        (getP s1.players d).score = (getP s.players d).score
          + ((eliminated s.players s1.players).filter (fun j => decide (j ≠ d))).length) ∧
      ((byteAt (recvInto data (getP s.players d).recvBuffer) 5).val = PLAYER_MOVE ∨
        (byteAt (recvInto data (getP s.players d).recvBuffer) 5).val = PLAYER_SPAWN →
        (getP s1.players d).score = (getP s.players d).score) ∧
      (getP s.players d).score ≤ (getP s1.players d).score := by
  have hne1 : PLAYER_SELF_ANNIHILATE ≠ PLAYER_MOVE := by decide
  have hne2 : PLAYER_SPAWN ≠ PLAYER_MOVE := by decide
  have hne3 : PLAYER_SPAWN ≠ PLAYER_SELF_ANNIHILATE := by decide
  rcases processPlayerMessage_shape host blast d data s hn with
    ⟨hrej, hrun⟩ | ⟨hacc, hkind, hrun⟩ | ⟨hacc, hkind, hrun⟩ | ⟨hacc, hkind, k, s2, killed, post, hrun⟩
  · have hsc : ∀ j, (getP (storeReceived d data s).players j).score = (getP s.players j).score :=
      by
        intro j
        simp only [storeReceived, getP_modP]
        split_ifs <;> rfl
    exact ⟨_, _, _, hrun, fun j _ => hsc j, fun h => absurd hrej h, fun _ => hsc d,
      le_of_eq (hsc d).symm⟩
  · have hsc : ∀ j, (getP (modP (storeReceived d data s).players d (fun q =>
        { q with
          x := decodeCoord host (recvInto data (getP s.players d).recvBuffer) 6,
          y := decodeCoord host (recvInto data (getP s.players d).recvBuffer) 10,
          z := decodeCoord host (recvInto data (getP s.players d).recvBuffer) 14 })) j).score
        = (getP s.players j).score := by
      intro j
      simp only [storeReceived, getP_modP]
      split_ifs <;> rfl
    refine ⟨_, _, _, hrun, fun j _ => hsc j, ?_, fun _ => hsc d, le_of_eq (hsc d).symm⟩
    intro _ h
    rw [hkind] at h
    exact absurd h.symm hne1
  · have hsc : ∀ j, (getP (modP (storeReceived d data s).players d (fun q =>
        { q with
          x := decodeCoord host (recvInto data (getP s.players d).recvBuffer) 6,
          y := decodeCoord host (recvInto data (getP s.players d).recvBuffer) 10,
          z := decodeCoord host (recvInto data (getP s.players d).recvBuffer) 14,
          isAlive := true })) j).score
        = (getP s.players j).score := by
      intro j
      simp only [storeReceived, getP_modP]
      split_ifs <;> rfl
    refine ⟨_, _, _, hrun, fun j _ => hsc j, ?_, fun _ => hsc d, le_of_eq (hsc d).symm⟩
    intro _ h
    rw [hkind] at h
    exact absurd h hne3
  · -- the Self-Annihilate handler
    have hlenA : d < (storeReceived d data s).players.length := by
      simp only [storeReceived, length_modP]; exact hd
    have hB : ∀ j, getP (modP (storeReceived d data s).players d
        (fun q => { q with isAlive := false })) j
        = if d = j then { getP (storeReceived d data s).players j with isAlive := false }
          else getP (storeReceived d data s).players j := by
      intro j; rw [getP_modP]; simp [hlenA]
    have hAscore : ∀ j, (getP (storeReceived d data s).players j).score
        = (getP s.players j).score := by
      intro j
      simp only [storeReceived, getP_modP]
      split_ifs <;> rfl
    have hAalive : ∀ j, (getP (storeReceived d data s).players j).isAlive
        = (getP s.players j).isAlive := by
      intro j
      simp only [storeReceived, getP_modP]
      split_ifs <;> rfl
    have h2score : ∀ j, (getP s2.players j).score = (getP s.players j).score := by
      intro j
      have h := sockfd_eq_of_same (post.same j)
      have hs := congrArg Player.score (post.same j)
      simp only at hs
      rw [hs, hB]
      split
      · exact hAscore j
      · exact hAscore j
    have hlen2 : d < s2.players.length := by
      have := post.len
      simp only [length_modP] at this
      rw [this]; exact hlenA
    have hget1 : ∀ j, getP (modP s2.players d
        (fun q => { q with score := wrapInt32 (q.score + k) })) j
        = if d = j then { getP s2.players j with score := wrapInt32 ((getP s2.players j).score + k) }
          else getP s2.players j := by
      intro j; rw [getP_modP]; simp [hlen2]
    have hcount : k = (eliminated (modP (storeReceived d data s).players d
        (fun q => { q with isAlive := false })) s2.players).length := by
      have h1 := eliminated_length _ _ post.mono
      have h2 := post.flags
      simp only at h1 h2
      omega
    have hk20 : k ≤ PLAYER_LIMIT := by
      have h2 := post.flags
      have h3 := liveFlags_le (modP (storeReceived d data s).players d
        (fun q => { q with isAlive := false }))
      simp only at h2
      omega
    have hfilter : eliminated (modP (storeReceived d data s).players d
          (fun q => { q with isAlive := false })) s2.players
        = (eliminated s.players (modP s2.players d
            (fun q => { q with score := wrapInt32 (q.score + k) }))).filter
            (fun j => decide (j ≠ d)) := by
      unfold eliminated
      rw [List.filter_filter]
      apply List.filter_congr
      intro j _
      rw [hB, hget1]
      by_cases hj : d = j
      · subst hj; simp
      · have hj2 : j ≠ d := fun h => hj h.symm
        simp only [if_neg hj, hAalive, hj2, ne_eq, not_false_eq_true, decide_True, Bool.true_and]
    refine ⟨_, _, _, hrun, ?_, ?_, ?_, ?_⟩
    · intro j hj
      simp only [hget1, if_neg (Ne.symm hj)]
      exact h2score j
    · intro _ _
      simp only [hget1, if_true]
      rw [← hfilter, ← hcount, h2score]
      simp only [PLAYER_LIMIT] at hhi hk20
      unfold wrapInt32
      omega
    · intro h
      rw [hkind] at h
      rcases h with h | h
      · exact absurd h hne1
      · exact absurd h.symm hne3
    · simp only [hget1, if_true]
      rw [h2score]
      simp only [PLAYER_LIMIT] at hhi hk20
      unfold wrapInt32
      omega

/-- C15 for a Self-Annihilate frame from player 1 of `chainServer` on a little-endian host. -/
theorem processPlayerMessage_score_witness :
    1 < chainServer.players.length ∧ 0 < annihilateFrame.length ∧
    -2147483648 ≤ (getP chainServer.players 1).score ∧
    (getP chainServer.players 1).score + (PLAYER_LIMIT : Int) < 2147483648 ∧
    ∃ code s1 calls,
      processPlayerMessage ByteOrder.littleEndian exactBlast 1
        (RecvResult.received annihilateFrame) chainServer = some (code, s1, calls) ∧
      (∀ j, j ≠ 1 → (getP s1.players j).score = (getP chainServer.players j).score) ∧
      (getP chainServer.players 1).score ≤ (getP s1.players 1).score := by
  refine ⟨by decide, by decide, by decide, by decide, ?_⟩
  obtain ⟨code, s1, calls, hrun, hothers, _, _, hle⟩ :=
    processPlayerMessage_score ByteOrder.littleEndian exactBlast 1 annihilateFrame chainServer
      (by decide) (by decide) (by decide) (by decide)
  exact ⟨code, s1, calls, hrun, hothers, hle⟩

/-! ## Send attempts of a broadcast -/

theorem sendRetry_calls (messageSize : Int) (results : Nat → Int) :
    ∀ (count : Nat) (bytes : Int) (calls : Nat),
      (sendRetry messageSize results count bytes calls).2 ≤ calls + count := by
  intro count
  induction count with
  | zero => intro bytes calls; simp [sendRetry]
  | succ n ih =>
    intro bytes calls
    rw [sendRetry]
    split
    · have := ih (results calls) (calls + 1)
      omega
    · simp

theorem sendToTarget_calls (messageSize : Int) (writable : Bool) (results : Nat → Int) :
    (sendToTarget messageSize writable results).2 ≤ if writable = true then 4 else 3 := by
  unfold sendToTarget
  cases writable with
  | true =>
    have := sendRetry_calls messageSize results 3 (results 0) 1
    simpa using this
  | false =>
    have := sendRetry_calls messageSize results 3 (-1) 0
    simpa using this

theorem sendLoop_count_of_not_mem (messageSize : Int) (writable : Nat → Bool)
    (results : Nat → Nat → Int) (target : Nat → Bool) (i : Nat) :
    ∀ (is : List Nat) (numSent : Nat) (sends : List Nat), i ∉ is →
      ((sendLoop messageSize writable results target is numSent sends).2).count i
        = sends.count i := by
  intro is
  induction is with
  | nil => intro numSent sends _; simp [sendLoop]
  | cons a rest ih =>
    intro numSent sends hmem
    have hai : a ≠ i := fun h => hmem (h ▸ List.mem_cons_self _ _)
    have hrest : i ∉ rest := fun h => hmem (List.mem_cons_of_mem _ h)
    rw [sendLoop]
    split
    · rw [ih _ _ hrest, List.count_append, List.count_replicate]
      simp [hai]
    · exact ih _ _ hrest

theorem sendLoop_count (messageSize : Int) (writable : Nat → Bool) (results : Nat → Nat → Int)
    (target : Nat → Bool) (i : Nat) :
    ∀ (is : List Nat) (numSent : Nat) (sends : List Nat), is.Nodup →
      ((sendLoop messageSize writable results target is numSent sends).2).count i
        ≤ sends.count i + if writable i = true then 4 else 3 := by
  intro is
  induction is with
  | nil => intro numSent sends _; simp [sendLoop]
  | cons a rest ih =>
    intro numSent sends hnd
    rw [List.nodup_cons] at hnd
    rw [sendLoop]
    split
    · by_cases hai : a = i
      · subst hai
        rw [sendLoop_count_of_not_mem _ _ _ _ _ _ _ _ hnd.1, List.count_append,
          List.count_replicate_self]
        have hc := sendToTarget_calls messageSize (writable a) (results a)
        omega
      · have hstep := ih (if (sendToTarget messageSize (writable a) (results a)).1 = messageSize
            then numSent + 1 else numSent)
          (sends ++ List.replicate (sendToTarget messageSize (writable a) (results a)).2 a)
          hnd.2
        rw [List.count_append, List.count_replicate] at hstep
        simpa [hai] using hstep
    · exact ih _ _ hnd.2

theorem sendLoop_untargeted (messageSize : Int) (writable : Nat → Bool)
    (results : Nat → Nat → Int) (target : Nat → Bool) (i : Nat) (hi : target i = false) :
    ∀ (is : List Nat) (numSent : Nat) (sends : List Nat),
      ((sendLoop messageSize writable results target is numSent sends).2).count i
        = sends.count i := by
  intro is
  induction is with
  | nil => intro numSent sends; simp [sendLoop]
  | cons a rest ih =>
    intro numSent sends
    rw [sendLoop]
    split
    · rename_i ha
      have hai : a ≠ i := fun h => by rw [h, hi] at ha; cases ha
      rw [ih, List.count_append, List.count_replicate]
      simp [hai]
    · exact ih _ _

/-- C16 as amended: in each of the three broadcasts and for every outcome of the writes, `send`
is called on a target at most 4 times when its socket is in `writeSet` (one attempt and up to
three retries) and at most 3 times when it is not. -/
theorem broadcast_send_calls_per_target (writable : Nat → Bool) (results : Nat → Nat → Int)
    (s : GameServer) (i : Nat) :
    (∀ playerID, (broadcastNewSpawn writable results playerID s).2.count i
      ≤ if writable i = true then 4 else 3) ∧
    (∀ numKills r, broadcastSelfDestruct writable results numKills s = some r →
      r.2.count i ≤ if writable i = true then 4 else 3) ∧
    (∀ r, broadcastMapUpdate writable results s = some r →
      r.2.count i ≤ if writable i = true then 4 else 3) := by
  refine ⟨?_, ?_, ?_⟩
  · intro playerID
    have := sendLoop_count 22 writable results
      (fun j => decide ((getP s.players j).sockfd ≠ 0) && decide (j ≠ playerID)) i
      (List.range PLAYER_LIMIT) 0 [] (List.nodup_range _)
    simpa [broadcastNewSpawn] using this
  · intro numKills r hr
    unfold broadcastSelfDestruct at hr
    simp only at hr
    split at hr
    · cases hr
    · simp only [Option.some.injEq] at hr
      subst hr
      have := sendLoop_count (wrapInt32 (12 + (numKills : Int) * 4)) writable results
        (fun j => decide ((getP s.players j).sockfd ≠ 0)) i
        (List.range PLAYER_LIMIT) 0 [] (List.nodup_range _)
      simpa using this
  · intro r hr
    unfold broadcastMapUpdate at hr
    simp only at hr
    split at hr
    · cases hr
    · simp only [Option.some.injEq] at hr
      subst hr
      have := sendLoop_count (wrapInt32 (8 + 16 * s.numAlivePlayers)) writable results
        (fun j => decide ((getP s.players j).sockfd ≠ 0)) i
        (List.range PLAYER_LIMIT) 0 [] (List.nodup_range _)
      simpa using this

/-- C16 as amended, for writable sockets on which every `send` fails, on `chainServer`. -/
theorem broadcast_send_calls_per_target_witness :
    (broadcastNewSpawn (fun _ => true) (fun _ _ => -1) 1 chainServer).2.count 0 ≤ 4 ∧
    (∃ r, broadcastSelfDestruct (fun _ => true) (fun _ _ => -1) 2 chainServer = some r ∧
      r.2.count 0 ≤ 4) ∧
    (∃ r, broadcastMapUpdate (fun _ => true) (fun _ _ => -1) chainServer = some r ∧
      r.2.count 0 ≤ 4) :=
  ⟨(broadcast_send_calls_per_target (fun _ => true) (fun _ _ => -1) chainServer 0).1 1,
    ⟨_, rfl, (broadcast_send_calls_per_target (fun _ => true) (fun _ _ => -1)
      chainServer 0).2.1 2 _ rfl⟩,
    ⟨_, rfl, (broadcast_send_calls_per_target (fun _ => true) (fun _ _ => -1)
      chainServer 0).2.2 _ rfl⟩⟩

/-! ## Records of the map update -/

theorem decodedWord_of_reads (host : ByteOrder) (m : HeapArray Byte) (off v : Nat)
    (h0 : m.read off = some (toByte (GET_BYTE_3 (htonl host v))))
    (h1 : m.read (off + 1) = some (toByte (GET_BYTE_2 (htonl host v))))
    (h2 : m.read (off + 2) = some (toByte (GET_BYTE_1 (htonl host v))))
    (h3 : m.read (off + 3) = some (toByte (GET_BYTE_0 (htonl host v)))) :
    decodedWord host m off = some (v % 4294967296) := by
  unfold decodedWord
  rw [h0, h1, h2, h3]
  simp only
  rw [assemble32_fourBytes _ (htonl_lt host v), ntohl_htonl]

theorem decodedRecord_of_reads (host : ByteOrder) (m : HeapArray Byte) (off i x y z : Nat)
    (h : ∀ t, t < 16 → m.read (off + t)
      = ((fourBytes (htonl host i) ++ fourBytes (htonl host x) ++ fourBytes (htonl host y)
          ++ fourBytes (htonl host z))[t]?).map toByte) :
    decodedRecord host m off
      = some (i % 4294967296, x % 4294967296, y % 4294967296, z % 4294967296) := by
  have r : ∀ t, t < 16 → m.read (off + t)
      = ([GET_BYTE_3 (htonl host i), GET_BYTE_2 (htonl host i), GET_BYTE_1 (htonl host i),
          GET_BYTE_0 (htonl host i), GET_BYTE_3 (htonl host x), GET_BYTE_2 (htonl host x),
          GET_BYTE_1 (htonl host x), GET_BYTE_0 (htonl host x), GET_BYTE_3 (htonl host y),
          GET_BYTE_2 (htonl host y), GET_BYTE_1 (htonl host y), GET_BYTE_0 (htonl host y),
          GET_BYTE_3 (htonl host z), GET_BYTE_2 (htonl host z), GET_BYTE_1 (htonl host z),
          GET_BYTE_0 (htonl host z)][t]?).map toByte := by
    intro t ht
    rw [h t ht]
    simp [fourBytes]
  have w0 := decodedWord_of_reads host m off i (by simpa using r 0 (by decide))
    (by simpa using r 1 (by decide)) (by simpa using r 2 (by decide))
    (by simpa using r 3 (by decide))
  have w1 := decodedWord_of_reads host m (off + 4) x (by simpa using r 4 (by decide))
    (by simpa [Nat.add_assoc] using r 5 (by decide))
    (by simpa [Nat.add_assoc] using r 6 (by decide))
    (by simpa [Nat.add_assoc] using r 7 (by decide))
  have w2 := decodedWord_of_reads host m (off + 8) y (by simpa using r 8 (by decide))
    (by simpa [Nat.add_assoc] using r 9 (by decide))
    (by simpa [Nat.add_assoc] using r 10 (by decide))
    (by simpa [Nat.add_assoc] using r 11 (by decide))
  have w3 := decodedWord_of_reads host m (off + 12) z (by simpa using r 12 (by decide))
    (by simpa [Nat.add_assoc] using r 13 (by decide))
    (by simpa [Nat.add_assoc] using r 14 (by decide))
    (by simpa [Nat.add_assoc] using r 15 (by decide))
  unfold decodedRecord
  rw [w0, w1, w2, w3]

theorem mapUpdateLoop_records (host : ByteOrder) (ps : List Player)
    (hpat : ∀ i, (getP ps i).x < 4294967296 ∧ (getP ps i).y < 4294967296 ∧
      (getP ps i).z < 4294967296) :
    ∀ (is : List Nat) (index : Nat) (message : HeapArray Byte),
      (∀ i ∈ is, i < 4294967296) →
      (mapUpdateLoop host ps is index message).1
          = index + 16 * (is.filter (fun i =>
              decide ((getP ps i).sockfd ≠ 0) && (getP ps i).isAlive)).length ∧
        decodedRecords host (mapUpdateLoop host ps is index message).2 index
            (is.filter (fun i =>
              decide ((getP ps i).sockfd ≠ 0) && (getP ps i).isAlive)).length
          = (is.filter (fun i =>
              decide ((getP ps i).sockfd ≠ 0) && (getP ps i).isAlive)).map
              (fun i => some (sessionRecord ps i)) := by
  intro is
  induction is with
  | nil => intro index message _; exact ⟨rfl, rfl⟩
  | cons i rest ih =>
    intro index message hlt
    have hi := hlt i (List.mem_cons_self _ _)
    have hrest : ∀ j ∈ rest, j < 4294967296 := fun j hj => hlt j (List.mem_cons_of_mem _ hj)
    rw [mapUpdateLoop]
    by_cases hc : (getP ps i).sockfd ≠ 0 ∧ (getP ps i).isAlive = true
    · rw [if_pos hc]
      have hf : (decide ((getP ps i).sockfd ≠ 0) && (getP ps i).isAlive) = true := by
        simp [hc.1, hc.2]
      simp only [List.filter_cons, hf, if_true]
      obtain ⟨h1, h2⟩ := ih (index + 16) (writeBytes message index
        (fourBytes (htonl host i) ++ fourBytes (htonl host (getP ps i).x)
          ++ fourBytes (htonl host (getP ps i).y) ++ fourBytes (htonl host (getP ps i).z))) hrest
      obtain ⟨_, hread⟩ := mapUpdateLoop_spec host ps rest (index + 16) (writeBytes message index
        (fourBytes (htonl host i) ++ fourBytes (htonl host (getP ps i).x)
          ++ fourBytes (htonl host (getP ps i).y) ++ fourBytes (htonl host (getP ps i).z)))
      refine ⟨by rw [h1, List.length_cons]; omega, ?_⟩
      rw [List.length_cons, decodedRecords, h2, List.map_cons]
      congr 1
      rw [decodedRecord_of_reads host _ index i (getP ps i).x (getP ps i).y (getP ps i).z]
      · obtain ⟨hx, hy, hz⟩ := hpat i
        rw [Nat.mod_eq_of_lt hi, Nat.mod_eq_of_lt hx, Nat.mod_eq_of_lt hy, Nat.mod_eq_of_lt hz]
        rfl
      · intro t ht
        rw [hread (index + t) (by omega),
          read_writeBytes _ _ _ _ (Nat.le_add_right _ _) (by simp [fourBytes]; omega)]
        simp
    · rw [if_neg hc]
      have hf : ¬ (decide ((getP ps i).sockfd ≠ 0) && (getP ps i).isAlive) = true := by
        intro h
        simp only [Bool.and_eq_true, decide_eq_true_eq] at h
        exact hc h
      simp only [List.filter_cons, hf, if_false]
      exact ih index message hrest

theorem aliveCount_le_limit (ps : List Player) : aliveCount ps ≤ PLAYER_LIMIT := by
  unfold aliveCount
  exact (List.length_filter_le _ _).trans (by simp)

/-- C21: provided `numAlivePlayers` equals the number of connected alive sessions (and the stored
coordinates are 32-bit patterns, as `float`s are), `broadcastMapUpdate` builds a message whose
record area is filled exactly (the final `index` equals the message size `8 + 16 * N`), and
reading the records back from offset 8 (bytes assembled most significant first, then `ntohl`)
gives, in ascending order of slot index, one record per connected alive session holding that
session's slot index and the bit patterns of its `x`, `y` and `z`. -/
theorem mapUpdate_records_are_the_alive_sessions (host : ByteOrder) (s : GameServer)
    (hcount : s.numAlivePlayers = (aliveCount s.players : Int))
    (hpat : ∀ i, (getP s.players i).x < 4294967296 ∧ (getP s.players i).y < 4294967296 ∧
      (getP s.players i).z < 4294967296) :
    ∃ (index : Nat) (m : HeapArray Byte),
      mapUpdateMessage host s = some (index, m) ∧
      m.size = ((8 + 16 * aliveCount s.players : Nat) : Int) ∧
      index = 8 + 16 * aliveCount s.players ∧
      (aliveSessions s.players).length = aliveCount s.players ∧
      List.Sorted (fun a b => a < b) (aliveSessions s.players) ∧
      (∀ i, i ∈ aliveSessions s.players ↔
        i < PLAYER_LIMIT ∧ (getP s.players i).sockfd ≠ 0 ∧ (getP s.players i).isAlive = true) ∧
      decodedRecords host m 8 (aliveCount s.players)
        = (aliveSessions s.players).map (fun i => some (sessionRecord s.players i)) := by
  have hle := aliveCount_le_limit s.players
  have hw : wrapInt32 (8 + 16 * s.numAlivePlayers) = ((8 + 16 * aliveCount s.players : Nat) : Int) := by
    rw [hcount]
    unfold wrapInt32
    unfold PLAYER_LIMIT at hle
    omega
  have hlt : ∀ i ∈ List.range PLAYER_LIMIT, i < 4294967296 := by
    intro i hi
    have := List.mem_range.mp hi
    unfold PLAYER_LIMIT at this
    omega
  have hrec := fun message => mapUpdateLoop_records host s.players hpat (List.range PLAYER_LIMIT) 8
    message hlt
  have hspec := fun message => mapUpdateLoop_spec host s.players (List.range PLAYER_LIMIT) 8 message
  obtain ⟨header, hm, hsize⟩ : ∃ header : HeapArray Byte,
      mapUpdateMessage host s
        = some (mapUpdateLoop host s.players (List.range PLAYER_LIMIT) 8 header) ∧
      header.size = ((8 + 16 * aliveCount s.players : Nat) : Int) := by
    refine ⟨writeBytes (HeapArray.alloc (wrapInt32 (8 + 16 * s.numAlivePlayers))) 0
      (fourBytes (htonl host (toUInt32 (wrapInt32 (8 + 16 * s.numAlivePlayers))))
        ++ [VERSION_NUM, SERVER_MAP_UPDATE,
          GET_BYTE_1 (htons host (toUInt32 s.numAlivePlayers)),
          GET_BYTE_0 (htons host (toUInt32 s.numAlivePlayers))]), ?_, ?_⟩
    · unfold mapUpdateMessage
      simp only
      rw [if_neg (by rw [hw]; omega)]
    · rw [size_writeBytes]
      exact hw
  refine ⟨(mapUpdateLoop host s.players (List.range PLAYER_LIMIT) 8 header).1,
    (mapUpdateLoop host s.players (List.range PLAYER_LIMIT) 8 header).2, hm, ?_, ?_, rfl, ?_, ?_,
    ?_⟩
  · rw [(hspec header).1, hsize]
  · exact (hrec header).1
  · unfold aliveSessions
    exact List.Pairwise.sublist (List.filter_sublist _) (List.pairwise_lt_range _)
  · intro i
    unfold aliveSessions
    simp [List.mem_filter]
  · exact (hrec header).2

theorem getP_of_length_le (ps : List Player) (i : Nat) (h : ps.length ≤ i) :
    getP ps i = Player.zero := by
  unfold getP
  simp [List.getD_eq_getElem?_getD, List.getElem?_eq_none h]

theorem chainServer_patterns (i : Nat) :
    (getP chainServer.players i).x < 4294967296 ∧ (getP chainServer.players i).y < 4294967296 ∧
      (getP chainServer.players i).z < 4294967296 := by
  by_cases h : i < 20
  · interval_cases i <;> decide
  · rw [getP_of_length_le _ _ (by simp [chainServer]; omega)]
    decide

/-- C21 on `chainServer` (players 1 and 2 connected and alive, counter 2) on a little-endian
host: the message has two records, for slot 1 and then slot 2. -/
theorem mapUpdate_records_are_the_alive_sessions_witness :
    chainServer.numAlivePlayers = (aliveCount chainServer.players : Int) ∧
    ∃ (index : Nat) (m : HeapArray Byte),
      mapUpdateMessage ByteOrder.littleEndian chainServer = some (index, m) ∧
      index = 40 ∧
      decodedRecords ByteOrder.littleEndian m 8 2
        = [some (1, 0x3E4CCCCD, 0, 0), some (2, 0x3ECCCCCD, 0, 0)] := by
  refine ⟨by decide, ?_⟩
  obtain ⟨index, m, h1, _, h3, _, _, _, h7⟩ :=
    mapUpdate_records_are_the_alive_sessions ByteOrder.littleEndian chainServer (by decide)
      chainServer_patterns
  exact ⟨index, m, h1, h3.trans (by decide), h7.trans (by decide)⟩

/-! ## Targets of the new-spawn broadcast -/

theorem sendRetry_calls_ge (messageSize : Int) (results : Nat → Int) :
    ∀ (count : Nat) (bytes : Int) (calls : Nat),
      calls ≤ (sendRetry messageSize results count bytes calls).2 := by
  intro count
  induction count with
  | zero => intro bytes calls; simp [sendRetry]
  | succ n ih =>
    intro bytes calls
    rw [sendRetry]
    split
    · have := ih (results calls) (calls + 1)
      omega
    · simp

theorem sendToTarget_attempts (messageSize : Int) (writable : Bool) (results : Nat → Int)
    (hsize : messageSize ≠ -1) : 1 ≤ (sendToTarget messageSize writable results).2 := by
  unfold sendToTarget
  cases writable with
  | true => exact sendRetry_calls_ge messageSize results 3 (results 0) 1
  | false =>
    simp only [Bool.false_eq_true, if_false]
    rw [sendRetry, if_pos (fun h => hsize h.symm)]
    exact sendRetry_calls_ge messageSize results 2 (results 0) 1

theorem sendLoop_mem (messageSize : Int) (writable : Nat → Bool) (results : Nat → Nat → Int)
    (target : Nat → Bool) (i : Nat) :
    ∀ (is : List Nat) (numSent : Nat) (sends : List Nat),
      i ∈ (sendLoop messageSize writable results target is numSent sends).2 →
      i ∈ sends ∨ (i ∈ is ∧ target i = true) := by
  intro is
  induction is with
  | nil => intro numSent sends h; exact Or.inl h
  | cons a rest ih =>
    intro numSent sends h
    rw [sendLoop] at h
    split at h
    · rename_i ht
      rcases ih _ _ h with h1 | h1
      · rcases List.mem_append.mp h1 with h2 | h2
        · exact Or.inl h2
        · have := (List.mem_replicate.mp h2).2
          subst this
          exact Or.inr ⟨List.mem_cons_self _ _, ht⟩
      · exact Or.inr ⟨List.mem_cons_of_mem _ h1.1, h1.2⟩
    · rcases ih _ _ h with h1 | h1
      · exact Or.inl h1
      · exact Or.inr ⟨List.mem_cons_of_mem _ h1.1, h1.2⟩

theorem sendLoop_keeps (messageSize : Int) (writable : Nat → Bool) (results : Nat → Nat → Int)
    (target : Nat → Bool) (i : Nat) :
    ∀ (is : List Nat) (numSent : Nat) (sends : List Nat), i ∈ sends →
      i ∈ (sendLoop messageSize writable results target is numSent sends).2 := by
  intro is
  induction is with
  | nil => intro numSent sends h; exact h
  | cons a rest ih =>
    intro numSent sends h
    rw [sendLoop]
    split
    · exact ih _ _ (List.mem_append_left _ h)
    · exact ih _ _ h

theorem sendLoop_attempts (messageSize : Int) (writable : Nat → Bool)
    (results : Nat → Nat → Int) (target : Nat → Bool) (i : Nat) (hsize : messageSize ≠ -1)
    (ht : target i = true) :
    ∀ (is : List Nat) (numSent : Nat) (sends : List Nat), i ∈ is →
      i ∈ (sendLoop messageSize writable results target is numSent sends).2 := by
  intro is
  induction is with
  | nil => intro numSent sends h; simp at h
  | cons a rest ih =>
    intro numSent sends h
    rw [sendLoop]
    rcases List.mem_cons.mp h with h1 | h1
    · subst h1
      rw [if_pos ht]
      apply sendLoop_keeps
      apply List.mem_append_right
      rw [List.mem_replicate]
      have := sendToTarget_attempts messageSize (writable i) (results i) hsize
      exact ⟨by omega, rfl⟩
    · split
      · exact ih _ _ h1
      · exact ih _ _ h1

theorem sendLoop_numSent (messageSize : Int) (writable : Nat → Bool)
    (results : Nat → Nat → Int) (target : Nat → Bool) :
    ∀ (is : List Nat) (numSent : Nat) (sends : List Nat),
      (sendLoop messageSize writable results target is numSent sends).1
        ≤ numSent + (is.filter target).length := by
  intro is
  induction is with
  | nil => intro numSent sends; simp [sendLoop]
  | cons a rest ih =>
    intro numSent sends
    rw [sendLoop]
    by_cases ht : target a = true
    · rw [if_pos ht]
      simp only [List.filter_cons, ht, if_true, List.length_cons]
      refine (ih _ _).trans ?_
      split <;> omega
    · rw [if_neg ht]
      simp only [List.filter_cons, ht, if_false]
      exact ih _ _

/-- C22: `broadcastNewSpawn(p)` calls `send` only for slots below `PLAYER_LIMIT` that are
occupied and differ from `p` (so never for slot `p`, never for an empty slot, never on
descriptor 0, and never on the descriptor of `p` unless another occupied slot holds the same
descriptor); it calls `send` at least once for every occupied slot other than `p`, whatever
`writeSet` holds; and its return value is at most the number of occupied slots other than `p`,
hence 0, with no call of `send`, when `p` is the only connected session. -/
theorem broadcastNewSpawn_targets (writable : Nat → Bool) (results : Nat → Nat → Int)
    (p : Nat) (s : GameServer) :
    (∀ i ∈ (broadcastNewSpawn writable results p s).2,
      i < PLAYER_LIMIT ∧ (getP s.players i).sockfd ≠ 0 ∧ i ≠ p) ∧
    (broadcastNewSpawn writable results p s).2.count p = 0 ∧
    (∀ i, (getP s.players i).sockfd = 0 → (broadcastNewSpawn writable results p s).2.count i = 0) ∧
    (0 : Int) ∉ (broadcastNewSpawn writable results p s).2.map
      (fun i => (getP s.players i).sockfd) ∧
    ((∀ i, i < PLAYER_LIMIT → i ≠ p → (getP s.players i).sockfd ≠ (getP s.players p).sockfd) →
      (getP s.players p).sockfd ∉ (broadcastNewSpawn writable results p s).2.map
        (fun i => (getP s.players i).sockfd)) ∧
    (∀ i, i < PLAYER_LIMIT → i ≠ p → (getP s.players i).sockfd ≠ 0 →
      1 ≤ (broadcastNewSpawn writable results p s).2.count i) ∧
    (broadcastNewSpawn writable results p s).1 ≤ (otherOccupied s.players p).length ∧
    ((∀ i, i < PLAYER_LIMIT → i ≠ p → (getP s.players i).sockfd = 0) →
      (broadcastNewSpawn writable results p s).1 = 0 ∧
      (broadcastNewSpawn writable results p s).2 = []) := by
  have hmem : ∀ i ∈ (broadcastNewSpawn writable results p s).2,
      i < PLAYER_LIMIT ∧ (getP s.players i).sockfd ≠ 0 ∧ i ≠ p := by
    intro i hi
    unfold broadcastNewSpawn at hi
    rcases sendLoop_mem _ _ _ _ i _ _ _ hi with h | ⟨h1, h2⟩
    · simp at h
    · simp only [Bool.and_eq_true, decide_eq_true_eq] at h2
      exact ⟨List.mem_range.mp h1, h2.1, h2.2⟩
  have hnum : (broadcastNewSpawn writable results p s).1 ≤ (otherOccupied s.players p).length := by
    have := sendLoop_numSent 22 writable results
      (fun i => decide ((getP s.players i).sockfd ≠ 0) && decide (i ≠ p))
      (List.range PLAYER_LIMIT) 0 []
    simpa [broadcastNewSpawn, otherOccupied] using this
  refine ⟨hmem, ?_, ?_, ?_, ?_, ?_, hnum, ?_⟩
  · exact List.count_eq_zero.mpr (fun h => (hmem p h).2.2 rfl)
  · intro i hi
    exact List.count_eq_zero.mpr (fun h => (hmem i h).2.1 hi)
  · intro h
    obtain ⟨i, hi, h0⟩ := List.mem_map.mp h
    exact (hmem i hi).2.1 h0
  · intro hd h
    obtain ⟨i, hi, h0⟩ := List.mem_map.mp h
    exact hd i (hmem i hi).1 (hmem i hi).2.2 h0
  · intro i hi hp hc
    apply List.count_pos_iff.mpr
    unfold broadcastNewSpawn
    exact sendLoop_attempts 22 writable results _ i (by decide) (by simp [hc, hp]) _ _ _
      (List.mem_range.mpr hi)
  · intro hall
    have hnil : otherOccupied s.players p = [] := by
      unfold otherOccupied
      rw [List.filter_eq_nil_iff]
      intro i hi h
      simp only [Bool.and_eq_true, decide_eq_true_eq] at h
      exact h.1 (hall i (List.mem_range.mp hi) h.2)
    refine ⟨?_, ?_⟩
    · rw [hnil] at hnum
      simpa using hnum
    · apply List.eq_nil_iff_forall_not_mem.mpr
      intro i hi
      exact (hmem i hi).2.1 (hall i (hmem i hi).1 (hmem i hi).2.2)

/-- C22 on `gapServer` (slots 0 and 2 occupied) with nothing writable and every `send` failing,
and on `soloServer`, for the spawn of player 0. -/
theorem broadcastNewSpawn_targets_witness :
    (broadcastNewSpawn (fun _ => false) (fun _ _ => -1) 0 gapServer).2.count 0 = 0 ∧
    (broadcastNewSpawn (fun _ => false) (fun _ _ => -1) 0 gapServer).2.count 1 = 0 ∧
    (getP gapServer.players 0).sockfd ∉
      (broadcastNewSpawn (fun _ => false) (fun _ _ => -1) 0 gapServer).2.map
        (fun i => (getP gapServer.players i).sockfd) ∧
    1 ≤ (broadcastNewSpawn (fun _ => false) (fun _ _ => -1) 0 gapServer).2.count 2 ∧
    (broadcastNewSpawn (fun _ => false) (fun _ _ => -1) 0 gapServer).1
      ≤ (otherOccupied gapServer.players 0).length ∧
    (broadcastNewSpawn (fun _ => true) (fun _ _ => 22) 0 soloServer).1 = 0 :=
  ⟨(broadcastNewSpawn_targets (fun _ => false) (fun _ _ => -1) 0 gapServer).2.1,
    (broadcastNewSpawn_targets (fun _ => false) (fun _ _ => -1) 0 gapServer).2.2.1 1
      (by decide),
    (broadcastNewSpawn_targets (fun _ => false) (fun _ _ => -1) 0 gapServer).2.2.2.2.1
      (by decide),
    (broadcastNewSpawn_targets (fun _ => false) (fun _ _ => -1) 0 gapServer).2.2.2.2.2.1 2
      (by decide) (by decide) (by decide),
    (broadcastNewSpawn_targets (fun _ => false) (fun _ _ => -1) 0 gapServer).2.2.2.2.2.2.1,
    ((broadcastNewSpawn_targets (fun _ => true) (fun _ _ => 22) 0 soloServer).2.2.2.2.2.2.2
      (by decide)).1⟩

/-! ## A Move frame changes a position and nothing else -/

theorem not_frameRejected_iff (host : ByteOrder) (n : Nat) (buf : List Byte) :
    ¬ frameRejected host n buf ↔
      decodeNumBytes host buf ≤ n ∧ (byteAt buf 4).val = VERSION_NUM ∧
        (((byteAt buf 5).val = PLAYER_MOVE ∧ decodeNumBytes host buf = 18) ∨
         ((byteAt buf 5).val = PLAYER_SELF_ANNIHILATE ∧ decodeNumBytes host buf = 6) ∨
         ((byteAt buf 5).val = PLAYER_SPAWN ∧ decodeNumBytes host buf = 18)) := by
  have hne1 : PLAYER_SELF_ANNIHILATE ≠ PLAYER_MOVE := by decide
  have hne2 : PLAYER_SPAWN ≠ PLAYER_MOVE := by decide
  have hne3 : PLAYER_SPAWN ≠ PLAYER_SELF_ANNIHILATE := by decide
  unfold frameRejected fixedLength
  by_cases hm : (byteAt buf 5).val = PLAYER_MOVE
  · simp [hm, hne1.symm, hne2.symm]
  · by_cases ha : (byteAt buf 5).val = PLAYER_SELF_ANNIHILATE
    · simp [ha, hne1, hne3.symm]
    · by_cases hs : (byteAt buf 5).val = PLAYER_SPAWN
      · simp [hs, hne2, hne3]
      · simp [hm, ha, hs]

theorem moveFrame_accepted :
    ¬ frameRejected ByteOrder.bigEndian moveFrame.length
      (recvInto moveFrame (getP chainServer.players 1).recvBuffer) := by
  rw [not_frameRejected_iff]
  decide

/-- C23: a valid Player-Move frame received from session `p` is processed with return value 0 and
no call of a broadcast method (the only callers of `send` here); apart from the receive buffer of
`p`, which `recv` filled, it changes nothing but `p`'s `x`, `y` and `z`, which take the decoded
patterns: the table keeps its length, every other slot is unchanged, `p` keeps its descriptor,
send buffer, aliveness and score, and `numActiveSockets`, `numAlivePlayers` and `maxfd` are
unchanged. -/
theorem processPlayerMessage_move_changes_only_position (host : ByteOrder) (blast : BlastTest)
    (p : Nat) (data : List Byte) (s : GameServer) (hn : 0 < data.length)
    (hvalid : ¬ frameRejected host data.length (recvInto data (getP s.players p).recvBuffer))
    (hkind : (byteAt (recvInto data (getP s.players p).recvBuffer) 5).val = PLAYER_MOVE) :
    ∃ s1, processPlayerMessage host blast p (RecvResult.received data) s = some (0, s1, []) ∧
      s1.players.length = s.players.length ∧
      (∀ j, j ≠ p → getP s1.players j = getP s.players j) ∧
      (getP s1.players p).isAlive = (getP s.players p).isAlive ∧
      (getP s1.players p).score = (getP s.players p).score ∧
      (getP s1.players p).sockfd = (getP s.players p).sockfd ∧
      (getP s1.players p).sendBuffer = (getP s.players p).sendBuffer ∧
      s1.numAlivePlayers = s.numAlivePlayers ∧
      s1.numActiveSockets = s.numActiveSockets ∧
      s1.maxfd = s.maxfd ∧
      (p < s.players.length →
        (getP s1.players p).x
            = decodeCoord host (recvInto data (getP s.players p).recvBuffer) 6 ∧
        (getP s1.players p).y
            = decodeCoord host (recvInto data (getP s.players p).recvBuffer) 10 ∧
        (getP s1.players p).z
            = decodeCoord host (recvInto data (getP s.players p).recvBuffer) 14 ∧
        (getP s1.players p).recvBuffer = recvInto data (getP s.players p).recvBuffer) := by
  have hne2 : PLAYER_SPAWN ≠ PLAYER_MOVE := by decide
  have hne1 : PLAYER_SELF_ANNIHILATE ≠ PLAYER_MOVE := by decide
  rcases processPlayerMessage_shape host blast p data s hn with
    ⟨h, _⟩ | ⟨_, _, hrun⟩ | ⟨_, hk, _⟩ | ⟨_, hk, _⟩
  · exact absurd h hvalid
  · refine ⟨_, hrun, ?_, ?_, ?_, ?_, ?_, ?_, rfl, rfl, rfl, ?_⟩
    · simp [storeReceived, length_modP]
    · intro j hj
      simp only [storeReceived, getP_modP]
      rw [if_neg (fun h => hj h.1.symm), if_neg (fun h => hj h.1.symm)]
    · simp only [storeReceived, getP_modP]
      split_ifs <;> rfl
    · simp only [storeReceived, getP_modP]
      split_ifs <;> rfl
    · simp only [storeReceived, getP_modP]
      split_ifs <;> rfl
    · simp only [storeReceived, getP_modP]
      split_ifs <;> rfl
    · intro hp
      simp only [storeReceived, getP_modP, length_modP]
      rw [if_pos ⟨trivial, hp⟩]
      refine ⟨rfl, rfl, rfl, ?_⟩
      simp only [true_and, if_pos hp]
  · exact absurd (hk.symm.trans hkind) hne2
  · exact absurd (hk.symm.trans hkind) hne1

/-- C23 for the Move frame `00 00 00 12, 01, 01, ...` received from player 1 of `chainServer` on
a big-endian host: player 1 moves to the patterns of 0.2, 0.4 and 1.0 and stays alive. -/
theorem processPlayerMessage_move_changes_only_position_witness :
    ∃ s1, processPlayerMessage ByteOrder.bigEndian exactBlast 1 (RecvResult.received moveFrame)
        chainServer = some (0, s1, []) ∧
      (∀ j, j ≠ 1 → getP s1.players j = getP chainServer.players j) ∧
      (getP s1.players 1).isAlive = true ∧
      (getP s1.players 1).score = 0 ∧
      s1.numAlivePlayers = 2 ∧
      (getP s1.players 1).x = 0x3E4CCCCD ∧
      (getP s1.players 1).y = 0x3ECCCCCD ∧
      (getP s1.players 1).z = 0x3F800000 := by
  obtain ⟨s1, hrun, _, hothers, halive, hscore, _, _, hnum, _, _, hpos⟩ :=
    processPlayerMessage_move_changes_only_position ByteOrder.bigEndian exactBlast 1 moveFrame
      chainServer (by decide) moveFrame_accepted (by decide)
  obtain ⟨hx, hy, hz, _⟩ := hpos (by decide)
  exact ⟨s1, hrun, hothers, halive.trans (by decide), hscore.trans (by decide),
    hnum.trans (by decide), hx.trans (by decide), hy.trans (by decide), hz.trans (by decide)⟩

/-! ## Aliveness between join and Spawn -/

theorem isAlive_zero_of_length_le (ps : List Player) (i : Nat) (h : ps.length ≤ i) :
    (getP ps i).isAlive = false ∧ (getP ps i).score = 0 := by
  rw [getP_of_length_le ps i h]
  exact ⟨rfl, rfl⟩

theorem acceptNewPlayer_slots (past fd : Int) (s : GameServer) (id : Int) (s1 : GameServer)
    (h : acceptNewPlayer past fd s = some (id, s1)) :
    (∀ j : Nat, (j : Int) ≠ id → getP s1.players j = getP s.players j) ∧
    (0 ≤ id → (getP s1.players id.toNat).isAlive = false ∧
      (getP s1.players id.toNat).score = 0) := by
  by_cases hi : firstEmptySlot s.players < PLAYER_LIMIT
  · simp only [acceptNewPlayer, if_pos hi] at h
    split_ifs at h
    all_goals
      simp only [Option.some.injEq, Prod.mk.injEq] at h
      obtain ⟨h1, h2⟩ := h
      subst h1 h2
    · exact ⟨fun _ _ => rfl, fun h => absurd h (by decide)⟩
    · exact ⟨fun _ _ => rfl, fun h => absurd h (by decide)⟩
    all_goals
      refine ⟨?_, ?_⟩
      · intro j hj
        simp only [getP_modP]
        rw [if_neg (fun h => hj (congrArg Nat.cast h.1).symm)]
      · intro _
        simp only [Int.toNat_natCast, getP_modP]
        by_cases hlt : firstEmptySlot s.players < s.players.length
        · rw [if_pos ⟨trivial, hlt⟩]
          exact ⟨rfl, rfl⟩
        · rw [if_neg (fun h => hlt h.2)]
          exact isAlive_zero_of_length_le _ _ (not_lt.mp hlt)
  · simp only [acceptNewPlayer, if_neg hi] at h
    split_ifs at h
    all_goals
      simp only [Option.some.injEq, Prod.mk.injEq] at h
      obtain ⟨h1, h2⟩ := h
      subst h1 h2
      exact ⟨fun _ _ => rfl, fun h => absurd h (by decide)⟩

theorem acceptNewPlayer_alive (past fd : Int) (s : GameServer) (id : Int) (s1 : GameServer)
    (h : acceptNewPlayer past fd s = some (id, s1)) (j : Nat)
    (hj : (getP s1.players j).isAlive = true) :
    (getP s.players j).isAlive = true ∧ (getP s1.players j).sockfd = (getP s.players j).sockfd := by
  obtain ⟨h1, h2⟩ := acceptNewPlayer_slots past fd s id s1 h
  by_cases hid : (j : Int) = id
  · have h0 : 0 ≤ id := by rw [← hid]; exact Int.ofNat_nonneg j
    have hf := (h2 h0).1
    rw [← hid, Int.toNat_ofNat, hj] at hf
    exact absurd hf (by decide)
  · rw [h1 j hid] at hj ⊢
    exact ⟨hj, rfl⟩

theorem acceptRetry_alive (past : Int) (fds : Nat → Int) :
    ∀ (count k : Nat) (id : Int) (s : GameServer) (id1 : Int) (s1 : GameServer),
      acceptRetry past fds count k id s = some (id1, s1) → ∀ j,
      (getP s1.players j).isAlive = true →
      (getP s.players j).isAlive = true ∧
        (getP s1.players j).sockfd = (getP s.players j).sockfd := by
  intro count
  induction count with
  | zero =>
    intro k id s id1 s1 h j hj
    simp only [acceptRetry, Option.some.injEq, Prod.mk.injEq] at h
    obtain ⟨_, h2⟩ := h
    subst h2
    exact ⟨hj, rfl⟩
  | succ n ih =>
    intro k id s id1 s1 h j hj
    rw [acceptRetry] at h
    split at h
    · cases hacc : acceptNewPlayer past (fds k) s with
      | none => rw [hacc] at h; simp at h
      | some r =>
        obtain ⟨id2, s2⟩ := r
        rw [hacc] at h
        simp only at h
        obtain ⟨ha, hs⟩ := ih _ _ _ _ _ h j hj
        obtain ⟨hb, ht⟩ := acceptNewPlayer_alive past (fds k) s id2 s2 hacc j ha
        exact ⟨hb, hs.trans ht⟩
    · simp only [Option.some.injEq, Prod.mk.injEq] at h
      obtain ⟨_, h2⟩ := h
      subst h2
      exact ⟨hj, rfl⟩

theorem sendJoinResponse_alive (host : ByteOrder) (id : Nat) (bytes : Int) (s : GameServer)
    (j : Nat) :
    (getP (sendJoinResponse host id bytes s).2.players j).isAlive = (getP s.players j).isAlive ∧
    (getP (sendJoinResponse host id bytes s).2.players j).sockfd = (getP s.players j).sockfd := by
  unfold sendJoinResponse
  simp only
  split_ifs <;> simp only [getP_modP] <;> split_ifs <;> exact ⟨rfl, rfl⟩

theorem joinRetry_alive (host : ByteOrder) (id : Nat) (sent : Nat → Int) (j : Nat) :
    ∀ (count k : Nat) (res : Int) (s : GameServer),
      (getP (joinRetry host id sent count k res s).2.players j).isAlive
          = (getP s.players j).isAlive ∧
      (getP (joinRetry host id sent count k res s).2.players j).sockfd
          = (getP s.players j).sockfd := by
  intro count
  induction count with
  | zero => intro k res s; exact ⟨rfl, rfl⟩
  | succ n ih =>
    intro k res s
    rw [joinRetry]
    split
    · simp only
      obtain ⟨h1, h2⟩ := ih (k + 1) (sendJoinResponse host id (sent k) s).1
        (sendJoinResponse host id (sent k) s).2
      obtain ⟨h3, h4⟩ := sendJoinResponse_alive host id (sent k) s j
      exact ⟨h1.trans h3, h2.trans h4⟩
    · exact ⟨rfl, rfl⟩

theorem runAccept_alive (host : ByteOrder) (past : Int) (fds sent : Nat → Int)
    (s s1 : GameServer) (h : runAccept host past fds sent s = some s1) (j : Nat)
    (hj : (getP s1.players j).isAlive = true) :
    (getP s.players j).isAlive = true ∧ (getP s1.players j).sockfd = (getP s.players j).sockfd := by
  unfold runAccept at h
  cases hacc : acceptNewPlayer past (fds 0) s with
  | none => rw [hacc] at h; simp at h
  | some r0 =>
    obtain ⟨id0, s0⟩ := r0
    rw [hacc] at h
    simp only at h
    cases hret : acceptRetry past fds 3 1 id0 s0 with
    | none => rw [hret] at h; simp at h
    | some r1 =>
      obtain ⟨id, s2⟩ := r1
      rw [hret] at h
      simp only at h
      have key : (getP s2.players j).isAlive = true ∧
          (getP s1.players j).sockfd = (getP s2.players j).sockfd := by
        split at h
        · simp only [Option.some.injEq] at h
          subst h
          obtain ⟨h1, h2⟩ := joinRetry_alive host id.toNat sent j 3 1
            (sendJoinResponse host id.toNat (sent 0)
              { s2 with
                numAlivePlayers := wrapInt32 (s2.numAlivePlayers + 1)
                numActiveSockets := wrapInt32 (s2.numActiveSockets + 1) }).1
            (sendJoinResponse host id.toNat (sent 0)
              { s2 with
                numAlivePlayers := wrapInt32 (s2.numAlivePlayers + 1)
                numActiveSockets := wrapInt32 (s2.numActiveSockets + 1) }).2
          obtain ⟨h3, h4⟩ := sendJoinResponse_alive host id.toNat (sent 0)
            { s2 with
              numAlivePlayers := wrapInt32 (s2.numAlivePlayers + 1)
              numActiveSockets := wrapInt32 (s2.numActiveSockets + 1) } j
          rw [h1, h3] at hj
          exact ⟨hj, h2.trans h4⟩
        · simp only [Option.some.injEq] at h
          subst h
          exact ⟨hj, rfl⟩
      obtain ⟨ha, hs⟩ := acceptRetry_alive past fds 3 1 id0 s0 id s2 hret j key.1
      obtain ⟨hb, ht⟩ := acceptNewPlayer_alive past (fds 0) s id0 s0 hacc j ha
      exact ⟨hb, key.2.trans (hs.trans ht)⟩

theorem isAlive_storeReceived (p : Nat) (data : List Byte) (s : GameServer) (j : Nat) :
    (getP (storeReceived p data s).players j).isAlive = (getP s.players j).isAlive := by
  simp only [storeReceived, getP_modP]
  split_ifs <;> rfl

theorem processPlayerMessage_sets_alive (host : ByteOrder) (blast : BlastTest) (p : Nat)
    (r : RecvResult) (s : GameServer) (code : Int) (s1 : GameServer)
    (calls : List BroadcastCall)
    (h : processPlayerMessage host blast p r s = some (code, s1, calls)) (j : Nat)
    (hdead : (getP s.players j).isAlive = false) (hlive : (getP s1.players j).isAlive = true) :
    j = p ∧ code = 0 ∧ ∃ data, r = RecvResult.received data ∧ 0 < data.length ∧
      ¬ frameRejected host data.length (recvInto data (getP s.players p).recvBuffer) ∧
      (byteAt (recvInto data (getP s.players p).recvBuffer) 5).val = PLAYER_SPAWN := by
  have hcontra : ∀ {P : Prop}, (getP s1.players j).isAlive = (getP s.players j).isAlive → P := by
    intro P he
    rw [he, hdead] at hlive
    exact absurd hlive (by decide)
  cases r with
  | error =>
    simp only [processPlayerMessage, Option.some.injEq, Prod.mk.injEq] at h
    obtain ⟨_, h2, _⟩ := h
    subst h2
    exact hcontra rfl
  | received data =>
    by_cases hn : data.length = 0
    · simp only [processPlayerMessage, hn, if_true, Option.some.injEq, Prod.mk.injEq] at h
      obtain ⟨_, h2, _⟩ := h
      subst h2
      apply hcontra
      simp only [getP_modP]
      split_ifs <;> rfl
    · have hpos : 0 < data.length := Nat.pos_of_ne_zero hn
      rcases processPlayerMessage_shape host blast p data s hpos with
        ⟨_, hrun⟩ | ⟨_, _, hrun⟩ | ⟨hv, hk, hrun⟩ | ⟨_, _, k, s2, killed, post, hrun⟩
      · rw [hrun] at h
        simp only [Option.some.injEq, Prod.mk.injEq] at h
        obtain ⟨_, h2, _⟩ := h
        subst h2
        exact hcontra (isAlive_storeReceived p data s j)
      · rw [hrun] at h
        simp only [Option.some.injEq, Prod.mk.injEq] at h
        obtain ⟨_, h2, _⟩ := h
        subst h2
        apply hcontra
        rw [← isAlive_storeReceived p data s j]
        simp only [getP_modP]
        split_ifs <;> rfl
      · rw [hrun] at h
        simp only [Option.some.injEq, Prod.mk.injEq] at h
        obtain ⟨h1, h2, _⟩ := h
        subst h2
        by_cases hj : j = p
        · exact ⟨hj, h1.symm, data, rfl, hpos, hv, hk⟩
        · apply hcontra
          simp only [getP_modP]
          rw [if_neg (fun h => hj h.1.symm)]
          exact isAlive_storeReceived p data s j
      · rw [hrun] at h
        simp only [Option.some.injEq, Prod.mk.injEq] at h
        obtain ⟨_, h2, _⟩ := h
        subst h2
        have h3 : (getP s2.players j).isAlive = true := by
          rw [← hlive]
          simp only [getP_modP]
          split_ifs <;> rfl
        have h4 := post.mono j h3
        simp only [getP_modP] at h4
        split at h4
        · exact absurd h4 Bool.false_ne_true
        · rw [isAlive_storeReceived, hdead] at h4
          exact absurd h4 Bool.false_ne_true

theorem runWithoutSpawn_alive (host : ByteOrder) (blast : BlastTest) (i : Nat)
    (s t : GameServer) (hrun : RunWithoutSpawn host blast i s t)
    (hdead : (getP s.players i).isAlive = false) : (getP t.players i).isAlive = false := by
  induction hrun with
  | refl => exact hdead
  | accept t t1 past fds sent _ hstep ih =>
    cases hlive : (getP t1.players i).isAlive with
    | false => rfl
    | true =>
      have := (runAccept_alive host past fds sent t t1 hstep i hlive).1
      rw [ih] at this
      exact absurd this (by decide)
  | message t t1 p r code calls _ hstep hquiet ih =>
    cases hlive : (getP t1.players i).isAlive with
    | false => rfl
    | true =>
      obtain ⟨hip, _, data, hr, _, hv, hk⟩ :=
        processPlayerMessage_sets_alive host blast p r t code t1 calls hstep i ih hlive
      rcases hquiet data hip.symm hr with h | h
      · exact absurd h hv
      · exact absurd hk h

/-- C24: `acceptNewPlayer` changes no slot but the one it allocates, which it leaves with
`isAlive` false and `score` 0; the whole accept branch of `run` turns no `isAlive` flag to true
and does not touch the descriptor of a slot that is alive after it; a call of
`processPlayerMessage` for slot `p` turns the `isAlive` flag of a slot `j` from false to true only
if `j = p`, the call returned 0 and the read held a valid Player-Spawn frame; hence a session
that joined slot `i` in an accept branch is not alive after it, and stays not alive through every
run of the server in which no valid Player-Spawn frame from slot `i` is processed. -/
theorem isAlive_false_from_join_to_spawn (host : ByteOrder) (blast : BlastTest) :
    (∀ (past fd : Int) (s : GameServer) (id : Int) (s1 : GameServer),
      acceptNewPlayer past fd s = some (id, s1) →
      (∀ j : Nat, (j : Int) ≠ id → getP s1.players j = getP s.players j) ∧
      (0 ≤ id → (getP s1.players id.toNat).isAlive = false ∧
        (getP s1.players id.toNat).score = 0)) ∧
    (∀ (past : Int) (fds sent : Nat → Int) (s s1 : GameServer),
      runAccept host past fds sent s = some s1 → ∀ j,
      (getP s1.players j).isAlive = true →
      (getP s.players j).isAlive = true ∧
        (getP s1.players j).sockfd = (getP s.players j).sockfd) ∧
    (∀ (p : Nat) (r : RecvResult) (s : GameServer) (code : Int) (s1 : GameServer)
      (calls : List BroadcastCall) (j : Nat),
      processPlayerMessage host blast p r s = some (code, s1, calls) →
      (getP s.players j).isAlive = false → (getP s1.players j).isAlive = true →
      j = p ∧ code = 0 ∧ ∃ data, r = RecvResult.received data ∧ 0 < data.length ∧
        ¬ frameRejected host data.length (recvInto data (getP s.players p).recvBuffer) ∧
        (byteAt (recvInto data (getP s.players p).recvBuffer) 5).val = PLAYER_SPAWN) ∧
    (∀ (i : Nat) (past : Int) (fds sent : Nat → Int) (s s1 t : GameServer),
      runAccept host past fds sent s = some s1 →
      (getP s.players i).sockfd = 0 → (getP s1.players i).sockfd ≠ 0 →
      RunWithoutSpawn host blast i s1 t →
      (getP s1.players i).isAlive = false ∧ (getP t.players i).isAlive = false) := by
  refine ⟨acceptNewPlayer_slots, runAccept_alive host, ?_, ?_⟩
  · intro p r s code s1 calls j h
    exact processPlayerMessage_sets_alive host blast p r s code s1 calls h j
  · intro i past fds sent s s1 t hacc h0 h1 hrun
    have hdead : (getP s1.players i).isAlive = false := by
      cases hlive : (getP s1.players i).isAlive with
      | false => rfl
      | true =>
        have := (runAccept_alive host past fds sent s s1 hacc i hlive).2
        rw [h0] at this
        exact absurd this h1
    exact ⟨hdead, runWithoutSpawn_alive host blast i s1 t hrun hdead⟩

/-- C24 on a little-endian host: a client joins slot 0 of the fresh server and then sends a
valid Self-Annihilate frame; slot 0 is not alive after the join nor after the frame. -/
theorem isAlive_false_from_join_to_spawn_witness :
    ∃ s1 t, oneJoined = some s1 ∧ afterMessage 0 annihilateFrame s1 = some t ∧
      (getP freshServer.players 0).sockfd = 0 ∧ (getP s1.players 0).sockfd ≠ 0 ∧
      (getP s1.players 0).isAlive = false ∧ (getP t.players 0).isAlive = false := by
  have hsome : (oneJoined.bind (afterMessage 0 annihilateFrame)).isSome = true := by decide
  have hfd : oneJoined.map (fun s => (getP s.players 0).sockfd) = some 4 := by decide
  cases h1 : oneJoined with
  | none => rw [h1] at hsome; exact absurd hsome (by decide)
  | some s1 =>
    rw [h1] at hsome hfd
    simp only [Option.some_bind] at hsome
    simp only [Option.map_some', Option.some.injEq] at hfd
    cases h2 : afterMessage 0 annihilateFrame s1 with
    | none => rw [h2] at hsome; exact absurd hsome (by decide)
    | some t =>
      have hstep := h2
      unfold afterMessage at hstep
      split at hstep
      · obtain ⟨r, hr, ht⟩ := Option.map_eq_some'.mp hstep
        obtain ⟨code, t1, calls⟩ := r
        simp only at ht
        subst ht
        have hconn : (getP s1.players 0).sockfd ≠ 0 := by rw [hfd]; decide
        obtain ⟨ha, hb⟩ :=
          (isAlive_false_from_join_to_spawn ByteOrder.littleEndian exactBlast).2.2.2 0 0
            (fun _ => 4) (fun _ => 10) freshServer s1 t1 h1 (by decide) hconn
            (RunWithoutSpawn.message s1 s1 t1 0 (RecvResult.received annihilateFrame) code calls
              (RunWithoutSpawn.refl s1) hr
              (by
                intro data _ hd
                cases hd
                right
                rw [byteAt_recvInto _ _ 5 (by decide)]
                decide))
        exact ⟨s1, t1, rfl, h2, by decide, hconn, ha, hb⟩
      · exact absurd hstep (by simp)

/-! ## The received frame decides the outcome -/

theorem getP_map_forgetReceived (ps : List Player) (j : Nat) :
    (getP (ps.map Player.forgetReceived) j).forgetReceived = (getP ps j).forgetReceived := by
  unfold getP
  simp only [List.getD_eq_getElem?_getD, List.getElem?_map]
  cases ps[j]? with
  | none => rfl
  | some q => rfl

theorem sameGame_iff (s t : GameServer) :
    SameGame s t ↔
      s.players.length = t.players.length ∧
      (∀ j, (getP s.players j).forgetReceived = (getP t.players j).forgetReceived) ∧
      s.numActiveSockets = t.numActiveSockets ∧ s.numAlivePlayers = t.numAlivePlayers ∧
      s.maxfd = t.maxfd := by
  unfold SameGame forgetReceived
  constructor
  · intro h
    simp only [GameServer.mk.injEq] at h
    obtain ⟨hp, h1, h2, h3⟩ := h
    refine ⟨?_, ?_, h1, h2, h3⟩
    · have := congrArg List.length hp
      simpa using this
    · intro j
      rw [← getP_map_forgetReceived s.players j, ← getP_map_forgetReceived t.players j, hp]
  · rintro ⟨hlen, hslots, h1, h2, h3⟩
    have hp : s.players.map Player.forgetReceived = t.players.map Player.forgetReceived := by
      apply List.ext_getElem
      · simp [hlen]
      · intro j hj1 hj2
        simp only [List.length_map] at hj1 hj2
        have := hslots j
        unfold getP at this
        simp only [List.getD_eq_getElem?_getD, List.getElem?_eq_getElem hj1,
          List.getElem?_eq_getElem hj2, Option.getD_some] at this
        simpa using this
    rw [hp, h1, h2, h3]

theorem modP_forgetReceived (ps qs : List Player) (i : Nat) (f g : Player → Player)
    (hlen : ps.length = qs.length)
    (hslots : ∀ j, (getP ps j).forgetReceived = (getP qs j).forgetReceived)
    (hfg : ∀ q q1 : Player, q.forgetReceived = q1.forgetReceived →
      (f q).forgetReceived = (g q1).forgetReceived) :
    (modP ps i f).length = (modP qs i g).length ∧
    ∀ j, (getP (modP ps i f) j).forgetReceived = (getP (modP qs i g) j).forgetReceived := by
  refine ⟨by simp only [length_modP, hlen], ?_⟩
  intro j
  simp only [getP_modP, hlen]
  split
  · exact hfg _ _ (hslots j)
  · exact hslots j

theorem sameGame_fields (s t : GameServer) (h : SameGame s t) (j : Nat) :
    (getP s.players j).sockfd = (getP t.players j).sockfd ∧
    (getP s.players j).isAlive = (getP t.players j).isAlive ∧
    (getP s.players j).coords = (getP t.players j).coords ∧
    (getP s.players j).score = (getP t.players j).score ∧
    (getP s.players j).sendBuffer = (getP t.players j).sendBuffer := by
  have hj := ((sameGame_iff s t).mp h).2.1 j
  unfold Player.forgetReceived at hj
  simp only [Player.mk.injEq] at hj
  obtain ⟨h1, _, h2, h3, h4, h5, h6, h7⟩ := hj
  refine ⟨h1, h6, ?_, h7, h2⟩
  unfold Player.coords
  rw [h3, h4, h5]

theorem sameGame_kill (s t : GameServer) (h : SameGame s t) (i : Nat) :
    SameGame
      { s with
        players := modP s.players i (fun p => { p with isAlive := false })
        numAlivePlayers := wrapInt32 (s.numAlivePlayers - 1) }
      { t with
        players := modP t.players i (fun p => { p with isAlive := false })
        numAlivePlayers := wrapInt32 (t.numAlivePlayers - 1) } := by
  obtain ⟨hlen, hslots, h1, h2, h3⟩ := (sameGame_iff s t).mp h
  obtain ⟨hl, hs⟩ := modP_forgetReceived s.players t.players i
    (fun p => { p with isAlive := false }) (fun p => { p with isAlive := false }) hlen hslots
    (by
      intro q q1 hq
      unfold Player.forgetReceived at hq ⊢
      simp only [Player.mk.injEq] at hq ⊢
      obtain ⟨a1, a2, a3, a4, a5, a6, a7, a8⟩ := hq
      exact ⟨a1, a2, a3, a4, a5, a6, trivial, a8⟩)
  exact (sameGame_iff _ _).mpr ⟨hl, hs, h1, by simp only [h2], h3⟩

theorem explosionLoop_sameGame (blast : BlastTest)
    (recur recur1 : Nat → HeapArray Nat → Nat → GameServer → Option ExplosionResult)
    (playerID : Nat)
    (hrec : ∀ i kl idx s t, SameGame s t →
      (recur i kl idx s).map (fun r => (r.1, forgetReceived r.2.1, r.2.2))
        = (recur1 i kl idx t).map (fun r => (r.1, forgetReceived r.2.1, r.2.2))) :
    ∀ (is : List Nat) (numKills : Nat) (s t : GameServer) (kl : HeapArray Nat), SameGame s t →
      (explosionLoop blast recur playerID is numKills s kl).map
          (fun r => (r.1, forgetReceived r.2.1, r.2.2))
        = (explosionLoop blast recur1 playerID is numKills t kl).map
          (fun r => (r.1, forgetReceived r.2.1, r.2.2)) := by
  intro is
  induction is with
  | nil =>
    intro numKills s t kl h
    simp only [explosionLoop, Option.map_some']
    rw [show forgetReceived s = forgetReceived t from h]
  | cons i rest ih =>
    intro numKills s t kl h
    obtain ⟨f1, f2, f3, _, _⟩ := sameGame_fields s t h i
    obtain ⟨_, _, g3, _, _⟩ := sameGame_fields s t h playerID
    have hw : withinRadius blast s.players playerID i = withinRadius blast t.players playerID i := by
      unfold withinRadius
      rw [f3, g3]
    rw [explosionLoop, explosionLoop, f1, f2, hw]
    split
    · have hr := hrec i (kl.write numKills i) (numKills + 1 + 1) _ _ (sameGame_kill s t h i)
      simp only at hr ⊢
      cases hs : recur i (kl.write numKills i) (numKills + 1 + 1)
          { s with
            players := modP s.players i (fun p => { p with isAlive := false })
            numAlivePlayers := wrapInt32 (s.numAlivePlayers - 1) } with
      | none =>
        rw [hs] at hr
        cases ht : recur1 i (kl.write numKills i) (numKills + 1 + 1)
            { t with
              players := modP t.players i (fun p => { p with isAlive := false })
              numAlivePlayers := wrapInt32 (t.numAlivePlayers - 1) } with
        | none => rfl
        | some r1 => rw [ht] at hr; simp at hr
      | some r =>
        rw [hs] at hr
        cases ht : recur1 i (kl.write numKills i) (numKills + 1 + 1)
            { t with
              players := modP t.players i (fun p => { p with isAlive := false })
              numAlivePlayers := wrapInt32 (t.numAlivePlayers - 1) } with
        | none => rw [ht] at hr; simp at hr
        | some r1 =>
          rw [ht] at hr
          obtain ⟨k, s2, kl2⟩ := r
          obtain ⟨k1, t2, kl3⟩ := r1
          simp only [Option.map_some', Option.some.injEq, Prod.mk.injEq] at hr
          obtain ⟨hk, hst, hkl⟩ := hr
          subst hk hkl
          exact ih (numKills + 1 + k) s2 t2 kl2 hst
    · exact ih numKills s t kl h

theorem simRecursiveExplosion_sameGame (blast : BlastTest) :
    ∀ (fuel playerID : Nat) (kl : HeapArray Nat) (idx : Nat) (s t : GameServer), SameGame s t →
      (simRecursiveExplosion blast fuel playerID kl idx s).map
          (fun r => (r.1, forgetReceived r.2.1, r.2.2))
        = (simRecursiveExplosion blast fuel playerID kl idx t).map
          (fun r => (r.1, forgetReceived r.2.1, r.2.2)) := by
  intro fuel
  induction fuel with
  | zero => intro playerID kl idx s t _; rfl
  | succ n ih =>
    intro playerID kl idx s t h
    rw [simRecursiveExplosion, simRecursiveExplosion]
    exact explosionLoop_sameGame blast _ _ playerID (fun i kl idx s t h => ih i kl idx s t h)
      _ 0 s t kl h

theorem sameGame_update (s t : GameServer) (h : SameGame s t) (i : Nat)
    (f g : Player → Player)
    (hfg : ∀ q q1 : Player, q.forgetReceived = q1.forgetReceived →
      (f q).forgetReceived = (g q1).forgetReceived) :
    SameGame { s with players := modP s.players i f } { t with players := modP t.players i g } := by
  obtain ⟨hlen, hslots, h1, h2, h3⟩ := (sameGame_iff s t).mp h
  obtain ⟨hl, hs⟩ := modP_forgetReceived s.players t.players i f g hlen hslots hfg
  exact (sameGame_iff _ _).mpr ⟨hl, hs, h1, h2, h3⟩

theorem sameGame_storeReceived (s t : GameServer) (h : SameGame s t) (p : Nat)
    (data data1 : List Byte) :
    SameGame (storeReceived p data s) (storeReceived p data1 t) := by
  unfold storeReceived
  apply sameGame_update s t h
  intro q q1 hq
  unfold Player.forgetReceived at hq ⊢
  simp only [Player.mk.injEq] at hq ⊢
  obtain ⟨a1, a2, a3, a4, a5, a6, a7, a8⟩ := hq
  exact ⟨a1, trivial, a3, a4, a5, a6, a7, a8⟩

theorem processPlayerMessage_rejected (host : ByteOrder) (blast : BlastTest) (p : Nat)
    (data : List Byte) (s : GameServer) (hn : 0 < data.length)
    (hrej : frameRejected host data.length (recvInto data (getP s.players p).recvBuffer)) :
    processPlayerMessage host blast p (RecvResult.received data) s
      = some (-1, storeReceived p data s, []) := by
  rcases processPlayerMessage_shape host blast p data s hn with
    ⟨_, hrun⟩ | ⟨hv, _⟩ | ⟨hv, _⟩ | ⟨hv, _⟩
  · exact hrun
  · exact absurd hrej hv
  · exact absurd hrej hv
  · exact absurd hrej hv

theorem processPlayerMessage_move (host : ByteOrder) (blast : BlastTest) (p : Nat)
    (data : List Byte) (s : GameServer) (hn : 0 < data.length)
    (hvalid : ¬ frameRejected host data.length (recvInto data (getP s.players p).recvBuffer))
    (hkind : (byteAt (recvInto data (getP s.players p).recvBuffer) 5).val = PLAYER_MOVE) :
    processPlayerMessage host blast p (RecvResult.received data) s
      = some (0,
          { storeReceived p data s with
            players := modP (storeReceived p data s).players p (fun q =>
              { q with
                x := decodeCoord host (recvInto data (getP s.players p).recvBuffer) 6,
                y := decodeCoord host (recvInto data (getP s.players p).recvBuffer) 10,
                z := decodeCoord host (recvInto data (getP s.players p).recvBuffer) 14 }) },
          []) := by
  have hne2 : PLAYER_SPAWN ≠ PLAYER_MOVE := by decide
  have hne1 : PLAYER_SELF_ANNIHILATE ≠ PLAYER_MOVE := by decide
  rcases processPlayerMessage_shape host blast p data s hn with
    ⟨h, _⟩ | ⟨_, _, hrun⟩ | ⟨_, hk, _⟩ | ⟨_, hk, _⟩
  · exact absurd h hvalid
  · exact hrun
  · exact absurd (hk.symm.trans hkind) hne2
  · exact absurd (hk.symm.trans hkind) hne1

theorem processPlayerMessage_spawn (host : ByteOrder) (blast : BlastTest) (p : Nat)
    (data : List Byte) (s : GameServer) (hn : 0 < data.length)
    (hvalid : ¬ frameRejected host data.length (recvInto data (getP s.players p).recvBuffer))
    (hkind : (byteAt (recvInto data (getP s.players p).recvBuffer) 5).val = PLAYER_SPAWN) :
    processPlayerMessage host blast p (RecvResult.received data) s
      = some (0,
          { storeReceived p data s with
            players := modP (storeReceived p data s).players p (fun q =>
              { q with
                x := decodeCoord host (recvInto data (getP s.players p).recvBuffer) 6,
                y := decodeCoord host (recvInto data (getP s.players p).recvBuffer) 10,
                z := decodeCoord host (recvInto data (getP s.players p).recvBuffer) 14,
                isAlive := true }) },
          [BroadcastCall.newSpawn p]) := by
  have hne2 : PLAYER_MOVE ≠ PLAYER_SPAWN := by decide
  have hne3 : PLAYER_SELF_ANNIHILATE ≠ PLAYER_SPAWN := by decide
  rcases processPlayerMessage_shape host blast p data s hn with
    ⟨h, _⟩ | ⟨_, hk, _⟩ | ⟨_, _, hrun⟩ | ⟨_, hk, _⟩
  · exact absurd h hvalid
  · exact absurd (hk.symm.trans hkind) hne2
  · exact hrun
  · exact absurd (hk.symm.trans hkind) hne3

theorem processPlayerMessage_annihilate (host : ByteOrder) (blast : BlastTest) (p : Nat)
    (data : List Byte) (s : GameServer) (hn : 0 < data.length)
    (hvalid : ¬ frameRejected host data.length (recvInto data (getP s.players p).recvBuffer))
    (hkind : (byteAt (recvInto data (getP s.players p).recvBuffer) 5).val
      = PLAYER_SELF_ANNIHILATE) :
    ∃ k s2 killed,
      simRecursiveExplosion blast (PLAYER_LIMIT + 1) p
          (HeapArray.alloc ((PLAYER_LIMIT : Int) - 1)) 0
          { storeReceived p data s with
            players := modP (storeReceived p data s).players p
              (fun q => { q with isAlive := false })
            numAlivePlayers := wrapInt32 ((storeReceived p data s).numAlivePlayers - 1) }
        = some (k, s2, killed) ∧
      processPlayerMessage host blast p (RecvResult.received data) s
        = some (0,
            { s2 with
              players := modP s2.players p (fun q =>
                { q with score := wrapInt32 (q.score + k) }) },
            [BroadcastCall.selfDestruct p k killed]) := by
  have hne1 : PLAYER_SELF_ANNIHILATE ≠ PLAYER_MOVE := by decide
  obtain ⟨hF, hver, hcases⟩ := (not_frameRejected_iff _ _ _).mp hvalid
  have h6 : decodeNumBytes host (recvInto data (getP s.players p).recvBuffer) = 6 := by
    rcases hcases with ⟨hk, _⟩ | ⟨_, h⟩ | ⟨hk, _⟩
    · exact absurd (hkind.symm.trans hk) hne1
    · exact h
    · exact absurd (hk.symm.trans hkind) (by decide)
  obtain ⟨k, s2, killed2, hrun, _⟩ := simRecursiveExplosion_post blast (PLAYER_LIMIT + 1)
    p (HeapArray.alloc ((PLAYER_LIMIT : Int) - 1)) 0
    { storeReceived p data s with
      players := modP (storeReceived p data s).players p
        (fun q => { q with isAlive := false })
      numAlivePlayers := wrapInt32 ((storeReceived p data s).numAlivePlayers - 1) }
    (Nat.lt_succ_of_le (liveFlags_le _))
  refine ⟨k, s2, killed2, hrun, ?_⟩
  have hn0 : ¬ data.length = 0 := by omega
  unfold storeReceived at hrun
  unfold processPlayerMessage
  simp only [hn0, if_false]
  rw [if_neg (not_lt.mpr hF), if_neg (not_not.mpr hver), if_neg (hkind ▸ hne1), if_pos hkind,
    if_neg (not_not.mpr h6)]
  simp only [hrun]

theorem frame_agree (host : ByteOrder) (n : Nat) (buf buf1 : List Byte)
    (hvalid : ¬ frameRejected host n buf)
    (hagree : ∀ i, i < n → i < decodeNumBytes host buf → byteAt buf i = byteAt buf1 i) :
    decodeNumBytes host buf1 = decodeNumBytes host buf ∧ byteAt buf1 5 = byteAt buf 5 ∧
      ¬ frameRejected host n buf1 ∧
      (decodeNumBytes host buf = 18 →
        decodeCoord host buf1 6 = decodeCoord host buf 6 ∧
        decodeCoord host buf1 10 = decodeCoord host buf 10 ∧
        decodeCoord host buf1 14 = decodeCoord host buf 14) := by
  obtain ⟨hF, hver, hcases⟩ := (not_frameRejected_iff _ _ _).mp hvalid
  have h6 : 6 ≤ decodeNumBytes host buf := by
    rcases hcases with ⟨_, h⟩ | ⟨_, h⟩ | ⟨_, h⟩ <;> omega
  have hb : ∀ i, i < decodeNumBytes host buf → byteAt buf1 i = byteAt buf i :=
    fun i hi => (hagree i (by omega) hi).symm
  have hlenEq : decodeNumBytes host buf1 = decodeNumBytes host buf := by
    unfold decodeNumBytes
    rw [hb 0 (by omega), hb 1 (by omega), hb 2 (by omega), hb 3 (by omega)]
  have h5 := hb 5 (by omega)
  have h4 := hb 4 (by omega)
  refine ⟨hlenEq, h5, ?_, ?_⟩
  · rw [not_frameRejected_iff, hlenEq, h4, h5]
    exact ⟨hF, hver, hcases⟩
  · intro h18
    unfold decodeCoord
    rw [hb 6 (by omega), hb 7 (by omega), hb 8 (by omega), hb 9 (by omega), hb 10 (by omega),
      hb 11 (by omega), hb 12 (by omega), hb 13 (by omega), hb 14 (by omega),
      hb 15 (by omega), hb 16 (by omega), hb 17 (by omega)]
    exact ⟨rfl, rfl, rfl⟩

theorem processPlayerMessage_short_read (host : ByteOrder) (blast : BlastTest) (p : Nat)
    (data : List Byte) (s : GameServer) (hn : 0 < data.length) (hshort : data.length ≤ 5) :
    processPlayerMessage host blast p (RecvResult.received data) s
      = some (-1, storeReceived p data s, []) := by
  apply processPlayerMessage_rejected host blast p data s hn
  by_contra hvalid
  obtain ⟨hF, _, hcases⟩ := (not_frameRejected_iff _ _ _).mp hvalid
  rcases hcases with ⟨_, h⟩ | ⟨_, h⟩ | ⟨_, h⟩ <;> omega

theorem processPlayerMessage_sameGame (host : ByteOrder) (blast : BlastTest) (p : Nat)
    (data data1 : List Byte) (s t : GameServer) (hsame : SameGame s t)
    (hlen : data1.length = data.length)
    (hagree : ∀ i, i < data.length →
      (i < decodeNumBytes host (recvInto data (getP s.players p).recvBuffer) ∨
        i < decodeNumBytes host (recvInto data1 (getP t.players p).recvBuffer)) →
      byteAt data i = byteAt data1 i) :
    ∃ (code : Int) (s1 t1 : GameServer) (calls : List BroadcastCall),
      processPlayerMessage host blast p (RecvResult.received data) s = some (code, s1, calls) ∧
      processPlayerMessage host blast p (RecvResult.received data1) t = some (code, t1, calls) ∧
      SameGame s1 t1 := by
  by_cases hn0 : data.length = 0
  · have hn1 : data1.length = 0 := hlen.trans hn0
    refine ⟨0, storeReceived p data s, storeReceived p data1 t, [], ?_, ?_,
      sameGame_storeReceived s t hsame p data data1⟩
    · simp only [processPlayerMessage, hn0, if_true, storeReceived]
    · simp only [processPlayerMessage, hn1, if_true, storeReceived]
  have hn : 0 < data.length := Nat.pos_of_ne_zero hn0
  have hn1 : 0 < data1.length := by omega
  have hbuf : ∀ i, i < data.length →
      (i < decodeNumBytes host (recvInto data (getP s.players p).recvBuffer) ∨
        i < decodeNumBytes host (recvInto data1 (getP t.players p).recvBuffer)) →
      byteAt (recvInto data (getP s.players p).recvBuffer) i
        = byteAt (recvInto data1 (getP t.players p).recvBuffer) i := by
    intro i hi hor
    rw [byteAt_recvInto _ _ i hi, byteAt_recvInto _ _ i (by omega)]
    exact hagree i hi hor
  by_cases hrej : frameRejected host data.length
      (recvInto data (getP s.players p).recvBuffer)
  · have hrej1 : frameRejected host data1.length
        (recvInto data1 (getP t.players p).recvBuffer) := by
      by_contra hvalid1
      rw [hlen] at hvalid1
      have := (frame_agree host data.length _ (recvInto data (getP s.players p).recvBuffer)
        hvalid1 (fun i hi hF => (hbuf i hi (Or.inr hF)).symm)).2.2.1
      exact this hrej
    exact ⟨-1, _, _, [], processPlayerMessage_rejected host blast p data s hn hrej,
      processPlayerMessage_rejected host blast p data1 t hn1 hrej1,
      sameGame_storeReceived s t hsame p data data1⟩
  · obtain ⟨hF, h5, hvalid1, hcoords⟩ := frame_agree host data.length _
      (recvInto data1 (getP t.players p).recvBuffer) hrej
      (fun i hi hF => hbuf i hi (Or.inl hF))
    rw [← hlen] at hvalid1
    obtain ⟨_, _, hcases⟩ := (not_frameRejected_iff _ _ _).mp hrej
    have hstore := sameGame_storeReceived s t hsame p data data1
    rcases hcases with ⟨hk, h18⟩ | ⟨hk, _⟩ | ⟨hk, h18⟩
    · obtain ⟨c1, c2, c3⟩ := hcoords h18
      refine ⟨0, _, _, [], processPlayerMessage_move host blast p data s hn hrej hk,
        processPlayerMessage_move host blast p data1 t hn1 hvalid1 (by rw [h5]; exact hk), ?_⟩
      rw [c1, c2, c3]
      apply sameGame_update _ _ hstore
      intro q q1 hq
      unfold Player.forgetReceived at hq ⊢
      simp only [Player.mk.injEq] at hq ⊢
      obtain ⟨a1, a2, a3, a4, a5, a6, a7, a8⟩ := hq
      exact ⟨a1, trivial, a3, trivial, trivial, trivial, a7, a8⟩
    · obtain ⟨k, s2, killed, hex, hrun⟩ :=
        processPlayerMessage_annihilate host blast p data s hn hrej hk
      obtain ⟨k1, t2, killed1, hex1, hrun1⟩ :=
        processPlayerMessage_annihilate host blast p data1 t hn1 hvalid1 (by rw [h5]; exact hk)
      have hsim := simRecursiveExplosion_sameGame blast (PLAYER_LIMIT + 1) p
        (HeapArray.alloc ((PLAYER_LIMIT : Int) - 1)) 0 _ _
        (sameGame_kill _ _ hstore p)
      rw [hex, hex1] at hsim
      simp only [Option.map_some', Option.some.injEq, Prod.mk.injEq] at hsim
      obtain ⟨hk1, hst, hkl⟩ := hsim
      subst hk1 hkl
      refine ⟨0, _, _, _, hrun, hrun1, ?_⟩
      apply sameGame_update _ _ hst
      intro q q1 hq
      unfold Player.forgetReceived at hq ⊢
      simp only [Player.mk.injEq] at hq ⊢
      obtain ⟨a1, a2, a3, a4, a5, a6, a7, a8⟩ := hq
      exact ⟨a1, trivial, a3, a4, a5, a6, a7, by rw [a8]⟩
    · obtain ⟨c1, c2, c3⟩ := hcoords h18
      refine ⟨0, _, _, _, processPlayerMessage_spawn host blast p data s hn hrej hk,
        processPlayerMessage_spawn host blast p data1 t hn1 hvalid1 (by rw [h5]; exact hk), ?_⟩
      rw [c1, c2, c3]
      apply sameGame_update _ _ hstore
      intro q q1 hq
      unfold Player.forgetReceived at hq ⊢
      simp only [Player.mk.injEq] at hq ⊢
      obtain ⟨a1, a2, a3, a4, a5, a6, a7, a8⟩ := hq
      exact ⟨a1, trivial, a3, trivial, trivial, trivial, trivial, a8⟩

/-- C25: take two calls of `processPlayerMessage` for slot `p` in which `recv` delivers the same
number `n` of bytes, the server states differ at most in the contents of receive buffers (so the
stale bytes beyond the `n` received ones are arbitrary in both), and the received bytes agree at
every position that lies below the length field decoded in one of the two calls (they may differ
at positions beyond the decoded frame length). Then both calls return, with the same return
value and the same broadcast calls, and the states they leave again differ at most in receive
buffers: every slot has the same `x`, `y`, `z`, `isAlive` and `score`, and `numAlivePlayers` is
the same. A read of 1 to 5 bytes returns -1. -/
theorem processPlayerMessage_depends_only_on_received_frame (host : ByteOrder)
    (blast : BlastTest) (p : Nat) (data data1 : List Byte) (s t : GameServer)
    (hsame : SameGame s t) (hlen : data1.length = data.length)
    (hagree : ∀ i, i < data.length →
      (i < decodeNumBytes host (recvInto data (getP s.players p).recvBuffer) ∨
        i < decodeNumBytes host (recvInto data1 (getP t.players p).recvBuffer)) →
      byteAt data i = byteAt data1 i) :
    ∃ (code : Int) (s1 t1 : GameServer) (calls : List BroadcastCall),
      processPlayerMessage host blast p (RecvResult.received data) s = some (code, s1, calls) ∧
      processPlayerMessage host blast p (RecvResult.received data1) t = some (code, t1, calls) ∧
      SameGame s1 t1 ∧
      (∀ j, (getP s1.players j).x = (getP t1.players j).x ∧
        (getP s1.players j).y = (getP t1.players j).y ∧
        (getP s1.players j).z = (getP t1.players j).z ∧
        (getP s1.players j).isAlive = (getP t1.players j).isAlive ∧
        (getP s1.players j).score = (getP t1.players j).score) ∧
      s1.numAlivePlayers = t1.numAlivePlayers ∧
      (0 < data.length → data.length ≤ 5 → code = -1) := by
  obtain ⟨code, s1, t1, calls, hrun, hrun1, hres⟩ :=
    processPlayerMessage_sameGame host blast p data data1 s t hsame hlen hagree
  refine ⟨code, s1, t1, calls, hrun, hrun1, hres, ?_, ((sameGame_iff s1 t1).mp hres).2.2.2.1, ?_⟩
  · intro j
    obtain ⟨_, h2, h3, h4, _⟩ := sameGame_fields s1 t1 hres j
    exact ⟨congrArg Coords.x h3, congrArg Coords.y h3, congrArg Coords.z h3, h2, h4⟩
  · intro hn hshort
    have h := processPlayerMessage_short_read host blast p data s hn hshort
    rw [h] at hrun
    simp only [Option.some.injEq, Prod.mk.injEq] at hrun
    exact hrun.1.symm

/-- C25 on a little-endian host for player 1 of `chainServer`: two reads of eight bytes that
hold the same Self-Annihilate frame followed by different bytes, into receive buffers with
different stale contents, both return 0 and leave the same game; and a read of the three bytes
`06 00 00` returns -1. -/
theorem processPlayerMessage_depends_only_on_received_frame_witness :
    chainServer ≠ chainServerStale ∧ annihilateThenMore ≠ annihilateThenOther ∧
    (∃ (s1 t1 : GameServer) (calls : List BroadcastCall),
      processPlayerMessage ByteOrder.littleEndian exactBlast 1
        (RecvResult.received annihilateThenMore) chainServer = some (0, s1, calls) ∧
      processPlayerMessage ByteOrder.littleEndian exactBlast 1
        (RecvResult.received annihilateThenOther) chainServerStale = some (0, t1, calls) ∧
      SameGame s1 t1 ∧ s1.numAlivePlayers = t1.numAlivePlayers) ∧
    (∃ (s1 : GameServer) (calls : List BroadcastCall),
      processPlayerMessage ByteOrder.littleEndian exactBlast 1
        (RecvResult.received [0x06, 0x00, 0x00]) chainServer = some (-1, s1, calls)) := by
  refine ⟨by decide, by decide, ?_, ?_⟩
  · obtain ⟨code, s1, t1, calls, hrun, hrun1, hres, _, hnum, _⟩ :=
      processPlayerMessage_depends_only_on_received_frame ByteOrder.littleEndian exactBlast 1
        annihilateThenMore annihilateThenOther chainServer chainServerStale (by decide)
        (by decide) (by decide)
    have hcode : (processPlayerMessage ByteOrder.littleEndian exactBlast 1
        (RecvResult.received annihilateThenMore) chainServer).map (fun r => r.1) = some 0 := by
      decide
    rw [hrun] at hcode
    simp only [Option.map_some', Option.some.injEq] at hcode
    subst hcode
    exact ⟨s1, t1, calls, hrun, hrun1, hres, hnum⟩
  · obtain ⟨code, s1, _, calls, hrun, _, _, _, _, hshort⟩ :=
      processPlayerMessage_depends_only_on_received_frame ByteOrder.littleEndian exactBlast 1
        [0x06, 0x00, 0x00] [0x06, 0x00, 0x00] chainServer chainServer rfl rfl
        (fun _ _ _ => rfl)
    have hcode := hshort (by decide) (by decide)
    subst hcode
    exact ⟨s1, calls, hrun⟩

/-! ## Length fields of the messages the server sends -/

theorem processPlayerMessage_selfDestruct_kills (host : ByteOrder) (blast : BlastTest)
    (p : Nat) (r : RecvResult) (s : GameServer) (code : Int) (s1 : GameServer)
    (calls : List BroadcastCall) (d k : Nat) (killed : HeapArray Nat)
    (h : processPlayerMessage host blast p r s = some (code, s1, calls))
    (hmem : BroadcastCall.selfDestruct d k killed ∈ calls) : k ≤ PLAYER_LIMIT := by
  cases r with
  | error =>
    simp only [processPlayerMessage, Option.some.injEq, Prod.mk.injEq] at h
    obtain ⟨_, _, h3⟩ := h
    subst h3
    simp at hmem
  | received data =>
    by_cases hn : data.length = 0
    · simp only [processPlayerMessage, hn, if_true, Option.some.injEq, Prod.mk.injEq] at h
      obtain ⟨_, _, h3⟩ := h
      subst h3
      simp at hmem
    · rcases processPlayerMessage_shape host blast p data s (Nat.pos_of_ne_zero hn) with
        ⟨_, hrun⟩ | ⟨_, _, hrun⟩ | ⟨_, _, hrun⟩ | ⟨_, _, k1, s2, killed1, post, hrun⟩
      · rw [hrun] at h
        simp only [Option.some.injEq, Prod.mk.injEq] at h
        obtain ⟨_, _, h3⟩ := h
        subst h3
        simp at hmem
      · rw [hrun] at h
        simp only [Option.some.injEq, Prod.mk.injEq] at h
        obtain ⟨_, _, h3⟩ := h
        subst h3
        simp at hmem
      · rw [hrun] at h
        simp only [Option.some.injEq, Prod.mk.injEq] at h
        obtain ⟨_, _, h3⟩ := h
        subst h3
        simp at hmem
      · rw [hrun] at h
        simp only [Option.some.injEq, Prod.mk.injEq] at h
        obtain ⟨_, _, h3⟩ := h
        subst h3
        simp only [List.mem_singleton, BroadcastCall.selfDestruct.injEq] at hmem
        obtain ⟨_, hk, _⟩ := hmem
        subst hk
        have h1 := post.flags
        have h2 := liveFlags_le
          (modP (storeReceived p data s).players p (fun q => { q with isAlive := false }))
        simp only at h1
        omega

theorem selfDestructMessage_length (host : ByteOrder) (playerID K : Nat)
    (killedPlayers : HeapArray Nat) (stale : Nat → Nat) (hK : 12 + 4 * K < 2147483648) :
    ∃ m, selfDestructMessage host playerID K killedPlayers stale = some m ∧
      m.size = 12 + 4 * K ∧ decodedLength host m = some (12 + 4 * K) := by
  have hsz : wrapInt32 (12 + (K : Int) * 4) = ((12 + 4 * K : Nat) : Int) := by
    unfold wrapInt32; omega
  obtain ⟨hsize, hread⟩ := selfDestructLoop_spec host killedPlayers stale (List.range K) 12
    (writeBytes (HeapArray.alloc ((12 + 4 * K : Nat) : Int)) 0
      (fourBytes (htonl host (12 + 4 * K)) ++ ([VERSION_NUM, ANNIHILATION_RESULTS]
        ++ (fourBytes (htonl host playerID)
        ++ [GET_BYTE_1 (htons host (toUInt32 K)), GET_BYTE_0 (htons host (toUInt32 K))]))))
  refine ⟨selfDestructLoop host killedPlayers stale (List.range K) 12
    (writeBytes (HeapArray.alloc ((12 + 4 * K : Nat) : Int)) 0
      (fourBytes (htonl host (12 + 4 * K)) ++ ([VERSION_NUM, ANNIHILATION_RESULTS]
        ++ (fourBytes (htonl host playerID)
        ++ [GET_BYTE_1 (htons host (toUInt32 K)), GET_BYTE_0 (htons host (toUInt32 K))])))),
    ?_, ?_, ?_⟩
  · unfold selfDestructMessage
    simp only [hsz, List.append_assoc]
    rw [if_neg (by omega), toUInt32_natCast _ (by omega)]
  · rw [hsize, size_writeBytes]
    simp [HeapArray.alloc]
  · rw [decodedLength_congr host _ _ (fun j hj => hread j (by omega))]
    exact decodedLength_header host _ _ (by omega) _

/-- C8: on either host byte order, the first four bytes of every message the server builds,
read back the way `processPlayerMessage` reads a length (bytes assembled most significant first,
then `ntohl`), give the number of bytes handed to `send`: 10 for the join response, 22 for
Player-Spawn-With-ID, `12 + 4 * K` for Annihilation-Results with `K` kills, whatever the cells
of `killedPlayers` hold and whether or not they were ever written, and in particular for every
`broadcastSelfDestruct` call that `processPlayerMessage` makes; `8 + 16 * N` for
Server-Map-Update with `numAlivePlayers = N` (sizes that fit an `int`). -/
theorem constructed_messages_length_field_reads_back (host : ByteOrder) :
    (∀ (playerID : Nat) (sendBuffer : List Byte), 10 ≤ sendBuffer.length →
      decodeNumBytes host (loadJoinResponse host playerID sendBuffer) = 10) ∧
    (∀ (playerID : Nat) (s : GameServer),
      (newSpawnMessage host playerID s).size = 22 ∧
      decodedLength host (newSpawnMessage host playerID s) = some 22) ∧
    (∀ (playerID K : Nat) (killedPlayers : HeapArray Nat) (stale : Nat → Nat),
      12 + 4 * K < 2147483648 →
      ∃ m, selfDestructMessage host playerID K killedPlayers stale = some m ∧
        m.size = 12 + 4 * K ∧ decodedLength host m = some (12 + 4 * K)) ∧
    (∀ (blast : BlastTest) (p : Nat) (r : RecvResult) (s : GameServer) (code : Int)
      (s1 : GameServer) (calls : List BroadcastCall) (d K : Nat) (killedPlayers : HeapArray Nat)
      (stale : Nat → Nat),
      processPlayerMessage host blast p r s = some (code, s1, calls) →
      BroadcastCall.selfDestruct d K killedPlayers ∈ calls →
      ∃ m, selfDestructMessage host d K killedPlayers stale = some m ∧
        m.size = 12 + 4 * K ∧ decodedLength host m = some (12 + 4 * K)) ∧
    (∀ (s : GameServer) (N : Nat), s.numAlivePlayers = N → 8 + 16 * N < 2147483648 →
      ∃ index m, mapUpdateMessage host s = some (index, m) ∧
        m.size = 8 + 16 * N ∧ decodedLength host m = some (8 + 16 * N)) := by
  refine ⟨decodeNumBytes_loadJoinResponse host, ?_, ?_, ?_, ?_⟩
  · intro playerID s
    refine ⟨?_, ?_⟩
    · simp only [newSpawnMessage, size_writeBytes]; rfl
    · unfold newSpawnMessage
      simp only [List.append_assoc]
      have : toUInt32 22 = 22 := by decide
      rw [this]
      exact decodedLength_header host _ 22 (by decide) _
  · intro playerID K killedPlayers stale hK
    exact selfDestructMessage_length host playerID K killedPlayers stale hK
  · intro blast p r s code s1 calls d K killedPlayers stale hrun hmem
    have hK := processPlayerMessage_selfDestruct_kills host blast p r s code s1 calls d K
      killedPlayers hrun hmem
    unfold PLAYER_LIMIT at hK
    exact selfDestructMessage_length host d K killedPlayers stale (by omega)
  · intro s N hN hbound
    have hsz : wrapInt32 (8 + 16 * s.numAlivePlayers) = ((8 + 16 * N : Nat) : Int) := by
      rw [hN]; unfold wrapInt32; omega
    have hspec := mapUpdateLoop_spec host s.players (List.range PLAYER_LIMIT) 8
      (writeBytes (HeapArray.alloc ((8 + 16 * N : Nat) : Int)) 0
        (fourBytes (htonl host (8 + 16 * N)) ++ [VERSION_NUM, SERVER_MAP_UPDATE,
          GET_BYTE_1 (htons host (toUInt32 s.numAlivePlayers)),
          GET_BYTE_0 (htons host (toUInt32 s.numAlivePlayers))]))
    have hrun : mapUpdateMessage host s = some (mapUpdateLoop host s.players
        (List.range PLAYER_LIMIT) 8
        (writeBytes (HeapArray.alloc ((8 + 16 * N : Nat) : Int)) 0
          (fourBytes (htonl host (8 + 16 * N)) ++ [VERSION_NUM, SERVER_MAP_UPDATE,
            GET_BYTE_1 (htons host (toUInt32 s.numAlivePlayers)),
            GET_BYTE_0 (htons host (toUInt32 s.numAlivePlayers))]))) := by
      unfold mapUpdateMessage
      simp only [hsz]
      rw [if_neg (by omega), toUInt32_natCast _ (by omega)]
    generalize mapUpdateLoop host s.players (List.range PLAYER_LIMIT) 8
        (writeBytes (HeapArray.alloc ((8 + 16 * N : Nat) : Int)) 0
          (fourBytes (htonl host (8 + 16 * N)) ++ [VERSION_NUM, SERVER_MAP_UPDATE,
            GET_BYTE_1 (htons host (toUInt32 s.numAlivePlayers)),
            GET_BYTE_0 (htons host (toUInt32 s.numAlivePlayers))])) = r at hspec hrun
    obtain ⟨index, m⟩ := r
    refine ⟨index, m, hrun, ?_, ?_⟩
    · have h1 := hspec.1
      simp only at h1
      rw [h1, size_writeBytes]
      simp [HeapArray.alloc]
    · rw [decodedLength_congr host _ _ (fun j hj => hspec.2 j (by omega))]
      exact decodedLength_header host _ _ (by omega) _

/-- C8 on a little-endian host: the join response for player 1; the Annihilation-Results for two
kills read from written cells; the Annihilation-Results that the handler builds when player 0 of
`chainServer` detonates, where the nested kill left cell 1 of `killedPlayers` unwritten; and the
map update of `chainServer` (`numAlivePlayers = 2`). -/
theorem constructed_messages_length_field_reads_back_witness :
    decodeNumBytes ByteOrder.littleEndian
      (loadJoinResponse ByteOrder.littleEndian 1 (List.replicate BUFFER_SIZE 0)) = 10 ∧
    (∃ m, selfDestructMessage ByteOrder.littleEndian 0 2 twoKilled (fun _ => 0) = some m ∧
      m.size = 12 + 4 * ((2 : Nat) : Int) ∧
      decodedLength ByteOrder.littleEndian m = some (12 + 4 * 2)) ∧
    (∃ s1 killedPlayers m,
      processPlayerMessage ByteOrder.littleEndian exactBlast 0
        (RecvResult.received annihilateFrame) chainServer
          = some (0, s1, [BroadcastCall.selfDestruct 0 2 killedPlayers]) ∧
      killedPlayers.read 1 = none ∧
      selfDestructMessage ByteOrder.littleEndian 0 2 killedPlayers (fun _ => 0x7F7F7F7F)
        = some m ∧
      m.size = 12 + 4 * ((2 : Nat) : Int) ∧
      decodedLength ByteOrder.littleEndian m = some (12 + 4 * 2)) ∧
    (∃ index m, mapUpdateMessage ByteOrder.littleEndian chainServer = some (index, m) ∧
      m.size = 8 + 16 * ((2 : Nat) : Int) ∧
      decodedLength ByteOrder.littleEndian m = some (8 + 16 * 2)) := by
  refine ⟨(constructed_messages_length_field_reads_back ByteOrder.littleEndian).1 1 _
      (by simp [BUFFER_SIZE]),
    (constructed_messages_length_field_reads_back ByteOrder.littleEndian).2.2.1 0 2 twoKilled
      (fun _ => 0) (by decide), ?_,
    (constructed_messages_length_field_reads_back ByteOrder.littleEndian).2.2.2.2 chainServer 2
      (by decide) (by decide)⟩
  have hcalls : (processPlayerMessage ByteOrder.littleEndian exactBlast 0
      (RecvResult.received annihilateFrame) chainServer).map (fun r => (r.1, r.2.2))
      = some (0, [BroadcastCall.selfDestruct 0 2
          (((HeapArray.alloc ((PLAYER_LIMIT : Int) - 1)).write 0 1).write 0 2)]) := by
    decide
  cases hrun : processPlayerMessage ByteOrder.littleEndian exactBlast 0
      (RecvResult.received annihilateFrame) chainServer with
  | none => rw [hrun] at hcalls; exact absurd hcalls (by simp)
  | some r =>
    obtain ⟨code, s1, calls⟩ := r
    rw [hrun] at hcalls
    simp only [Option.map_some', Option.some.injEq, Prod.mk.injEq] at hcalls
    obtain ⟨hc, hl⟩ := hcalls
    subst hc hl
    obtain ⟨m, hm, hsize, hdec⟩ :=
      (constructed_messages_length_field_reads_back ByteOrder.littleEndian).2.2.2.1 exactBlast
        0 (RecvResult.received annihilateFrame) chainServer 0 s1 _ 0 2
        (((HeapArray.alloc ((PLAYER_LIMIT : Int) - 1)).write 0 1).write 0 2)
        (fun _ => 0x7F7F7F7F) hrun (List.mem_singleton.mpr rfl)
    exact ⟨s1, _, m, rfl, by decide, hm, hsize, hdec⟩

end TCPGameServer
